import Mathlib

/-!
# Graph and result analysis of the epidemiology library

Shallow embedding of

* `cpp/epidemiology/graph.h` (`Edge`, `Graph`, `GraphSimulation`),
* `cpp/models/secir/analyze_result.cpp` (`interpolate_simulation_result`, `sum_nodes`,
  `ensemble_mean`, `ensemble_percentile`, `result_distance_2norm`),
* `cpp/memilio/utils/date.h` (`Date`, `offset_date_by_days`, `get_day_in_year`,
  `get_offset_in_days`, `parse_date`, serialization),
* `cpp/memilio/epidemiology/regions.cpp` (`get_state_id`, `get_holidays`),
* `cpp/memilio/utils/random_number_generator.h` (`DiscreteDistributionInPlace`),

and of the parts of the library that the sources only use or test (`Populations`,
`get_migration_factors`), which are modelled from the specification.

Conventions of the embedding.

* `size_t` indices are natural numbers, `int` days are integers; `double` is the
  field of rationals (exact arithmetic), so comparisons, floor and ceil are the
  mathematical ones.
* A C++ reference into a container is the index of the element.
* A failed `assert` and an access outside a container both make the embedded
  function return `none`.
-/

/-- A counting loop `for (k = 0; k < n; k++)` over the indices `ks` whose body may fail:
the first failure ends the run. -/
def for_each {σ : Type} (body : σ → Nat → Option σ) : List Nat → σ → Option σ
  | [], s => some s
  | k :: ks, s =>
    match body s k with
    | some s1 => for_each body ks s1
    | none => none

namespace epi

/-! ## graph.h -/

/-- Edge of the graph: `EdgeBase` (`start_node_idx`, `end_node_idx`) and the property. -/
structure Edge (EP : Type) where
  start_node_idx : Nat
  end_node_idx : Nat
  property : EP
deriving DecidableEq, Repr

/-- The comparison lambda that `Graph::add_edge` hands to `insert_sorted_replace`. -/
def edge_less {EP : Type} (e1 e2 : Edge EP) : Bool :=
  if e1.start_node_idx = e2.start_node_idx then decide (e1.end_node_idx < e2.end_node_idx)
  else decide (e1.start_node_idx < e2.start_node_idx)

/-- Modelled from the spec: `insert_sorted_replace` of `epidemiology/stl_util.h`, which is
not among the sources. The spec keeps the edges "sorted lexicographically by (start, end)"
and says "Edge insertion with duplicate key replaces": the item goes in front of the first
element that is not less than it (its lower bound); if that element is equivalent to the
item (neither is less than the other) it is overwritten instead. The result is the new
vector and the position of the item (the returned iterator). -/
def insert_sorted_replace {α : Type} (pred : α → α → Bool) : List α → α → List α × Nat
  | [], item => ([item], 0)
  | x :: xs, item =>
    if pred x item then
      ((x :: (insert_sorted_replace pred xs item).1), (insert_sorted_replace pred xs item).2 + 1)
    else if pred item x then (item :: x :: xs, 0)
    else (item :: xs, 0)

/-- The standard algorithm `std::equal_range(first, last, value, comp)` by its contract on
a range partitioned with respect to `value`: the pair (lower bound, upper bound), where
the lower bound is the first position whose element is not less than the value and the
upper bound the first position behind it whose element is greater than the value. The two
comparisons are `lo x = comp(x, value)` and `hi x = comp(value, x)`. -/
def equal_range {α : Type} (lo hi : α → Bool) (l : List α) : Nat × Nat :=
  let lb := (l.takeWhile lo).length
  (lb, lb + ((l.drop lb).takeWhile (fun x => !hi x)).length)

/-- The helper `make_range` of `stl_util.h` applied to a pair of positions: the elements
in between. -/
def make_range {α : Type} (l : List α) (b : Nat × Nat) : List α :=
  (l.drop b.1).take (b.2 - b.1)

/-- Generic graph structure: `m_nodes` and `m_edges`. -/
structure Graph (NP EP : Type) where
  m_nodes : List NP
  m_edges : List (Edge EP)
deriving DecidableEq, Repr

namespace Graph

variable {NP EP : Type}

/-- A default constructed graph. -/
def empty : Graph NP EP := ⟨[], []⟩

/-- `Graph::add_node`: appends the node; the returned reference is the index of the last
node. -/
def add_node (g : Graph NP EP) (n : NP) : Graph NP EP × Nat :=
  ({ g with m_nodes := g.m_nodes ++ [n] }, g.m_nodes.length)

/-- `Graph::add_edge`: `none` when the assertion on the node indices fails, otherwise the
graph after `insert_sorted_replace` and the position of the returned reference. -/
def add_edge (g : Graph NP EP) (start_node_idx end_node_idx : Nat) (p : EP) :
    Option (Graph NP EP × Nat) :=
  if g.m_nodes.length > start_node_idx ∧ g.m_nodes.length > end_node_idx then
    let r := insert_sorted_replace edge_less g.m_edges ⟨start_node_idx, end_node_idx, p⟩
    some ({ g with m_edges := r.1 }, r.2)
  else none

/-- `Graph::nodes`. -/
def nodes (g : Graph NP EP) : List NP := g.m_nodes

/-- `Graph::edges`. -/
def edges (g : Graph NP EP) : List (Edge EP) := g.m_edges

/-- The positions computed by the private `out_edges(b, e, idx)`: `std::equal_range` with
the comparison of `start_node_idx` against `OutEdgeBase(idx)`. -/
def out_edges_bounds (g : Graph NP EP) (node_idx : Nat) : Nat × Nat :=
  equal_range (fun e => decide (e.start_node_idx < node_idx))
    (fun e => decide (node_idx < e.start_node_idx)) g.m_edges

/-- `Graph::out_edges`: the range of edges going out from a node. -/
def out_edges (g : Graph NP EP) (node_idx : Nat) : List (Edge EP) :=
  make_range g.m_edges (g.out_edges_bounds node_idx)

end Graph

/-- One call of the public interface that builds a graph. -/
inductive GraphOp (NP EP : Type) where
  | add_node (n : NP)
  | add_edge (start_node_idx end_node_idx : Nat) (p : EP)
deriving DecidableEq, Repr

/-- Runs a sequence of `add_node` and `add_edge` calls on a graph; `none` as soon as an
`add_edge` violates its assertion. -/
def run_ops {NP EP : Type} : Graph NP EP → List (GraphOp NP EP) → Option (Graph NP EP)
  | g, [] => some g
  | g, GraphOp.add_node n :: ops => run_ops (g.add_node n).1 ops
  | g, GraphOp.add_edge s e p :: ops =>
    match g.add_edge s e p with
    | some r => run_ops r.1 ops
    | none => none

/-- The graphs a program can hold: those built from the empty graph through the public
interface. -/
def Graph.Built {NP EP : Type} (g : Graph NP EP) : Prop :=
  ∃ ops : List (GraphOp NP EP), run_ops Graph.empty ops = some g

/-- Strict lexicographic order on the keys `(start_node_idx, end_node_idx)`. -/
def EdgeLt {EP : Type} (a b : Edge EP) : Prop :=
  a.start_node_idx < b.start_node_idx ∨
    (a.start_node_idx = b.start_node_idx ∧ a.end_node_idx < b.end_node_idx)

/-- Lexicographic order on the keys `(start_node_idx, end_node_idx)`. -/
def EdgeLe {EP : Type} (a b : Edge EP) : Prop :=
  a.start_node_idx < b.start_node_idx ∨
    (a.start_node_idx = b.start_node_idx ∧ a.end_node_idx ≤ b.end_node_idx)

/-- Two edges have the same key. -/
def SameKey {EP : Type} (a b : Edge EP) : Prop :=
  a.start_node_idx = b.start_node_idx ∧ a.end_node_idx = b.end_node_idx

instance {EP : Type} (a b : Edge EP) : Decidable (EdgeLt a b) := by
  unfold EdgeLt; infer_instance

instance {EP : Type} (a b : Edge EP) : Decidable (EdgeLe a b) := by
  unfold EdgeLe; infer_instance

instance {EP : Type} (a b : Edge EP) : Decidable (SameKey a b) := by
  unfold SameKey; infer_instance

/-- The key of an edge is `(s, e)`. -/
def HasKey {EP : Type} (s e : Nat) (x : Edge EP) : Prop :=
  x.start_node_idx = s ∧ x.end_node_idx = e

instance {EP : Type} (s e : Nat) (x : Edge EP) : Decidable (HasKey s e x) := by
  unfold HasKey; infer_instance

/-- Invariant of the class `Graph`: the edges are strictly sorted by key and point to
existing nodes. -/
def Graph.Inv {NP EP : Type} (g : Graph NP EP) : Prop :=
  g.m_edges.Pairwise EdgeLt ∧
    ∀ x ∈ g.m_edges, x.start_node_idx < g.m_nodes.length ∧ x.end_node_idx < g.m_nodes.length

/-- The edges of a graph point to existing nodes. -/
def Graph.InRange {NP EP : Type} (g : Graph NP EP) : Prop :=
  ∀ x ∈ g.m_edges, x.start_node_idx < g.m_nodes.length ∧ x.end_node_idx < g.m_nodes.length

/-! ## GraphSimulation -/

/-- A call of one of the two functors of a `GraphSimulation`, with its arguments; node
references are given by their index. Ghost data: it records what `advance` does and is
read by nothing. -/
inductive Call (EP : Type) where
  | node (t dt : ℚ) (node_idx : Nat)
  | edge (t dt : ℚ) (property : EP) (start_node end_node : Nat)
deriving DecidableEq, Repr

/-- The edge functor `EdgeF`. It receives the edge property and the two nodes by reference
and may change all three: `apply` is its effect on two distinct nodes, `apply_same` its
effect when both references are the same node (an edge from a node to itself). -/
structure EdgeF (NP EP : Type) where
  apply : ℚ → ℚ → EP → NP → NP → EP × NP × NP
  apply_same : ℚ → ℚ → EP → NP → EP × NP

/-- The class `GraphSimulation`: its members, and the ghost history `calls` of the functor
calls made so far. The node functor receives the node by reference and may change it. -/
structure GraphSimulation (NP EP : Type) where
  m_t : ℚ
  m_dt : ℚ
  m_graph : Graph NP EP
  m_node_func : ℚ → ℚ → NP → NP
  m_edge_func : EdgeF NP EP
  calls : List (Call EP)

namespace GraphSimulation

variable {NP EP : Type}

/-- Body of the first loop of `advance` for the node at position `i`:
`m_node_func(m_t, m_dt, n)`. -/
def node_call (sim : GraphSimulation NP EP) (i : Nat) : Option (GraphSimulation NP EP) :=
  match sim.m_graph.m_nodes[i]? with
  | none => none
  | some n =>
    some { sim with
      m_graph := { sim.m_graph with
        m_nodes := sim.m_graph.m_nodes.set i (sim.m_node_func sim.m_t sim.m_dt n) }
      calls := sim.calls ++ [Call.node sim.m_t sim.m_dt i] }

/-- Body of the second loop of `advance` for the edge at position `j`:
`m_edge_func(m_t, m_dt, e.property, nodes()[e.start_node_idx], nodes()[e.end_node_idx])`. -/
def edge_call (sim : GraphSimulation NP EP) (j : Nat) : Option (GraphSimulation NP EP) :=
  match sim.m_graph.m_edges[j]? with
  | none => none
  | some e =>
    match sim.m_graph.m_nodes[e.start_node_idx]?, sim.m_graph.m_nodes[e.end_node_idx]? with
    | some n1, some n2 =>
      let c := Call.edge sim.m_t sim.m_dt e.property e.start_node_idx e.end_node_idx
      if e.start_node_idx = e.end_node_idx then
        let r := sim.m_edge_func.apply_same sim.m_t sim.m_dt e.property n1
        some { sim with
          m_graph :=
            { m_nodes := sim.m_graph.m_nodes.set e.start_node_idx r.2
              m_edges := sim.m_graph.m_edges.set j { e with property := r.1 } }
          calls := sim.calls ++ [c] }
      else
        let r := sim.m_edge_func.apply sim.m_t sim.m_dt e.property n1 n2
        some { sim with
          m_graph :=
            { m_nodes := (sim.m_graph.m_nodes.set e.start_node_idx r.2.1).set e.end_node_idx r.2.2
              m_edges := sim.m_graph.m_edges.set j { e with property := r.1 } }
          calls := sim.calls ++ [c] }
    | _, _ => none

/-- One pass of the loop body of `advance`: all nodes, then `m_t += m_dt`, then all
edges. -/
def advance_step (sim : GraphSimulation NP EP) : Option (GraphSimulation NP EP) :=
  match for_each node_call (List.range sim.m_graph.m_nodes.length) sim with
  | none => none
  | some s1 =>
    let s2 := { s1 with m_t := s1.m_t + s1.m_dt }
    for_each edge_call (List.range s2.m_graph.m_edges.length) s2

/-- The loop `for (int i = 0; i < n_steps; i++)` of `advance`, by the number of passes
left. -/
def advance_loop : Nat → GraphSimulation NP EP → Option (GraphSimulation NP EP)
  | 0, sim => some sim
  | k + 1, sim =>
    match advance_step sim with
    | some s1 => advance_loop k s1
    | none => none

/-- `GraphSimulation::advance(n_steps)`; the C++ default of `n_steps` is 1. A count that is
not positive runs no pass. -/
def advance (sim : GraphSimulation NP EP) (n_steps : Int) : Option (GraphSimulation NP EP) :=
  advance_loop n_steps.toNat sim

/-- `GraphSimulation::get_t`. -/
def get_t (sim : GraphSimulation NP EP) : ℚ := sim.m_t

/-- `GraphSimulation::get_graph`. -/
def get_graph (sim : GraphSimulation NP EP) : Graph NP EP := sim.m_graph

end GraphSimulation

/-- The constructor of `GraphSimulation` (also `make_graph_sim`); no call has been made
yet. -/
def make_graph_sim {NP EP : Type} (t0 dt : ℚ) (g : Graph NP EP) (node_func : ℚ → ℚ → NP → NP)
    (edge_func : EdgeF NP EP) : GraphSimulation NP EP :=
  ⟨t0, dt, g, node_func, edge_func, []⟩

/-- A simulation on two nodes with the edges `(0,1)` and `(1,0)`, starting at time 0 with
the step 1/2; the node function adds one to a node, the edge function moves the property
from the start node to the end node. -/
def graph_sim_test : GraphSimulation Nat Nat :=
  make_graph_sim 0 (1 / 2) ⟨[10, 20], [⟨0, 1, 3⟩, ⟨1, 0, 4⟩]⟩ (fun _ _ n => n + 1)
    ⟨fun _ _ p a b => (p, a - p, b + p), fun _ _ p a => (p, a)⟩

end epi

namespace mio

/-! ## Time series and Eigen vectors -/

/-- Modelled from the spec: the class `TimeSeries<double>` of `utils/time_series.h`, which
is not among the sources. The spec describes "a time series (monotone times, value vectors
of length A·8)" that is "append-only (time series grows forward)": a number of elements
and the list of time points, each a time and a value vector. -/
structure TimeSeries where
  num_elements : Nat
  data : List (ℚ × List ℚ)
deriving DecidableEq, Repr

namespace TimeSeries

/-- Every value vector of the series has `num_elements` entries: the series is a matrix. -/
def wf (ts : TimeSeries) : Prop := ∀ p ∈ ts.data, p.2.length = ts.num_elements

instance (ts : TimeSeries) : Decidable ts.wf := by
  unfold wf; infer_instance

/-- `TimeSeries::get_num_time_points`. -/
def get_num_time_points (ts : TimeSeries) : Nat := ts.data.length

/-- `TimeSeries::get_num_elements`. -/
def get_num_elements (ts : TimeSeries) : Nat := ts.num_elements

/-- `TimeSeries::add_time_point(t, v)`: appends a time point. -/
def add_time_point (ts : TimeSeries) (t : ℚ) (v : List ℚ) : TimeSeries :=
  { ts with data := ts.data ++ [(t, v)] }

/-- `TimeSeries::zero(num_time_points, num_elements)`: all times and values zero. -/
def zero (num_time_points num_elements : Nat) : TimeSeries :=
  ⟨num_elements, List.replicate num_time_points (0, List.replicate num_elements 0)⟩

/-- The time point at position `j` (the default `(0, [])` is never read inside the
series). -/
def point (ts : TimeSeries) (j : Nat) : ℚ × List ℚ := ts.data.getD j (0, [])

/-- The times of the series, in order. -/
def times (ts : TimeSeries) : List ℚ := ts.data.map Prod.fst

/-- The value vectors of the series, in order. -/
def values (ts : TimeSeries) : List (List ℚ) := ts.data.map Prod.snd

end TimeSeries

/-- The series of the test `TestInterpolateTimeSeries.aFewMoreComplexValues`. -/
def ts_complex : TimeSeries := ⟨2, [(0, [1, 2]), (3 / 2, [3, 10]), (21 / 10, [5, 3])]⟩

/-- A series with one time point on each of the days 2, 3 and 4. -/
def ts_daily : TimeSeries := ⟨2, [(2, [1, 2]), (3, [3, 10]), (4, [5, 3])]⟩

/-- Sum of two Eigen vectors. -/
def vadd (a b : List ℚ) : List ℚ := List.zipWith (fun x y => x + y) a b

/-- Difference of two Eigen vectors. -/
def vsub (a b : List ℚ) : List ℚ := List.zipWith (fun x y => x - y) a b

/-- Eigen vector times scalar. -/
def vscale (a : List ℚ) (w : ℚ) : List ℚ := a.map (fun x => x * w)

/-- Eigen vector divided by scalar. -/
def vdiv (a : List ℚ) (c : ℚ) : List ℚ := a.map (fun x => x / c)

/-! ## interpolate_simulation_result -/

/-- The interpolated value that the loop of `interpolate_simulation_result` adds for `day`
between the time points `a` and `b`:
`weight = (day - t_a) / (t_b - t_a)` and `v_a + (v_b - v_a) * weight`. -/
def interpolate_point (a b : ℚ × List ℚ) (day : ℤ) : List ℚ :=
  vadd a.2 (vscale (vsub b.2 a.2) (((day : ℚ) - a.1) / (b.1 - a.1)))

/-- The loop `for (int i = 0; i < num_time_points - 1;)` of
`interpolate_simulation_result`, from the state `(i, day, interpolated)`; it returns the
final `day` and the final series. It ends for every input: a pass either moves to the
next pair of time points or adds a day that is at most the later time of the pair. -/
def interpolate_loop (r : TimeSeries) (i : Nat) (day : ℤ) (interpolated : TimeSeries) :
    ℤ × TimeSeries :=
  if h : i + 1 < r.data.length then
    if (r.data[i]).1 < (day : ℚ) ∧ (r.data[i + 1]).1 ≥ (day : ℚ) then
      interpolate_loop r i (day + 1)
        (interpolated.add_time_point (day : ℚ) (interpolate_point r.data[i] r.data[i + 1] day))
    else
      interpolate_loop r (i + 1) day interpolated
  else (day, interpolated)
termination_by (r.data.length - i, (⌊(r.data.getD (i + 1) (0, [])).1⌋ + 1 - day).toNat)
decreasing_by
  · apply Prod.Lex.right
    rename_i hc
    have h2 : ((day : ℤ) : ℚ) ≤ (r.data[i + 1]).1 := hc.2
    have h3 : day ≤ ⌊(r.data[i + 1]).1⌋ := Int.le_floor.2 h2
    have h4 : r.data.getD (i + 1) (0, []) = r.data[i + 1] := by
      simp [List.getD_eq_getElem?_getD, List.getElem?_eq_getElem h]
    rw [h4]
    omega
  · apply Prod.Lex.left
    omega

/-- `interpolate_simulation_result`: `none` when the assertion "TimeSeries must not be
empty" fails. The days are unbounded integers: the conversions of `floor(t0)` and
`ceil(tmax)` to `int` are taken without overflow. `reserve` has no effect on the value. -/
def interpolate_simulation_result (simulation_result : TimeSeries) : Option TimeSeries :=
  if h : simulation_result.get_num_time_points > 0 then
    have h0 : 0 < simulation_result.data.length := h
    have h1 : simulation_result.data.length - 1 < simulation_result.data.length := by omega
    let t0 := (simulation_result.data[0]).1
    let tmax := (simulation_result.data[simulation_result.data.length - 1]).1
    let day0 : ℤ := ⌊t0⌋
    let day_max : ℤ := ⌈tmax⌉
    let interpolated : TimeSeries :=
      (TimeSeries.mk simulation_result.get_num_elements []).add_time_point (day0 : ℚ)
        (simulation_result.data[0]).2
    let r := interpolate_loop simulation_result 0 (day0 + 1) interpolated
    if (day_max : ℚ) > tmax then
      some (r.2.add_time_point (r.1 : ℚ)
        (simulation_result.data[simulation_result.data.length - 1]).2)
    else some r.2
  else none

end mio

namespace mio

/-! ## Ensemble results: `ensemble_mean` and `ensemble_percentile` -/

/-- Reads `result[node].get_time(time)`. -/
def read_time (result : List TimeSeries) (node time : Nat) : Option ℚ :=
  match result[node]? with
  | none => none
  | some ts =>
    match ts.data[time]? with
    | none => none
    | some p => some p.1

/-- Reads the vector `result[node][time]`. -/
def read_value (result : List TimeSeries) (node time : Nat) : Option (List ℚ) :=
  match result[node]? with
  | none => none
  | some ts =>
    match ts.data[time]? with
    | none => none
    | some p => some p.2

/-- Reads `result[node][time][elem]`. -/
def read_elem (result : List TimeSeries) (node time elem : Nat) : Option ℚ :=
  match read_value result node time with
  | none => none
  | some v => v[elem]?

/-- The assignment `result[node].get_time(time) = t`. -/
def write_time (result : List TimeSeries) (node time : Nat) (t : ℚ) :
    Option (List TimeSeries) :=
  match result[node]? with
  | none => none
  | some ts =>
    match ts.data[time]? with
    | none => none
    | some p => some (result.set node { ts with data := ts.data.set time (t, p.2) })

/-- The assignment `result[node][time] = v` of a whole vector. -/
def write_value (result : List TimeSeries) (node time : Nat) (v : List ℚ) :
    Option (List TimeSeries) :=
  match result[node]? with
  | none => none
  | some ts =>
    match ts.data[time]? with
    | none => none
    | some p => some (result.set node { ts with data := ts.data.set time (p.1, v) })

/-- The assignment `result[node][time][elem] = x`. -/
def write_elem (result : List TimeSeries) (node time elem : Nat) (x : ℚ) :
    Option (List TimeSeries) :=
  match read_value result node time with
  | none => none
  | some v => if elem < v.length then write_value result node time (v.set elem x) else none

/-- Body of the innermost loop of `ensemble_mean` for the series `ts` of the current run
and node: the assertion on the number of elements, then
`mean[node].get_time(time) = ts.get_time(time)` and `mean[node][time] += ts[time] / num_runs`. -/
def ensemble_mean_time (ts : TimeSeries) (node num_runs num_elements : Nat)
    (mean : List TimeSeries) (time : Nat) : Option (List TimeSeries) :=
  if ts.get_num_elements = num_elements then
    match ts.data[time]? with
    | none => none
    | some p =>
      match write_time mean node time p.1 with
      | none => none
      | some m1 =>
        match read_value m1 node time with
        | none => none
        | some mv => write_value m1 node time (vadd mv (vdiv p.2 (num_runs : ℚ)))
  else none

/-- Body of the loop over the nodes of `ensemble_mean` for the current run: the assertion
on the number of time points, then the loop over the time points. -/
def ensemble_mean_node (run : List TimeSeries) (num_runs num_time_points num_elements : Nat)
    (mean : List TimeSeries) (node : Nat) : Option (List TimeSeries) :=
  match run[node]? with
  | none => none
  | some ts =>
    if ts.get_num_time_points = num_time_points then
      for_each (ensemble_mean_time ts node num_runs num_elements) (List.range num_time_points)
        mean
    else none

/-- Body of the loop over the runs of `ensemble_mean`: the assertion on the number of
nodes, then the loop over the nodes. -/
def ensemble_mean_run (ensemble_result : List (List TimeSeries))
    (num_nodes num_time_points num_elements : Nat) (mean : List TimeSeries) (run : Nat) :
    Option (List TimeSeries) :=
  match ensemble_result[run]? with
  | none => none
  | some r =>
    if r.length = num_nodes then
      for_each (ensemble_mean_node r ensemble_result.length num_time_points num_elements)
        (List.range num_nodes) mean
    else none

/-- `ensemble_mean`. The sizes are read from `ensemble_result[0]` and
`ensemble_result[0][0]`; `none` when one of them is missing or an assertion "ensemble results
not uniform" fails. -/
def ensemble_mean (ensemble_result : List (List TimeSeries)) : Option (List TimeSeries) :=
  match ensemble_result[0]? with
  | none => none
  | some run0 =>
    match run0[0]? with
    | none => none
    | some ts00 =>
      let num_runs := ensemble_result.length
      let num_nodes := run0.length
      let num_time_points := ts00.get_num_time_points
      let num_elements := ts00.get_num_elements
      let mean := List.replicate num_nodes (TimeSeries.zero num_time_points num_elements)
      for_each (ensemble_mean_run ensemble_result num_nodes num_time_points num_elements)
        (List.range num_runs) mean

/-- The `std::transform` of `ensemble_percentile`: the values `run[node][time][elem]` of all
runs, in the order of the runs. -/
def single_element_ensemble : List (List TimeSeries) → Nat → Nat → Nat → Option (List ℚ)
  | [], _, _, _ => some []
  | run :: runs, node, time, elem =>
    match read_elem run node time elem, single_element_ensemble runs node time elem with
    | some x, some xs => some (x :: xs)
    | _, _ => none

/-- Body of the innermost loop of `ensemble_percentile`: gather the values of all runs,
`std::sort` them (ascending) and store the entry at index
`static_cast<size_t>(num_runs * p)`. -/
def ensemble_percentile_elem (ensemble_result : List (List TimeSeries)) (p : ℚ)
    (node time : Nat) (percentile : List TimeSeries) (elem : Nat) : Option (List TimeSeries) :=
  match single_element_ensemble ensemble_result node time elem with
  | none => none
  | some single =>
    match (single.insertionSort (fun a b => a ≤ b))[
        (⌊(ensemble_result.length : ℚ) * p⌋).toNat]? with
    | none => none
    | some x => write_elem percentile node time elem x

/-- Body of the loop over the time points of `ensemble_percentile`:
`percentile[node].get_time(time) = ensemble_result[0][node].get_time(time)`, then the loop
over the elements. -/
def ensemble_percentile_time (ensemble_result : List (List TimeSeries)) (p : ℚ)
    (run0 : List TimeSeries) (num_elements node : Nat) (percentile : List TimeSeries)
    (time : Nat) : Option (List TimeSeries) :=
  match read_time run0 node time with
  | none => none
  | some t =>
    match write_time percentile node time t with
    | none => none
    | some p1 =>
      for_each (ensemble_percentile_elem ensemble_result p node time) (List.range num_elements)
        p1

/-- Body of the loop over the nodes of `ensemble_percentile`. -/
def ensemble_percentile_node (ensemble_result : List (List TimeSeries)) (p : ℚ)
    (run0 : List TimeSeries) (num_time_points num_elements : Nat) (percentile : List TimeSeries)
    (node : Nat) : Option (List TimeSeries) :=
  for_each (ensemble_percentile_time ensemble_result p run0 num_elements node)
    (List.range num_time_points) percentile

/-- `ensemble_percentile`; `none` when the assertion "Invalid percentile value" fails or
an access leaves a container. -/
def ensemble_percentile (ensemble_result : List (List TimeSeries)) (p : ℚ) :
    Option (List TimeSeries) :=
  if 0 < p ∧ p < 1 then
    match ensemble_result[0]? with
    | none => none
    | some run0 =>
      match run0[0]? with
      | none => none
      | some ts00 =>
        let num_nodes := run0.length
        let num_time_points := ts00.get_num_time_points
        let num_elements := ts00.get_num_elements
        let percentile := List.replicate num_nodes (TimeSeries.zero num_time_points num_elements)
        for_each (ensemble_percentile_node ensemble_result p run0 num_time_points num_elements)
          (List.range num_nodes) percentile
  else none

/-- A list of `N` series (one per node) that all have `T` time points and `E` elements
(and are matrices). -/
def Shape (result : List TimeSeries) (N T E : Nat) : Prop :=
  result.length = N ∧ ∀ ts ∈ result, ts.data.length = T ∧ ts.num_elements = E ∧ ts.wf

instance (result : List TimeSeries) (N T E : Nat) : Decidable (Shape result N T E) := by
  unfold Shape; infer_instance

/-- A uniform ensemble: every run has `N` nodes and every series of it has `T` time points
and `E` elements. -/
def Uniform (ensemble_result : List (List TimeSeries)) (N T E : Nat) : Prop :=
  ∀ run ∈ ensemble_result, Shape run N T E

instance (ensemble_result : List (List TimeSeries)) (N T E : Nat) :
    Decidable (Uniform ensemble_result N T E) := by
  unfold Uniform; infer_instance

/-- The value of a run at `(node, time, elem)`, zero outside the run. -/
def run_value (run : List TimeSeries) (node time elem : Nat) : ℚ :=
  (read_elem run node time elem).getD 0

/-- The values of all runs at `(node, time, elem)`, in the order of the runs. -/
def run_values (ensemble_result : List (List TimeSeries)) (node time elem : Nat) : List ℚ :=
  ensemble_result.map (fun run => run_value run node time elem)

/-- The entry of the ascending sort of the run values at `(node, time, elem)` at the index
`floor(num_runs * p)`. -/
def percentile_value (ensemble_result : List (List TimeSeries)) (p : ℚ) (node time elem : Nat) :
    Option ℚ :=
  ((run_values ensemble_result node time elem).insertionSort (fun a b => a ≤ b))[
    (⌊(ensemble_result.length : ℚ) * p⌋).toNat]?

/-- Progress of the loops of `ensemble_percentile`: the result has its shape, every entry
that comes before `(node, time, elem)` in the order of the loops holds its percentile, and
the time is set for every `(n, t)` before `(node, tt)`. -/
def PercentileInv (ensemble_result : List (List TimeSeries)) (p : ℚ) (run0 : List TimeSeries)
    (N T E node time elem tt : Nat) (s : List TimeSeries) : Prop :=
  Shape s N T E ∧
  (∀ n t e, n < N → t < T → e < E →
    (n < node ∨ (n = node ∧ (t < time ∨ (t = time ∧ e < elem)))) →
    read_elem s n t e = percentile_value ensemble_result p n t e) ∧
  (∀ n t, n < N → t < T → (n < node ∨ (n = node ∧ t < tt)) →
    read_time s n t = read_time run0 n t)

/-- The sum of `value / num_runs` over the first `j` runs at `(node, time, elem)`. -/
def mean_so_far (ensemble_result : List (List TimeSeries)) (j node time elem : Nat) : ℚ :=
  (((run_values ensemble_result node time elem).take j).map
    (fun x => x / (ensemble_result.length : ℚ))).sum

/-- The time that `ensemble_mean` holds at `(node, time)` after `j` runs: zero at first,
then the time of the last run that was added. -/
def mean_time (ensemble_result : List (List TimeSeries)) (j node time : Nat) : Option ℚ :=
  match j with
  | 0 => some 0
  | j + 1 =>
    match ensemble_result[j]? with
    | none => none
    | some run => read_time run node time

/-- Progress of the loops of `ensemble_mean` in run `k`: the result has its shape; the
positions `(n, t)` before `(node, time)` hold the sums and times of `k + 1` runs, the other
positions those of `k` runs. -/
def MeanInv (ensemble_result : List (List TimeSeries)) (N T E k node time : Nat)
    (s : List TimeSeries) : Prop :=
  Shape s N T E ∧
  (∀ n t e, n < N → t < T → e < E →
    read_elem s n t e = some (mean_so_far ensemble_result
      (if n < node ∨ (n = node ∧ t < time) then k + 1 else k) n t e)) ∧
  (∀ n t, n < N → t < T →
    read_time s n t = mean_time ensemble_result
      (if n < node ∨ (n = node ∧ t < time) then k + 1 else k) n t)

/-- The ensemble of the test `TestEnsembleMean.basic`: two runs, two nodes, three time
points, one element. -/
def ensemble_mean_test : List (List TimeSeries) :=
  [[⟨1, [(3, [0]), (4, [1]), (5, [2])]⟩, ⟨1, [(3, [0]), (4, [1]), (5, [2])]⟩],
   [⟨1, [(3, [1 / 2]), (4, [3]), (5, [0])]⟩, ⟨1, [(3, [3 / 2]), (4, [1 / 2]), (5, [1])]⟩]]

/-- The ensemble of the test `TestEnsemblePercentile.basic`: four runs, two nodes, three
time points, two elements. -/
def ensemble_percentile_test : List (List TimeSeries) :=
  [[⟨2, [(1, [0, 0]), (2, [0, 0]), (3, [0, 0])]⟩, ⟨2, [(1, [1 / 5, 0]), (2, [0, 0]), (3, [0, 0])]⟩],
   [⟨2, [(1, [0, 0]), (2, [0, 1]), (3, [0, 0])]⟩, ⟨2, [(1, [1 / 10, 0]), (2, [0, 0]), (3, [0, 0])]⟩],
   [⟨2, [(1, [0, 0]), (2, [0, 2]), (3, [0, 0])]⟩, ⟨2, [(1, [3 / 10, 0]), (2, [0, 0]), (3, [0, 0])]⟩],
   [⟨2, [(1, [0, 0]), (2, [0, 3]), (3, [0, 0])]⟩, ⟨2, [(1, [0, 0]), (2, [0, 0]), (3, [0, 0])]⟩]]

end mio

namespace mio

/-! ## sum_nodes -/

/-- Body of the innermost loop of `sum_nodes` for the series `run` of the current run:
`sum[0][time] += run[node][time]`. Eigen asserts that the two vectors have the same
size. -/
def sum_nodes_node (run : List TimeSeries) (time : Nat) (sum : List TimeSeries) (node : Nat) :
    Option (List TimeSeries) :=
  match read_value run node time with
  | none => none
  | some v =>
    match read_value sum 0 time with
    | none => none
    | some sv => if sv.length = v.length then write_value sum 0 time (vadd sv v) else none

/-- Body of the loop over the time points of `sum_nodes` for the current run:
`sum[0].get_time(time) = run[0].get_time(time)`, then the loop over the nodes. -/
def sum_nodes_time (run : List TimeSeries) (num_nodes : Nat) (sum : List TimeSeries)
    (time : Nat) : Option (List TimeSeries) :=
  match read_time run 0 time with
  | none => none
  | some t =>
    match write_time sum 0 time t with
    | none => none
    | some s1 => for_each (sum_nodes_node run time) (List.range num_nodes) s1

/-- Body of the loop over the runs of `sum_nodes`: the loop over the time points, working
on `sum_result[run]`. -/
def sum_nodes_run (ensemble_result : List (List TimeSeries)) (num_nodes num_time_points : Nat)
    (sum_result : List (List TimeSeries)) (run : Nat) : Option (List (List TimeSeries)) :=
  match ensemble_result[run]?, sum_result[run]? with
  | some r, some s =>
    match for_each (sum_nodes_time r num_nodes) (List.range num_time_points) s with
    | none => none
    | some s1 => some (sum_result.set run s1)
  | _, _ => none

/-- `sum_nodes`. The sizes are read from `ensemble_result[0]` and `ensemble_result[0][0]`;
`none` when an access leaves a container or two vectors of different size are added. -/
def sum_nodes (ensemble_result : List (List TimeSeries)) : Option (List (List TimeSeries)) :=
  match ensemble_result[0]? with
  | none => none
  | some run0 =>
    match run0[0]? with
    | none => none
    | some ts00 =>
      let num_runs := ensemble_result.length
      let num_nodes := run0.length
      let num_time_points := ts00.get_num_time_points
      let num_elements := ts00.get_num_elements
      let sum_result := List.replicate num_runs
        (List.replicate 1 (TimeSeries.zero num_time_points num_elements))
      for_each (sum_nodes_run ensemble_result num_nodes num_time_points) (List.range num_runs)
        sum_result

/-- The sum of the values of the first `j` nodes of a run at `(time, elem)`. -/
def node_sum (run : List TimeSeries) (j time elem : Nat) : ℚ :=
  ((List.range j).map (fun node => run_value run node time elem)).sum

/-- Progress of the loops of `sum_nodes` within one run: the sum series has its shape; the
time points before `time` hold the sum of all `N` nodes, the time point `time` the sum of
the first `node` nodes, the later ones zero; the time is set for the time points before
`tt`. -/
def SumInv (run : List TimeSeries) (N T E time node tt : Nat) (s : List TimeSeries) : Prop :=
  Shape s 1 T E ∧
  (∀ t e, t < T → e < E →
    read_elem s 0 t e =
      some (node_sum run (if t < time then N else if t = time then node else 0) t e)) ∧
  (∀ t, t < T → t < tt → read_time s 0 t = read_time run 0 t)

/-- Progress of the loop over the runs of `sum_nodes`: the runs before `k` are summed, the
others still hold the initial zero series. -/
def SumRunsInv (ensemble_result : List (List TimeSeries)) (N T E k : Nat)
    (sum_result : List (List TimeSeries)) : Prop :=
  sum_result.length = ensemble_result.length ∧
  (∀ r, r < k → ∃ run s, ensemble_result[r]? = some run ∧ sum_result[r]? = some s ∧
    SumInv run N T E T 0 T s) ∧
  (∀ r, k ≤ r → r < ensemble_result.length →
    sum_result[r]? = some (List.replicate 1 (TimeSeries.zero T E)))

/-- The ensemble of the test `TestEnsembleSum.basic`: two runs, three nodes, three time
points, one element. -/
def ensemble_sum_test : List (List TimeSeries) :=
  [[⟨1, [(3, [0]), (4, [1]), (5, [2])]⟩, ⟨1, [(3, [3]), (4, [4]), (5, [5])]⟩,
    ⟨1, [(3, [6]), (4, [7]), (5, [8])]⟩],
   [⟨1, [(3, [1 / 2]), (4, [2]), (5, [5])]⟩, ⟨1, [(3, [15 / 2]), (4, [19 / 2]), (5, [1])]⟩,
    ⟨1, [(3, [3 / 2]), (4, [5 / 2]), (5, [3])]⟩]]

/-- A ragged ensemble: the second run has fewer nodes than the first. -/
def ensemble_fewer_nodes : List (List TimeSeries) :=
  [[⟨1, [(0, [1])]⟩, ⟨1, [(0, [2])]⟩], [⟨1, [(0, [3])]⟩]]

/-- A ragged ensemble: the series of the second run has fewer time points than the series
of the first. -/
def ensemble_fewer_time_points : List (List TimeSeries) :=
  [[⟨1, [(0, [1]), (1, [2])]⟩], [⟨1, [(0, [3])]⟩]]

end mio

namespace mio

/-! ## date.h -/

/-- The struct `Date`: year, month and day as `int`. -/
structure Date where
  year : ℤ
  month : ℤ
  day : ℤ
deriving DecidableEq, Repr

/-- The initializing constructor `Date(y, m, d)`: `none` when one of its two assertions
(month in 1..12, day in 1..31) fails. -/
def Date.make (y m d : ℤ) : Option Date :=
  if 0 < m ∧ m < 13 then
    if 0 < d ∧ d < 32 then some ⟨y, m, d⟩ else none
  else none

/-- The comparison `std::tie(a.year, a.month, a.day) < std::tie(b.year, b.month, b.day)`:
lexicographic. -/
def tie_less (a b : Date) : Bool :=
  decide (a.year < b.year ∨ (a.year = b.year ∧
    (a.month < b.month ∨ (a.month = b.month ∧ a.day < b.day))))

/-- The leap year test written out in `date.h`:
`((year % 4 == 0) && (year % 100 != 0)) || (year % 400 == 0)` with the remainder of C++
(truncated division). -/
def is_leap_year (year : ℤ) : Bool :=
  (decide (Int.tmod year 4 = 0) && decide (Int.tmod year 100 ≠ 0)) ||
    decide (Int.tmod year 400 = 0)

/-- The array `month_len` that `date.h` fills in for a year. -/
def month_len (year : ℤ) : List ℤ :=
  if is_leap_year year then [31, 29, 31, 30, 31, 30, 31, 31, 30, 31, 30, 31]
  else [31, 28, 31, 30, 31, 30, 31, 31, 30, 31, 30, 31]

/-- The standard algorithm `std::partial_sum` (running sums), started with `acc`. -/
def partial_sum_from (acc : ℤ) : List ℤ → List ℤ
  | [] => []
  | x :: xs => (acc + x) :: partial_sum_from (acc + x) xs

/-- The array `part_sum` of `date.h`: `std::partial_sum` of `month_len`. -/
def part_sum (year : ℤ) : List ℤ := partial_sum_from 0 (month_len year)

/-- Reads `array[i]` for an index that is inside the array (the assertions of `date.h`
keep all indices inside; outside the default 0 is read). -/
def at_index (array : List ℤ) (i : ℤ) : ℤ := array.getD i.toNat 0

/-- `offset_date_by_days`: `none` when the assertion on month and day fails. The two
recursive calls construct the dates `{year + 1, 1, 1}` and `{year - 1, 12, 31}`, for which
the assertions of the constructor hold. -/
def offset_date_by_days (date : Date) (offset_days : ℤ) : Option Date :=
  if h : 0 < date.month ∧ date.month < 13 ∧ 0 < date.day ∧ date.day < 32 then
    if date.day + offset_days > 0 ∧
        date.day + offset_days ≤ at_index (month_len date.year) (date.month - 1) then
      Date.make date.year date.month (date.day + offset_days)
    else
      let day_in_year :=
        if date.month > 1 then
          date.day + offset_days + at_index (part_sum date.year) (date.month - 2)
        else date.day + offset_days
      if day_in_year > 0 ∧ day_in_year ≤ at_index (part_sum date.year) 11 then
        let i : ℤ := ((part_sum date.year).findIdx (fun s => decide (day_in_year ≤ s)) : ℕ)
        Date.make date.year (i + 1)
          (day_in_year - (if i > 0 then at_index (part_sum date.year) (i - 1) else 0))
      else
        if day_in_year > 0 then
          offset_date_by_days ⟨date.year + 1, 1, 1⟩
            (day_in_year - at_index (part_sum date.year) 11 - 1)
        else
          offset_date_by_days ⟨date.year - 1, 12, 31⟩ day_in_year
  else none
termination_by offset_days.natAbs
decreasing_by
  all_goals simp_wf
  all_goals
    rename_i _ h2 h3
    obtain ⟨hm1, hm2, hd1, hd2⟩ := h
    have hB : 0 ≤ at_index (part_sum date.year) (date.month - 2) ∧
        at_index (part_sum date.year) (date.month - 2) + 31 ≤
          at_index (part_sum date.year) 11 := by
      have hm : date.month = 1 ∨ date.month = 2 ∨ date.month = 3 ∨ date.month = 4 ∨
          date.month = 5 ∨ date.month = 6 ∨ date.month = 7 ∨ date.month = 8 ∨
          date.month = 9 ∨ date.month = 10 ∨ date.month = 11 ∨ date.month = 12 := by omega
      cases hl : is_leap_year date.year <;>
      rcases hm with hm | hm | hm | hm | hm | hm | hm | hm | hm | hm | hm | hm <;>
      simp [hm, hl, part_sum, month_len, partial_sum_from, at_index]
    unfold day_in_year at h2 h3
    by_cases hgt : date.month > 1
    · simp only [hgt, dite_true, if_true, gt_iff_lt] at h2 h3 ⊢
      omega
    · have hle : ¬ 1 < date.month := hgt
      simp only [hgt, hle, dite_false, if_false, gt_iff_lt] at h2 h3 ⊢
      omega

/-- `get_day_in_year`: `none` when the assertion on month and day fails. -/
def get_day_in_year (date : Date) : Option ℤ :=
  if 0 < date.month ∧ date.month < 13 ∧ 0 < date.day ∧ date.day < 32 then
    if date.month > 1 then
      some (at_index (part_sum date.year) (date.month - 2) + date.day)
    else some date.day
  else none

/-- The loop `for (int i = year1; i < year2; i++)` of `get_offset_in_days`, which adds 365
per year and one more for a leap year. -/
def sum_days_loop (i year2 sum_days : ℤ) : ℤ :=
  if i < year2 then
    sum_days_loop (i + 1) year2 (sum_days + 365 + (if is_leap_year i then 1 else 0))
  else sum_days
termination_by (year2 - i).toNat
decreasing_by
  simp_wf
  omega

/-- `get_offset_in_days`: first date minus second date; `none` when an assertion of
`get_day_in_year` fails. -/
def get_offset_in_days (date1 date2 : Date) : Option ℤ :=
  if date1.year = date2.year ∧ date1.month = date2.month then some (date1.day - date2.day)
  else
    match get_day_in_year date1, get_day_in_year date2 with
    | some day_in_year1, some day_in_year2 =>
      if date1.year < date2.year then
        some (-(sum_days_loop date1.year date2.year 0 - day_in_year1) - day_in_year2)
      else if date1.year > date2.year then
        some (day_in_year1 + sum_days_loop date2.year date1.year 0 - day_in_year2)
      else some (day_in_year1 - day_in_year2)
    | _, _ => none

/-! ### The Gregorian calendar -/

/-- A leap year of the Gregorian calendar: divisible by 4 and not by 100, or divisible
by 400. -/
def leap (y : ℤ) : Prop := (y % 4 = 0 ∧ y % 100 ≠ 0) ∨ y % 400 = 0

instance (y : ℤ) : Decidable (leap y) := by
  unfold leap; infer_instance

/-- The length of month `m` in year `y`. -/
def days_in_month (y m : ℤ) : ℤ :=
  if m = 2 then (if leap y then 29 else 28)
  else if m = 4 ∨ m = 6 ∨ m = 9 ∨ m = 11 then 30
  else 31

/-- The length of year `y`. -/
def days_in_year (y : ℤ) : ℤ := if leap y then 366 else 365

/-- A calendar-valid date: month in 1..12 and day in 1..length of that month in that
year. -/
def Date.calendar_valid (d : Date) : Prop :=
  1 ≤ d.month ∧ d.month ≤ 12 ∧ 1 ≤ d.day ∧ d.day ≤ days_in_month d.year d.month

instance (d : Date) : Decidable d.calendar_valid := by
  unfold Date.calendar_valid; infer_instance

/-- The precondition that `date.h` asserts: month in 1..12 and day in 1..31. -/
def Date.asserted (d : Date) : Prop :=
  0 < d.month ∧ d.month < 13 ∧ 0 < d.day ∧ d.day < 32

instance (d : Date) : Decidable d.asserted := by
  unfold Date.asserted; infer_instance

/-- The lengths of all months of year `y` before month `m`, added up. -/
def days_before_month (y m : ℤ) : ℤ :=
  ((List.range (m - 1).toNat).map (fun (k : ℕ) => days_in_month y ((k : ℤ) + 1))).sum

/-- The number of days from the first day of year 0 to the first day of year `y` in the
proleptic Gregorian calendar (negative before year 0). -/
def days_before_year (y : ℤ) : ℤ :=
  365 * y + (y - 1) / 4 - (y - 1) / 100 + (y - 1) / 400

/-- The number of a day on the time line: the days before its year, the days before its
month, and its day. Consecutive days have consecutive numbers. -/
def day_number (d : Date) : ℤ :=
  days_before_year d.year + days_before_month d.year d.month + d.day

/-- The day after a date in the Gregorian calendar. -/
def next_day (d : Date) : Date :=
  if d.day < days_in_month d.year d.month then ⟨d.year, d.month, d.day + 1⟩
  else if d.month < 12 then ⟨d.year, d.month + 1, 1⟩
  else ⟨d.year + 1, 1, 1⟩

end mio

namespace mio.regions.de

/-! ## regions.h, regions.cpp -/

/-- The type-safe integer `StateId` (`DECL_TYPESAFE(int, StateId)`). -/
structure StateId where
  get : ℤ
deriving DecidableEq, Repr

/-- The type-safe integer `CountyId` (`DECL_TYPESAFE(int, CountyId)`). -/
structure CountyId where
  get : ℤ
deriving DecidableEq, Repr

/-- `get_state_id`: `StateId(int(county) / 1000)` with the division of C++ (truncated). -/
def get_state_id (county : CountyId) : StateId := ⟨Int.tdiv county.get 1000⟩

/-- The one-argument `get_holidays(state)`: `none` when the assertion "invalid state_id"
fails, otherwise the whole table of the state. The tables `holidays_01_sh`, ...,
`holidays_16_th` of `holiday_data_de.ipp` are not among the sources; they are the parameter
`data`, the table of each state id. -/
def get_holidays_all (data : ℤ → List (Date × Date)) (state : StateId) :
    Option (List (Date × Date)) :=
  if state.get ≥ 1 ∧ state.get ≤ 16 then some (data state.get) else none

/-- The positions computed in `get_holidays(state, start_date, end_date)`:
`std::equal_range` for the value `(start_date, end_date)` with the comparison
`comp(p1, p2) = tie(p1.second) < tie(p2.first)`, hence `comp(p, value)` compares the end of
`p` with `start_date` and `comp(value, p)` compares `end_date` with the start of `p`. -/
def get_holidays_bounds (all : List (Date × Date)) (start_date end_date : Date) : Nat × Nat :=
  epi.equal_range (fun p => tie_less p.2 start_date) (fun p => tie_less end_date p.1) all

/-- The three-argument `get_holidays(state, start_date, end_date)`: the range between the
two positions. -/
def get_holidays (data : ℤ → List (Date × Date)) (state : StateId) (start_date end_date : Date) :
    Option (List (Date × Date)) :=
  match get_holidays_all data state with
  | none => none
  | some all => some (epi.make_range all (get_holidays_bounds all start_date end_date))

/-- A holiday table as the documentation describes it: every period starts no later than
it ends, the periods are sorted by start date, and each period ends before the next one
starts. -/
def sorted_disjoint (l : List (Date × Date)) : Prop :=
  (∀ p ∈ l, tie_less p.2 p.1 = false) ∧ l.Pairwise (fun p q => tie_less p.1 q.1 = true) ∧
    l.Chain' (fun p q => tie_less p.2 q.1 = true)

instance (l : List (Date × Date)) : Decidable (sorted_disjoint l) := by
  unfold sorted_disjoint; infer_instance

/-- A holiday table holding, for the state ids 9 and 3, the periods that the test
`TestRegions.get_holidays` expects (the full tables are not among the sources); every
other state has the empty table. -/
def holidays_test (state : ℤ) : List (Date × Date) :=
  if state = 9 then [(⟨2020, 10, 31⟩, ⟨2020, 11, 7⟩)]
  else if state = 3 then
    [(⟨2020, 7, 16⟩, ⟨2020, 8, 27⟩), (⟨2020, 10, 12⟩, ⟨2020, 10, 24⟩),
      (⟨2020, 12, 23⟩, ⟨2021, 1, 9⟩)]
  else []

end mio.regions.de

namespace mio

/-! ## Serialization of `Date` -/

/-- Modelled from the spec: the status codes of `io/io.h`, which is not among the sources.
The spec names the error kinds of the IO layer: "OutOfRange (IO) — date/numeric field
outside declared bounds when deserialising" and "MissingField / UnknownField (IO) —
structural mismatch during deserialisation". -/
inductive StatusCode where
  | OutOfRange
  | MissingField
  | UnknownField
deriving DecidableEq, Repr

/-- Modelled from the spec: the type `IOResult<T>` of `io/io.h`, which is not among the
sources: "every fallible reader returns `Ok(value) | Err(kind, context)`". The two
constructors carry the names of the functions `success` and `failure` that `date.h` calls;
the context message is not kept. -/
inductive IOResult (α : Type) where
  | success : α → IOResult α
  | failure : StatusCode → IOResult α
deriving DecidableEq, Repr

/-- Modelled from the spec: the object of an IO context (`io/io.h`, not among the sources):
"a nested named record" in which "each leaf has a stable name". It holds the name of its
type and its named elements in the order they were added; the elements of a `Date` are
integers. -/
structure IOObject where
  type_name : String
  elements : List (String × ℤ)
deriving DecidableEq, Repr

/-- Modelled from the spec: `io.create_object(type)` of an IO context, an object without
elements. -/
def create_object (type : String) : IOObject := ⟨type, []⟩

/-- Modelled from the spec: `obj.add_element(name, value)`, which adds a named leaf. -/
def IOObject.add_element (obj : IOObject) (name : String) (value : ℤ) : IOObject :=
  { obj with elements := obj.elements ++ [(name, value)] }

/-- Modelled from the spec: `io.expect_object(type)` of an IO context that holds the
serialised object `io`. -/
def expect_object (io : IOObject) (_type : String) : IOObject := io

/-- Modelled from the spec: `obj.expect_element(name, Tag<int>{})`, the value of the leaf
with that name, or the error for a structural mismatch when there is none. -/
def IOObject.expect_element (obj : IOObject) (name : String) : IOResult ℤ :=
  match obj.elements.lookup name with
  | some value => IOResult.success value
  | none => IOResult.failure StatusCode.MissingField

/-- Modelled from the spec: `apply(io, f, y, m, d)` of `io/io.h`, which composes results
"without stack unwinding": the first error among the arguments, or the result of `f` on
their values. The outer `Option` is `none` when `f` fails an assertion. -/
def apply (f : ℤ → ℤ → ℤ → Option (IOResult Date)) (y m d : IOResult ℤ) :
    Option (IOResult Date) :=
  match y, m, d with
  | IOResult.success y_, IOResult.success m_, IOResult.success d_ => f y_ m_ d_
  | IOResult.failure e, _, _ => some (IOResult.failure e)
  | _, IOResult.failure e, _ => some (IOResult.failure e)
  | _, _, IOResult.failure e => some (IOResult.failure e)

/-- `Date::serialize`: the object "Date" with the elements "Year", "Month" and "Day". -/
def Date.serialize (date : Date) : IOObject :=
  let obj := create_object "Date"
  let obj := obj.add_element "Year" date.year
  let obj := obj.add_element "Month" date.month
  obj.add_element "Day" date.day

/-- `Date::deserialize`: the three elements are read and handed to the function that
checks the month and the day; `Date{y_, m_, d_}` runs the asserting constructor. -/
def Date.deserialize (io : IOObject) : Option (IOResult Date) :=
  let obj := expect_object io "Date"
  let y := obj.expect_element "Year"
  let m := obj.expect_element "Month"
  let d := obj.expect_element "Day"
  apply
    (fun y_ m_ d_ =>
      if m_ ≤ 0 ∨ m_ > 12 then some (IOResult.failure StatusCode.OutOfRange)
      else if d_ ≤ 0 ∨ d_ > 31 then some (IOResult.failure StatusCode.OutOfRange)
      else
        match Date.make y_ m_ d_ with
        | some date => some (IOResult.success date)
        | none => none)
    y m d

/-! ## result_distance_2norm -/

/-- Coefficient-wise product of two Eigen vectors (`a.array() * b.array()`). -/
def vmul (a b : List ℚ) : List ℚ := List.zipWith (fun x y => x * y) a b

/-- Modelled from the spec: the enum `InfectionState` of the secir model, whose header is
not among the sources. The spec lists the compartments "{Susceptible, Exposed, Carrier,
Infected, Hospitalized, ICU, Recovered, Dead}; exactly 8 values, used as a 0-based
index". -/
inductive InfectionState where
  | Susceptible
  | Exposed
  | Carrier
  | Infected
  | Hospitalized
  | ICU
  | Recovered
  | Dead
deriving DecidableEq, Repr

/-- The conversion `Eigen::Index(compartment)`: the position of the enumerator. -/
def InfectionState.index : InfectionState → Nat
  | Susceptible => 0
  | Exposed => 1
  | Carrier => 2
  | Infected => 3
  | Hospitalized => 4
  | ICU => 5
  | Recovered => 6
  | Dead => 7

/-- The enumerator `InfectionState::Count`, as an index. -/
def InfectionState.Count : Nat := 8

/-- Body of the loop over the time points in `result_distance_2norm`:
`norm_sqr += ((v1 - v2).array() * (v1 - v2).array()).sum()`. Eigen asserts that the two
vectors have the same size. -/
def distance_time (ts1 ts2 : TimeSeries) (norm_sqr : ℚ) (time_idx : Nat) : Option ℚ :=
  match ts1.data[time_idx]?, ts2.data[time_idx]? with
  | some p1, some p2 =>
    if p1.2.length = p2.2.length then
      some (norm_sqr + (vmul (vsub p1.2 p2.2) (vsub p1.2 p2.2)).sum)
    else none
  | _, _ => none

/-- Body of the loop over the nodes in `result_distance_2norm`; the two iterators advance
together, so both point to the node at the same position. -/
def distance_node (result1 result2 : List TimeSeries) (norm_sqr : ℚ) (node : Nat) : Option ℚ :=
  match result1[node]?, result2[node]? with
  | some ts1, some ts2 =>
    for_each (distance_time ts1 ts2) (List.range ts1.get_num_time_points) norm_sqr
  | _, _ => none

/-- `result_distance_2norm(result1, result2)`: `none` when one of the four assertions
fails or an access leaves a container. The function `sqrt` stands for `std::sqrt` of the
standard library on the exact numbers of the embedding. -/
def result_distance_2norm (sqrt : ℚ → ℚ) (result1 result2 : List TimeSeries) : Option ℚ :=
  if result1.length = result2.length then
    match result1[0]? with
    | none => none
    | some ts0 =>
      if ts0.get_num_time_points > 0 then
        if ts0.get_num_elements > 0 then
          match for_each (distance_node result1 result2) (List.range result1.length) 0 with
          | none => none
          | some norm_sqr => some (sqrt norm_sqr)
        else none
      else none
  else none

/-- Body of the loop over the age groups in the overload of `result_distance_2norm` for
one compartment: `norm_sqr += (d1 - d2) * (d1 - d2)` for the entries at
`age_idx * num_compartments + Eigen::Index(compartment)`. -/
def distance_age (v1 v2 : List ℚ) (compartment : InfectionState) (norm_sqr : ℚ)
    (age_idx : Nat) : Option ℚ :=
  match v1[age_idx * InfectionState.Count + compartment.index]?,
      v2[age_idx * InfectionState.Count + compartment.index]? with
  | some d1, some d2 => some (norm_sqr + (d1 - d2) * (d1 - d2))
  | _, _ => none

/-- Body of the loop over the time points in the overload for one compartment. -/
def distance_time_compartment (ts1 ts2 : TimeSeries) (num_age_groups : Nat)
    (compartment : InfectionState) (norm_sqr : ℚ) (time_idx : Nat) : Option ℚ :=
  match ts1.data[time_idx]?, ts2.data[time_idx]? with
  | some p1, some p2 =>
    for_each (distance_age p1.2 p2.2 compartment) (List.range num_age_groups) norm_sqr
  | _, _ => none

/-- Body of the loop over the nodes in the overload for one compartment. -/
def distance_node_compartment (result1 result2 : List TimeSeries) (num_age_groups : Nat)
    (compartment : InfectionState) (norm_sqr : ℚ) (node : Nat) : Option ℚ :=
  match result1[node]?, result2[node]? with
  | some ts1, some ts2 =>
    for_each (distance_time_compartment ts1 ts2 num_age_groups compartment)
      (List.range ts1.get_num_time_points) norm_sqr
  | _, _ => none

/-- `result_distance_2norm(result1, result2, compartment)`; the number of age groups is
`result1[0].get_num_elements() / num_compartments`. -/
def result_distance_2norm_compartment (sqrt : ℚ → ℚ) (result1 result2 : List TimeSeries)
    (compartment : InfectionState) : Option ℚ :=
  if result1.length = result2.length then
    match result1[0]? with
    | none => none
    | some ts0 =>
      if ts0.get_num_time_points > 0 then
        if ts0.get_num_elements > 0 then
          let num_compartments := InfectionState.Count
          let num_age_groups := ts0.get_num_elements / num_compartments
          match for_each (distance_node_compartment result1 result2 num_age_groups compartment)
              (List.range result1.length) 0 with
          | none => none
          | some norm_sqr => some (sqrt norm_sqr)
        else none
      else none
  else none

/-- Two result lists of the same shape: as many nodes and, node by node, as many time
points; every series is a matrix with `E` elements. -/
def SameShape (r1 r2 : List TimeSeries) (E : Nat) : Prop :=
  r1.length = r2.length ∧ ∀ p ∈ r1.zip r2,
    p.1.data.length = p.2.data.length ∧ p.1.num_elements = E ∧ p.2.num_elements = E ∧
      p.1.wf ∧ p.2.wf

instance (r1 r2 : List TimeSeries) (E : Nat) : Decidable (SameShape r1 r2 E) := by
  unfold SameShape; infer_instance

/-- The number of time points of the node at position `n` of a result list. -/
def time_points_at (r : List TimeSeries) (n : Nat) : Nat :=
  match r[n]? with
  | some ts => ts.data.length
  | none => 0

/-- The sum, over all nodes, time points and elements, of the squared difference of the
corresponding entries of two result lists. -/
def squared_difference_sum (r1 r2 : List TimeSeries) (E : Nat) : ℚ :=
  ((List.range r1.length).map (fun n =>
    ((List.range (time_points_at r1 n)).map (fun t =>
      ((List.range E).map (fun e =>
        (run_value r1 n t e - run_value r2 n t e) ^ 2)).sum)).sum)).sum

/-- The sum, over all nodes, time points and age groups `a` in `0 .. E / 8 - 1`, of the
squared difference of the entries at the flat index `a * 8 + c`. -/
def squared_difference_sum_compartment (r1 r2 : List TimeSeries) (E c : Nat) : ℚ :=
  ((List.range r1.length).map (fun n =>
    ((List.range (time_points_at r1 n)).map (fun t =>
      ((List.range (E / 8)).map (fun a =>
        (run_value r1 n t (a * 8 + c) - run_value r2 n t (a * 8 + c)) ^ 2)).sum)).sum)).sum

/-- A square root on the rationals that is exact on perfect squares of integers (the
integer square root of the floor), to run examples. -/
def sqrt_floor (x : ℚ) : ℚ := (Nat.sqrt ⌊x⌋.toNat : ℕ)

/-- The first result list of the test `TestDistance.one_compartment`: two nodes, two time
points, zero except for the compartment Exposed. -/
def distance_test_1 : List TimeSeries :=
  [⟨8, [(0, [0, 1, 0, 0, 0, 0, 0, 0]), (1, [0, 2, 0, 0, 0, 0, 0, 0])]⟩,
   ⟨8, [(0, [0, 3, 0, 0, 0, 0, 0, 0]), (1, [0, 4, 0, 0, 0, 0, 0, 0])]⟩]

/-- The second result list of the test `TestDistance.one_compartment`. -/
def distance_test_2 : List TimeSeries :=
  [⟨8, [(0, [0, 3, 0, 0, 0, 0, 0, 0]), (1, [0, 1, 0, 0, 0, 0, 0, 0])]⟩,
   ⟨8, [(0, [0, 3, 0, 0, 0, 0, 0, 0]), (1, [0, 10, 0, 0, 0, 0, 0, 0])]⟩]

/-! ## random_number_generator.h -/

/-- The loop of `DiscreteDistributionInPlace::operator()` from index `i` on, `ws` being
the weights from `i` on: `intermediate_sum += weights[i]; if (u < intermediate_sum)
return i;`. Behind the last weight the line `assert(false)` is reached: `none`. -/
def DiscreteDistributionInPlace.loop (u : ℚ) : List ℚ → Nat → ℚ → Option Nat
  | [], _, _ => none
  | w :: ws, i, intermediate_sum =>
    if u < intermediate_sum + w then some i
    else DiscreteDistributionInPlace.loop u ws (i + 1) (intermediate_sum + w)

/-- `DiscreteDistributionInPlace::operator()(rng, p)` for the weights of `p`. The call
`std::uniform_real_distribution<double>()(rng, param_type{0.0, sum})` of the standard
library is the parameter `uniform`, applied to the two bounds. -/
def DiscreteDistributionInPlace.draw (weights : List ℚ) (uniform : ℚ → ℚ → ℚ) : Option Nat :=
  if weights.length ≤ 1 then some 0
  else
    let sum := weights.foldl (fun a b => a + b) 0
    let u := uniform 0 sum
    DiscreteDistributionInPlace.loop u weights 0 0

/-! ## parse_date -/

/-- The member `std::string::substr(pos, len)` on a string given by its characters: `none`
for the exception `std::out_of_range` when `pos` is behind the end. -/
def substr (s : List Char) (pos len : Nat) : Option (List Char) :=
  if pos ≤ s.length then some ((s.drop pos).take len) else none

/-- The white space that `std::stoi` skips (`isspace` in the C locale). -/
def isspace (c : Char) : Bool := c = ' ' || (9 ≤ c.toNat && c.toNat ≤ 13)

/-- The number that a list of decimal digits denotes. -/
def decimal_value (digits : List Char) : ℕ :=
  digits.foldl (fun acc c => 10 * acc + (c.toNat - '0'.toNat)) 0

/-- The function `std::stoi(str)` of the standard library, by its contract: leading white
space is skipped, an optional sign is read, then the longest run of decimal digits; `none`
for the exception `std::invalid_argument` when there is no digit and for
`std::out_of_range` when the number does not fit an `int`. -/
def stoi (str : List Char) : Option ℤ :=
  let rest := str.dropWhile isspace
  let negative := rest.head? = some '-'
  let rest := if rest.head? = some '-' ∨ rest.head? = some '+' then rest.tail else rest
  let digits := rest.takeWhile Char.isDigit
  if digits = [] then none
  else
    let value : ℤ := if negative then -(decimal_value digits : ℤ) else (decimal_value digits : ℤ)
    if -2147483648 ≤ value ∧ value ≤ 2147483647 then some value else none

/-- `parse_date`: a default constructed `Date` whose three fields are assigned, so no
assertion of the constructor runs; `none` when `substr` or `std::stoi` throws. -/
def parse_date (date_str : List Char) : Option Date :=
  match (substr date_str 0 4).bind stoi, (substr date_str 5 2).bind stoi,
      (substr date_str 8 2).bind stoi with
  | some year, some month, some day => some ⟨year, month, day⟩
  | _, _, _ => none

/-! ## Populations -/

/-- Modelled from the spec: the class `Populations` of `epidemiology/populations.h`, which
is not among the sources. The spec describes the "Population index cube: dense nonnegative
tensor indexed by a tuple of categorical dimensions" with "flat indexing by tuple": the
sizes of the dimensions and the cells `y` in flat order. -/
structure Populations where
  sizes : List Nat
  y : List ℚ
deriving DecidableEq, Repr

/-- Modelled from the spec: `get_flat_index` of `Populations`, the "flat indexing by
tuple"; the test `TestPopulations.group_population` counts the cells with the last
dimension running fastest. -/
def flat_index : List Nat → List Nat → Nat
  | _ :: sizes, i :: idx => i * sizes.prod + flat_index sizes idx
  | _, _ => 0

/-- The tuple of the cell at a flat position (the inverse of `flat_index`). -/
def tuple_index : List Nat → Nat → List Nat
  | [], _ => []
  | _ :: sizes, k => (k / sizes.prod) :: tuple_index sizes (k % sizes.prod)

/-- A tuple that indexes a cell: one entry per dimension, each below the size of its
dimension. -/
def valid_index : List Nat → List Nat → Prop
  | [], [] => True
  | size :: sizes, i :: idx => i < size ∧ valid_index sizes idx
  | _, _ => False

instance valid_index_decidable : ∀ (sizes idx : List Nat), Decidable (valid_index sizes idx)
  | [], [] => isTrue trivial
  | size :: sizes, i :: idx =>
    match Nat.decLt i size, valid_index_decidable sizes idx with
    | isTrue h1, isTrue h2 => isTrue ⟨h1, h2⟩
    | isFalse h1, _ => isFalse (fun h => h1 h.1)
    | _, isFalse h2 => isFalse (fun h => h2 h.2)
  | [], _ :: _ => isFalse (fun h => h)
  | _ :: _, [] => isFalse (fun h => h)

namespace Populations

/-- The array of a cube has one cell per tuple. -/
def wf (m : Populations) : Prop := m.y.length = m.sizes.prod

instance (m : Populations) : Decidable m.wf := by
  unfold wf; infer_instance

/-- Modelled from the spec: `get_flat_index`. -/
def get_flat_index (m : Populations) (idx : List Nat) : Nat := flat_index m.sizes idx

/-- Modelled from the spec: the cell access `m[idx]`. -/
def get (m : Populations) (idx : List Nat) : ℚ := m.y.getD (m.get_flat_index idx) 0

/-- Modelled from the spec: `get_total`, the sum of all cells. -/
def get_total (m : Populations) : ℚ := m.y.sum

/-- The flat positions of the cells whose tuple has the entry `key` in dimension `D`. -/
def group (m : Populations) (D key : Nat) : List Nat :=
  (List.range m.y.length).filter (fun k => decide ((tuple_index m.sizes k).getD D 0 = key))

/-- Modelled from the spec: `get_group_total`, the sum of the cells "matching the key" in
one dimension. -/
def get_group_total (m : Populations) (D key : Nat) : ℚ :=
  ((m.group D key).map (fun k => m.y.getD k 0)).sum

/-- Modelled from the spec: `set_difference_from_total(idx, v)` "(sets `y[idx] = v − Σ y`)",
with "if the target would require a negative value, set cell to zero and log a warning".
The test `TestPopulations.set_difference_from_total` shows that the sum runs over the
other cells: with one other cell of 100, the targets 1000 and then 2000 give the cell the
values 900 and then 1900. The result is `none` for a tuple that indexes no cell. -/
def set_difference_from_total (m : Populations) (idx : List Nat) (total_population : ℚ) :
    Option Populations :=
  if valid_index m.sizes idx ∧ m.get_flat_index idx < m.y.length then
    let current_population := m.get_total - m.get idx
    if current_population ≤ total_population then
      some { m with y := m.y.set (m.get_flat_index idx) (total_population - current_population) }
    else some { m with y := m.y.set (m.get_flat_index idx) 0 }
  else none

/-- Modelled from the spec: `set_difference_from_group_total<D>(idx, v)`, the "same
restricted to one dimension": the sum runs over the other cells that share the key of
`idx` in dimension `D`. -/
def set_difference_from_group_total (m : Populations) (D : Nat) (idx : List Nat)
    (total_group_population : ℚ) : Option Populations :=
  if valid_index m.sizes idx ∧ m.get_flat_index idx < m.y.length ∧ D < m.sizes.length then
    let current_population := m.get_group_total D (idx.getD D 0) - m.get idx
    if current_population ≤ total_group_population then
      some { m with
        y := m.y.set (m.get_flat_index idx) (total_group_population - current_population) }
    else some { m with y := m.y.set (m.get_flat_index idx) 0 }
  else none

/-- The sum of the cells at the flat positions in `ks` other than `k0`. -/
def sum_others (m : Populations) (ks : List Nat) (k0 : Nat) : ℚ :=
  ((ks.filter (fun k => decide (k ≠ k0))).map (fun k => m.y.getD k 0)).sum

end Populations

/-- A small cube in the manner of the test `TestPopulations.set_difference_from_group_total`:
2 infection states, 3 age groups and 2 continents, with 100 in the cell `(0, 2, 1)` and 200
in the cell `(1, 2, 0)`. -/
def populations_test : Populations :=
  ⟨[2, 3, 2], [0, 0, 0, 0, 0, 100, 0, 0, 0, 0, 200, 0]⟩

/-! ## get_migration_factors -/

/-- Modelled from the spec: the parameters of the secir model that `get_migration_factors`
reads (the model is not among the sources), one value per age group and the global
test-and-trace capacity: the spec lists "incubation time", "serial interval",
"asymptomatic-cases-per-infectious", "risk-of-infection-from-symptomatic",
"max-risk-of-infection-from-symptomatic" and "test-and-trace capacity". The fields carry
the names of the test `Secir.get_migration_factors`. -/
structure SecirParams where
  IncubationTime : List ℚ
  SerialInterval : List ℚ
  AsymptoticCasesPerInfectious : List ℚ
  RiskOfInfectionFromSympomatic : List ℚ
  MaxRiskOfInfectionFromSympomatic : List ℚ
  TestAndTraceCapacity : ℚ
deriving DecidableEq, Repr

/-- The number of age groups of a parameter set. -/
def SecirParams.get_num_groups (params : SecirParams) : Nat := params.IncubationTime.length

/-- Modelled from the spec: the required test-and-trace rate, the sum over the age groups
of `C_j · (1 − α_j)` times the rate at which carriers become infected. The spec writes
this rate `1/(serialinterval − 0.5·incubation)`; the sources fix it as
`R_3 = 0.5/(incubation − serialinterval)`: their comments give the incubation time as
`R_2^(-1)+R_3^(-1)` and the serial interval as `R_2^(-1)+0.5*R_3^(-1)`, and the test
`Secir.get_migration_factors` (incubation 5, serial interval 4, 100 carriers, 10% of them
asymptomatic) needs the required rate 45: it expects the risk itself for the capacity
45 and the maximal risk for the capacity 45 / 5. -/
def test_and_trace_required (params : SecirParams) (y : List ℚ) : ℚ :=
  ((List.range params.get_num_groups).map (fun j =>
    (1 - params.AsymptoticCasesPerInfectious.getD j 0) *
      (1 / 2 / (params.IncubationTime.getD j 0 - params.SerialInterval.getD j 0)) *
      y.getD (j * InfectionState.Count + InfectionState.Carrier.index) 0)).sum

/-- Modelled from the spec: the effective symptomatic risk of the test-and-trace
nonlinearity: "γ = risk if Σ ≤ ξ; γ = risk + (max_risk − risk)·(Σ − ξ)/(4·ξ) clamped to
[risk, max_risk]" for the required rate `Σ` and the capacity `ξ`. -/
def effective_risk (required capacity risk max_risk : ℚ) : ℚ :=
  if required ≤ capacity then risk
  else max risk (min max_risk (risk + (max_risk - risk) * (required - capacity) / (4 * capacity)))

/-- Modelled from the spec: `get_migration_factors(sim, t, y)` of the secir model, which is
not among the sources: a "vector[A·C]" of "elementwise multipliers" that is "1 everywhere
except the Infected compartment". The spec gives the entry of the Infected compartment as
`γ(t)/max_risk`; the test `Secir.get_migration_factors` of the sources expects the risk
`γ` itself there (0.25 within capacity and 0.5 at five times the capacity, for the risk
0.25 and the maximal risk 0.5), and the embedding follows the test. -/
def get_migration_factors (params : SecirParams) (_t : ℚ) (y : List ℚ) : List ℚ :=
  (List.range y.length).map (fun k =>
    if k % InfectionState.Count = InfectionState.Infected.index then
      effective_risk (test_and_trace_required params y) params.TestAndTraceCapacity
        (params.RiskOfInfectionFromSympomatic.getD (k / InfectionState.Count) 0)
        (params.MaxRiskOfInfectionFromSympomatic.getD (k / InfectionState.Count) 0)
    else 1)

/-- The parameters of the test `Secir.get_migration_factors` for a given test-and-trace
capacity: one age group, incubation time 5, serial interval 4, 10% asymptomatic cases,
risk 0.25 and maximal risk 0.5. -/
def migration_test_params (capacity : ℚ) : SecirParams :=
  ⟨[5], [4], [1 / 10], [1 / 4], [1 / 2], capacity⟩

/-- The state of the test `Secir.get_migration_factors`: 100 carriers. -/
def migration_test_y : List ℚ := [0, 0, 100, 0, 0, 0, 0, 0]

end mio

/-! # Theorems -/

namespace epi

/-! ## Sorted edges -/

theorem edge_less_iff {EP : Type} (a b : Edge EP) : edge_less a b = true ↔ EdgeLt a b := by
  unfold edge_less EdgeLt
  by_cases h : a.start_node_idx = b.start_node_idx
  · simp [h]
  · simp only [h, if_false, decide_eq_true_eq, false_and, or_false]

theorem EdgeLt.trans {EP : Type} {a b c : Edge EP} (h1 : EdgeLt a b) (h2 : EdgeLt b c) :
    EdgeLt a c := by
  unfold EdgeLt at *
  omega

theorem sameKey_of_not_less {EP : Type} {a b : Edge EP} (h1 : ¬ EdgeLt a b)
    (h2 : ¬ EdgeLt b a) : SameKey a b := by
  unfold EdgeLt at *
  unfold SameKey
  omega

theorem insert_sorted_replace_mem {α : Type} (pred : α → α → Bool) (l : List α) (item y : α)
    (hy : y ∈ (insert_sorted_replace pred l item).1) : y = item ∨ y ∈ l := by
  induction l with
  | nil =>
    simp [insert_sorted_replace] at hy
    exact Or.inl hy
  | cons x xs ih =>
    unfold insert_sorted_replace at hy
    split_ifs at hy with h1 h2
    · simp only [List.mem_cons] at hy
      rcases hy with hy | hy
      · exact Or.inr (by simp [hy])
      · rcases ih hy with h | h
        · exact Or.inl h
        · exact Or.inr (List.mem_cons_of_mem _ h)
    · simp only [List.mem_cons] at hy
      rcases hy with hy | hy | hy
      · exact Or.inl hy
      · exact Or.inr (by simp [hy])
      · exact Or.inr (List.mem_cons_of_mem _ hy)
    · simp only [List.mem_cons] at hy
      rcases hy with hy | hy
      · exact Or.inl hy
      · exact Or.inr (List.mem_cons_of_mem _ hy)

theorem insert_sorted_replace_sorted {EP : Type} (l : List (Edge EP)) (item : Edge EP)
    (hl : l.Pairwise EdgeLt) : (insert_sorted_replace edge_less l item).1.Pairwise EdgeLt := by
  induction l with
  | nil => simp [insert_sorted_replace]
  | cons x xs ih =>
    rw [List.pairwise_cons] at hl
    unfold insert_sorted_replace
    split_ifs with h1 h2
    · rw [List.pairwise_cons]
      refine ⟨?_, ih hl.2⟩
      intro y hy
      rcases insert_sorted_replace_mem _ _ _ _ hy with h | h
      · rw [h]; exact (edge_less_iff _ _).1 h1
      · exact hl.1 y h
    · have hix : EdgeLt item x := (edge_less_iff _ _).1 h2
      rw [List.pairwise_cons, List.pairwise_cons]
      refine ⟨?_, hl.1, hl.2⟩
      intro y hy
      rcases List.mem_cons.1 hy with h | h
      · rw [h]; exact hix
      · exact hix.trans (hl.1 y h)
    · have hk : SameKey x item :=
        sameKey_of_not_less (fun h => h1 ((edge_less_iff _ _).2 h))
          (fun h => h2 ((edge_less_iff _ _).2 h))
      rw [List.pairwise_cons]
      refine ⟨?_, hl.2⟩
      intro y hy
      have := hl.1 y hy
      unfold EdgeLt at *
      unfold SameKey at hk
      omega

theorem Graph.inv_add_node {NP EP : Type} (g : Graph NP EP) (n : NP) (hg : g.Inv) :
    (g.add_node n).1.Inv := by
  refine ⟨hg.1, ?_⟩
  intro x hx
  have := hg.2 x hx
  simp only [Graph.add_node, List.length_append, List.length_singleton]
  omega

theorem Graph.inv_add_edge {NP EP : Type} (g : Graph NP EP) (s e : Nat) (p : EP)
    (r : Graph NP EP × Nat) (hg : g.Inv) (hr : g.add_edge s e p = some r) : r.1.Inv := by
  unfold Graph.add_edge at hr
  split_ifs at hr with h
  simp only [Option.some.injEq] at hr
  subst hr
  refine ⟨insert_sorted_replace_sorted _ _ hg.1, ?_⟩
  intro x hx
  rcases insert_sorted_replace_mem _ _ _ _ hx with hx | hx
  · subst hx
    exact ⟨h.1, h.2⟩
  · exact hg.2 x hx

theorem run_ops_inv {NP EP : Type} (ops : List (GraphOp NP EP)) :
    ∀ g g1 : Graph NP EP, g.Inv → run_ops g ops = some g1 → g1.Inv := by
  induction ops with
  | nil =>
    intro g g1 hg h
    simp only [run_ops, Option.some.injEq] at h
    exact h ▸ hg
  | cons op ops ih =>
    intro g g1 hg h
    cases op with
    | add_node n =>
      simp only [run_ops] at h
      exact ih _ _ (g.inv_add_node n hg) h
    | add_edge s e p =>
      simp only [run_ops] at h
      cases hr : g.add_edge s e p with
      | none => simp [hr] at h
      | some r =>
        simp only [hr] at h
        exact ih _ _ (g.inv_add_edge s e p r hg hr) h

theorem Graph.Built.inv {NP EP : Type} {g : Graph NP EP} (hg : g.Built) : g.Inv := by
  obtain ⟨ops, h⟩ := hg
  refine run_ops_inv ops Graph.empty g ⟨?_, ?_⟩ h
  · simp [Graph.empty]
  · simp [Graph.empty]

theorem insert_sorted_replace_get {α : Type} (pred : α → α → Bool) (l : List α) (item : α) :
    (insert_sorted_replace pred l item).1[(insert_sorted_replace pred l item).2]? = some item := by
  induction l with
  | nil => simp [insert_sorted_replace]
  | cons x xs ih =>
    unfold insert_sorted_replace
    split_ifs with h1 h2
    · simpa using ih
    · simp
    · simp

theorem insert_sorted_replace_of_key {EP : Type} (l : List (Edge EP)) (s e : Nat) (p : EP)
    (hl : l.Pairwise EdgeLt) (hx : ∃ x ∈ l, HasKey s e x) :
    (insert_sorted_replace edge_less l ⟨s, e, p⟩).1 =
      l.map (fun x => if HasKey s e x then ⟨s, e, p⟩ else x) := by
  induction l with
  | nil => simp at hx
  | cons x xs ih =>
    rw [List.pairwise_cons] at hl
    obtain ⟨y, hy, hk⟩ := hx
    unfold insert_sorted_replace
    split_ifs with h1 h2
    · have h1 := (edge_less_iff _ _).1 h1
      have hnx : ¬ HasKey s e x := by
        unfold EdgeLt at h1; unfold HasKey; simp only at h1; omega
      have hyx : y ∈ xs := by
        rcases List.mem_cons.1 hy with h | h
        · exact absurd (h ▸ hk) hnx
        · exact h
      simp only [List.map_cons, if_neg hnx]
      rw [ih hl.2 ⟨y, hyx, hk⟩]
    · exfalso
      have h2 := (edge_less_iff _ _).1 h2
      rcases List.mem_cons.1 hy with h | h
      · subst h
        unfold EdgeLt at h2; unfold HasKey at hk; simp only at h2; omega
      · have := hl.1 y h
        unfold EdgeLt at h2 this; unfold HasKey at hk; simp only at h2; omega
    · have hk2 : SameKey x ⟨s, e, p⟩ :=
        sameKey_of_not_less (fun h => h1 ((edge_less_iff _ _).2 h))
          (fun h => h2 ((edge_less_iff _ _).2 h))
      have hkx : HasKey s e x := by
        unfold SameKey at hk2; unfold HasKey; simp only at hk2; omega
      simp only [List.map_cons, if_pos hkx]
      congr 1
      have hm : xs.map (fun x => if HasKey s e x then (⟨s, e, p⟩ : Edge EP) else x) = xs.map id := by
        apply List.map_congr_left
        intro z hz
        have := hl.1 z hz
        have hnz : ¬ HasKey s e z := by
          unfold EdgeLt at this; unfold HasKey at hkx ⊢; omega
        simp only [if_neg hnz, id]
      rw [hm, List.map_id]

theorem insert_sorted_replace_of_no_key {EP : Type} (l : List (Edge EP)) (s e : Nat) (p : EP)
    (hx : ¬ ∃ x ∈ l, HasKey s e x) :
    (insert_sorted_replace edge_less l ⟨s, e, p⟩).1.eraseIdx
      (insert_sorted_replace edge_less l ⟨s, e, p⟩).2 = l := by
  induction l with
  | nil => simp [insert_sorted_replace]
  | cons x xs ih =>
    unfold insert_sorted_replace
    split_ifs with h1 h2
    · simp only [List.eraseIdx_cons_succ]
      rw [ih]
      rintro ⟨y, hy, hk⟩
      exact hx ⟨y, List.mem_cons_of_mem _ hy, hk⟩
    · simp
    · exfalso
      have hk2 : SameKey x ⟨s, e, p⟩ :=
        sameKey_of_not_less (fun h => h1 ((edge_less_iff _ _).2 h))
          (fun h => h2 ((edge_less_iff _ _).2 h))
      apply hx
      refine ⟨x, List.mem_cons_self _ _, ?_⟩
      unfold SameKey at hk2; unfold HasKey; simp only at hk2; omega

theorem insert_sorted_replace_idx_lt {α : Type} (pred : α → α → Bool) (l : List α) (item : α) :
    (insert_sorted_replace pred l item).2 < (insert_sorted_replace pred l item).1.length := by
  have h := insert_sorted_replace_get pred l item
  by_contra hc
  rw [List.getElem?_eq_none (by omega)] at h
  exact Option.noConfusion h

end epi

namespace epi

/-! ## Claims on `Graph` -/

/-- C1: in every graph built from the empty graph by `add_node` and `add_edge` calls whose
assertions hold, the stored edge list is strictly increasing in the lexicographic order
of the keys `(start_node_idx, end_node_idx)`; in particular no two stored edges have the
same key. -/
theorem built_edges_strictly_sorted {NP EP : Type} (ops : List (GraphOp NP EP))
    (g : Graph NP EP) (h : run_ops Graph.empty ops = some g) :
    g.m_edges.Pairwise EdgeLt ∧ g.m_edges.Pairwise (fun a b => ¬ SameKey a b) := by
  have hs : g.m_edges.Pairwise EdgeLt := (Graph.Built.inv ⟨ops, h⟩).1
  refine ⟨hs, hs.imp ?_⟩
  intro a b hab hk
  unfold EdgeLt at hab
  unfold SameKey at hk
  omega

/-- Witness of C1: two nodes, then the edges `(1,0)`, `(0,1)` and `(1,0)` again. -/
theorem built_edges_strictly_sorted_witness :
    (⟨[(), ()], [⟨0, 1, 7⟩, ⟨1, 0, 9⟩]⟩ : Graph Unit Nat).m_edges.Pairwise EdgeLt ∧
      (⟨[(), ()], [⟨0, 1, 7⟩, ⟨1, 0, 9⟩]⟩ : Graph Unit Nat).m_edges.Pairwise
        (fun a b => ¬ SameKey a b) :=
  built_edges_strictly_sorted
    [GraphOp.add_node (), GraphOp.add_node (), GraphOp.add_edge 1 0 5, GraphOp.add_edge 0 1 7,
      GraphOp.add_edge 1 0 9]
    ⟨[(), ()], [⟨0, 1, 7⟩, ⟨1, 0, 9⟩]⟩ (by decide)

/-- C2: on a graph built through the public interface, `add_edge(s, e, p)` with valid node
indices succeeds and leaves the nodes alone. If an edge with key `(s, e)` is stored, the
number of edges is unchanged, that edge becomes `(s, e, p)` and every other edge stays as
it is, at its position. If no such edge is stored, the number of edges grows by one, the
edge `(s, e, p)` is present, and taking it out again gives back the previous edge list, so
every previous edge is still present and unchanged. The returned reference is the edge
`(s, e, p)`. -/
theorem add_edge_replaces_or_inserts {NP EP : Type} (g : Graph NP EP) (hg : g.Built)
    (s e : Nat) (p : EP) (hs : s < g.m_nodes.length) (he : e < g.m_nodes.length) :
    ∃ g1 idx, g.add_edge s e p = some (g1, idx) ∧ g1.m_nodes = g.m_nodes ∧
      g1.m_edges[idx]? = some ⟨s, e, p⟩ ∧
      ((∃ x ∈ g.m_edges, HasKey s e x) →
        g1.m_edges.length = g.m_edges.length ∧
        g1.m_edges = g.m_edges.map (fun x => if HasKey s e x then ⟨s, e, p⟩ else x)) ∧
      ((¬ ∃ x ∈ g.m_edges, HasKey s e x) →
        g1.m_edges.length = g.m_edges.length + 1 ∧ (⟨s, e, p⟩ : Edge EP) ∈ g1.m_edges ∧
        g1.m_edges.eraseIdx idx = g.m_edges ∧ ∀ x ∈ g.m_edges, x ∈ g1.m_edges) := by
  have hsorted := hg.inv.1
  refine ⟨{ g with m_edges := (insert_sorted_replace edge_less g.m_edges ⟨s, e, p⟩).1 },
    (insert_sorted_replace edge_less g.m_edges ⟨s, e, p⟩).2,
    by simp only [Graph.add_edge]; rw [if_pos ⟨hs, he⟩], rfl,
    insert_sorted_replace_get _ _ _, ?_, ?_⟩
  · intro hx
    have h := insert_sorted_replace_of_key g.m_edges s e p hsorted hx
    refine ⟨?_, h⟩
    simp only [h, List.length_map]
  · intro hx
    have h := insert_sorted_replace_of_no_key g.m_edges s e p hx
    have hlt := insert_sorted_replace_idx_lt edge_less g.m_edges ⟨s, e, p⟩
    have hget := insert_sorted_replace_get edge_less g.m_edges ⟨s, e, p⟩
    refine ⟨?_, ?_, h, ?_⟩
    · have := congrArg List.length h
      rw [List.length_eraseIdx] at this
      simp only [hlt, if_true] at this
      simp only
      omega
    · exact List.getElem?_mem hget
    · intro x hxm
      simp only
      rw [← h] at hxm
      exact (List.eraseIdx_sublist _ _).subset hxm

/-- Witness of C2: replacing the edge `(1,0)` of a graph with two nodes and two edges. -/
theorem add_edge_replaces_or_inserts_witness :
    ∃ g1 idx, (⟨[(), ()], [⟨0, 1, 7⟩, ⟨1, 0, 9⟩]⟩ : Graph Unit Nat).add_edge 1 0 4 =
        some (g1, idx) ∧ g1.m_nodes = [(), ()] ∧
      g1.m_edges[idx]? = some ⟨1, 0, 4⟩ ∧
      ((∃ x ∈ ([⟨0, 1, 7⟩, ⟨1, 0, 9⟩] : List (Edge Nat)), HasKey 1 0 x) →
        g1.m_edges.length = 2 ∧
        g1.m_edges = ([⟨0, 1, 7⟩, ⟨1, 0, 9⟩] : List (Edge Nat)).map
          (fun x => if HasKey 1 0 x then ⟨1, 0, 4⟩ else x)) ∧
      ((¬ ∃ x ∈ ([⟨0, 1, 7⟩, ⟨1, 0, 9⟩] : List (Edge Nat)), HasKey 1 0 x) →
        g1.m_edges.length = 2 + 1 ∧ (⟨1, 0, 4⟩ : Edge Nat) ∈ g1.m_edges ∧
        g1.m_edges.eraseIdx idx = [⟨0, 1, 7⟩, ⟨1, 0, 9⟩] ∧
        ∀ x ∈ ([⟨0, 1, 7⟩, ⟨1, 0, 9⟩] : List (Edge Nat)), x ∈ g1.m_edges) :=
  add_edge_replaces_or_inserts ⟨[(), ()], [⟨0, 1, 7⟩, ⟨1, 0, 9⟩]⟩
    ⟨[GraphOp.add_node (), GraphOp.add_node (), GraphOp.add_edge 1 0 9, GraphOp.add_edge 0 1 7],
      by decide⟩
    1 0 4 (by decide) (by decide)

end epi

namespace epi

/-! ## `out_edges` on sorted edges -/

theorem drop_length_takeWhile {α : Type} (p : α → Bool) (l : List α) :
    l.drop (l.takeWhile p).length = l.dropWhile p := by
  induction l with
  | nil => rfl
  | cons x xs ih =>
    by_cases h : p x = true
    · rw [List.takeWhile_cons_of_pos h, List.dropWhile_cons_of_pos h]
      simpa using ih
    · rw [List.takeWhile_cons_of_neg h, List.dropWhile_cons_of_neg h]
      rfl

theorem take_length_takeWhile {α : Type} (p : α → Bool) (l : List α) :
    l.take (l.takeWhile p).length = l.takeWhile p := by
  induction l with
  | nil => rfl
  | cons x xs ih =>
    by_cases h : p x = true
    · rw [List.takeWhile_cons_of_pos h]
      simpa using ih
    · rw [List.takeWhile_cons_of_neg h]
      rfl

theorem make_range_equal_range {α : Type} (lo hi : α → Bool) (l : List α) :
    make_range l (equal_range lo hi l) = (l.dropWhile lo).takeWhile (fun x => !hi x) := by
  simp only [make_range, equal_range, Nat.add_sub_cancel_left, drop_length_takeWhile,
    take_length_takeWhile]

theorem split_equal_range {α : Type} (lo hi : α → Bool) (l : List α) :
    l = l.take (equal_range lo hi l).1 ++ make_range l (equal_range lo hi l) ++
      l.drop (equal_range lo hi l).2 := by
  rw [make_range_equal_range]
  simp only [equal_range]
  rw [take_length_takeWhile, ← List.drop_drop, drop_length_takeWhile, drop_length_takeWhile,
    List.append_assoc, List.takeWhile_append_dropWhile, List.takeWhile_append_dropWhile]

theorem dropWhile_start_ge {EP : Type} (k : Nat) (l : List (Edge EP))
    (hs : l.Pairwise (fun a b => a.start_node_idx ≤ b.start_node_idx)) :
    ∀ x ∈ l.dropWhile (fun e => decide (e.start_node_idx < k)), k ≤ x.start_node_idx := by
  induction l with
  | nil => simp
  | cons y ys ih =>
    rw [List.pairwise_cons] at hs
    by_cases h : y.start_node_idx < k
    · rw [List.dropWhile_cons_of_pos (by simpa using h)]
      exact ih hs.2
    · rw [List.dropWhile_cons_of_neg (by simpa using h)]
      intro x hx
      rcases List.mem_cons.1 hx with hx | hx
      · subst hx; omega
      · have := hs.1 x hx; omega

theorem dropWhile_start_gt {EP : Type} (k : Nat) (l : List (Edge EP))
    (hs : l.Pairwise (fun a b => a.start_node_idx ≤ b.start_node_idx)) :
    ∀ x ∈ l.dropWhile (fun e => !decide (k < e.start_node_idx)), k < x.start_node_idx := by
  induction l with
  | nil => simp
  | cons y ys ih =>
    rw [List.pairwise_cons] at hs
    by_cases h : k < y.start_node_idx
    · rw [List.dropWhile_cons_of_neg (by simpa using h)]
      intro x hx
      rcases List.mem_cons.1 hx with hx | hx
      · subst hx; omega
      · have := hs.1 x hx; omega
    · rw [List.dropWhile_cons_of_pos (by simpa using h)]
      exact ih hs.2

end epi

namespace epi

theorem EdgeLe.start_le {EP : Type} (l : List (Edge EP)) (hs : l.Pairwise EdgeLe) :
    l.Pairwise (fun a b => a.start_node_idx ≤ b.start_node_idx) := by
  refine hs.imp ?_
  intro a b h
  unfold EdgeLe at h
  omega

theorem out_edges_eq {NP EP : Type} (g : Graph NP EP) (i : Nat) :
    g.out_edges i = ((g.m_edges.dropWhile (fun e => decide (e.start_node_idx < i))).takeWhile
      (fun e => !decide (i < e.start_node_idx))) := by
  unfold Graph.out_edges Graph.out_edges_bounds
  exact make_range_equal_range _ _ _

theorem out_edges_start {NP EP : Type} (g : Graph NP EP) (i : Nat)
    (hs : g.m_edges.Pairwise EdgeLe) : ∀ x ∈ g.out_edges i, x.start_node_idx = i := by
  intro x hx
  rw [out_edges_eq] at hx
  have h1 := List.mem_takeWhile_imp hx
  have h2 := dropWhile_start_ge i g.m_edges (EdgeLe.start_le _ hs) x
    ((List.takeWhile_sublist _).subset hx)
  simp only [Bool.not_eq_true', decide_eq_false_iff_not] at h1
  omega

theorem out_edges_sublist {NP EP : Type} (g : Graph NP EP) (i : Nat) :
    (g.out_edges i).Sublist g.m_edges := by
  rw [out_edges_eq]
  exact (List.takeWhile_sublist _).trans (List.dropWhile_sublist _)

/-- C3: when the edge list is sorted lexicographically by `(start_node_idx,
end_node_idx)`, `out_edges(i)` is exactly the list of the edges that start at `i`, it is
the contiguous piece of `edges()` between the two positions that `std::equal_range`
computes (before it all edges start below `i`, behind it all start above `i`), its edges
come in increasing order of `end_node_idx` (strictly increasing when the edge list holds
no key twice), and it is empty if and only if no edge starts at `i`. -/
theorem out_edges_of_sorted {NP EP : Type} (g : Graph NP EP) (i : Nat)
    (hs : g.m_edges.Pairwise EdgeLe) :
    g.out_edges i = g.m_edges.filter (fun x => decide (x.start_node_idx = i)) ∧
    g.edges = g.m_edges.take (g.out_edges_bounds i).1 ++ g.out_edges i ++
      g.m_edges.drop (g.out_edges_bounds i).2 ∧
    (∀ x ∈ g.m_edges.take (g.out_edges_bounds i).1, x.start_node_idx < i) ∧
    (∀ x ∈ g.m_edges.drop (g.out_edges_bounds i).2, i < x.start_node_idx) ∧
    (g.out_edges i).Pairwise (fun a b => a.end_node_idx ≤ b.end_node_idx) ∧
    (g.m_edges.Pairwise EdgeLt →
      (g.out_edges i).Pairwise (fun a b => a.end_node_idx < b.end_node_idx)) ∧
    (g.out_edges i = [] ↔ ∀ x ∈ g.m_edges, x.start_node_idx ≠ i) := by
  have hsplit : g.m_edges = g.m_edges.take (g.out_edges_bounds i).1 ++ g.out_edges i ++
      g.m_edges.drop (g.out_edges_bounds i).2 := by
    unfold Graph.out_edges Graph.out_edges_bounds
    exact split_equal_range _ _ _
  have hA : ∀ x ∈ g.m_edges.take (g.out_edges_bounds i).1, x.start_node_idx < i := by
    intro x hx
    simp only [Graph.out_edges_bounds, equal_range, take_length_takeWhile] at hx
    simpa using List.mem_takeWhile_imp hx
  have hC : ∀ x ∈ g.m_edges.drop (g.out_edges_bounds i).2, i < x.start_node_idx := by
    intro x hx
    simp only [Graph.out_edges_bounds, equal_range] at hx
    rw [← List.drop_drop, drop_length_takeWhile, drop_length_takeWhile] at hx
    exact dropWhile_start_gt i _
      ((EdgeLe.start_le _ hs).sublist (List.dropWhile_sublist _)) x hx
  have hB := out_edges_start g i hs
  have hfilter : g.out_edges i = g.m_edges.filter (fun x => decide (x.start_node_idx = i)) := by
    conv_rhs => rw [hsplit]
    rw [List.filter_append, List.filter_append]
    have h1 : (g.m_edges.take (g.out_edges_bounds i).1).filter
        (fun x => decide (x.start_node_idx = i)) = [] := by
      rw [List.filter_eq_nil_iff]
      intro x hx
      have := hA x hx
      simp only [decide_eq_true_eq]
      omega
    have h2 : (g.m_edges.drop (g.out_edges_bounds i).2).filter
        (fun x => decide (x.start_node_idx = i)) = [] := by
      rw [List.filter_eq_nil_iff]
      intro x hx
      have := hC x hx
      simp only [decide_eq_true_eq]
      omega
    have h3 : (g.out_edges i).filter (fun x => decide (x.start_node_idx = i)) =
        g.out_edges i := by
      rw [List.filter_eq_self]
      intro x hx
      simpa using hB x hx
    rw [h1, h2, h3]
    simp
  refine ⟨hfilter, hsplit, hA, hC, ?_, ?_, ?_⟩
  · refine (hs.sublist (out_edges_sublist g i)).imp_of_mem ?_
    intro a b ha hb hab
    have h1 := hB a ha
    have h2 := hB b hb
    unfold EdgeLe at hab
    omega
  · intro hlt
    refine (hlt.sublist (out_edges_sublist g i)).imp_of_mem ?_
    intro a b ha hb hab
    have h1 := hB a ha
    have h2 := hB b hb
    unfold EdgeLt at hab
    omega
  · rw [hfilter, List.filter_eq_nil_iff]
    constructor
    · intro h x hx
      simpa using h x hx
    · intro h x hx
      simpa using h x hx

/-- Witness of C3: the edges leaving node 1 in a graph with four sorted edges. -/
theorem out_edges_of_sorted_witness :
    (⟨[(), (), ()], [⟨0, 1, 7⟩, ⟨1, 0, 9⟩, ⟨1, 2, 3⟩, ⟨2, 0, 1⟩]⟩ : Graph Unit Nat).out_edges 1 =
      [⟨1, 0, 9⟩, ⟨1, 2, 3⟩] ∧
    (⟨[(), (), ()], [⟨0, 1, 7⟩, ⟨1, 0, 9⟩, ⟨1, 2, 3⟩, ⟨2, 0, 1⟩]⟩ : Graph Unit Nat).out_edges 1 =
      ([⟨0, 1, 7⟩, ⟨1, 0, 9⟩, ⟨1, 2, 3⟩, ⟨2, 0, 1⟩] : List (Edge Nat)).filter
        (fun x => decide (x.start_node_idx = 1)) :=
  ⟨by decide,
    (out_edges_of_sorted
      (⟨[(), (), ()], [⟨0, 1, 7⟩, ⟨1, 0, 9⟩, ⟨1, 2, 3⟩, ⟨2, 0, 1⟩]⟩ : Graph Unit Nat) 1
      (by decide)).1⟩

end epi

namespace epi

/-! ## The passes of `advance` -/

namespace GraphSimulation

variable {NP EP : Type}

theorem node_call_spec (sim : GraphSimulation NP EP) (i : Nat)
    (hi : i < sim.m_graph.m_nodes.length) :
    ∃ s1, sim.node_call i = some s1 ∧ s1.m_t = sim.m_t ∧ s1.m_dt = sim.m_dt ∧
      s1.m_node_func = sim.m_node_func ∧ s1.m_edge_func = sim.m_edge_func ∧
      s1.m_graph.m_edges = sim.m_graph.m_edges ∧
      s1.m_graph.m_nodes.length = sim.m_graph.m_nodes.length ∧
      s1.calls = sim.calls ++ [Call.node sim.m_t sim.m_dt i] := by
  unfold node_call
  rw [List.getElem?_eq_getElem hi]
  exact ⟨_, rfl, rfl, rfl, rfl, rfl, rfl, by simp, rfl⟩

theorem node_loop_spec (m : Nat) : ∀ (k : Nat) (sim : GraphSimulation NP EP),
    k + m ≤ sim.m_graph.m_nodes.length →
    ∃ s1, for_each node_call (List.range' k m) sim = some s1 ∧ s1.m_t = sim.m_t ∧
      s1.m_dt = sim.m_dt ∧ s1.m_node_func = sim.m_node_func ∧
      s1.m_edge_func = sim.m_edge_func ∧ s1.m_graph.m_edges = sim.m_graph.m_edges ∧
      s1.m_graph.m_nodes.length = sim.m_graph.m_nodes.length ∧
      s1.calls = sim.calls ++ (List.range' k m).map (Call.node sim.m_t sim.m_dt) := by
  induction m with
  | zero =>
    intro k sim _
    exact ⟨sim, rfl, rfl, rfl, rfl, rfl, rfl, rfl, by simp⟩
  | succ m ih =>
    intro k sim hk
    obtain ⟨s1, h1, ht, hdt, hnf, hef, hed, hlen, hc⟩ := node_call_spec sim k (by omega)
    obtain ⟨s2, h2, ht2, hdt2, hnf2, hef2, hed2, hlen2, hc2⟩ := ih (k + 1) s1 (by omega)
    refine ⟨s2, ?_, ht2.trans ht, hdt2.trans hdt, hnf2.trans hnf, hef2.trans hef,
      hed2.trans hed, hlen2.trans hlen, ?_⟩
    · simp only [List.range', for_each, h1]
      exact h2
    · rw [hc2, hc, ht, hdt]
      simp [List.range']

/-- The call that the second loop of `advance` makes for an edge. -/
theorem edge_call_spec (sim : GraphSimulation NP EP) (j : Nat) (e : Edge EP)
    (hj : sim.m_graph.m_edges[j]? = some e)
    (h1 : e.start_node_idx < sim.m_graph.m_nodes.length)
    (h2 : e.end_node_idx < sim.m_graph.m_nodes.length) :
    ∃ s1 pr, sim.edge_call j = some s1 ∧ s1.m_t = sim.m_t ∧ s1.m_dt = sim.m_dt ∧
      s1.m_node_func = sim.m_node_func ∧ s1.m_edge_func = sim.m_edge_func ∧
      s1.m_graph.m_edges = sim.m_graph.m_edges.set j { e with property := pr } ∧
      s1.m_graph.m_nodes.length = sim.m_graph.m_nodes.length ∧
      s1.calls = sim.calls ++
        [Call.edge sim.m_t sim.m_dt e.property e.start_node_idx e.end_node_idx] := by
  unfold edge_call
  simp only [hj, List.getElem?_eq_getElem h1, List.getElem?_eq_getElem h2]
  by_cases hse : e.start_node_idx = e.end_node_idx
  · rw [if_pos hse]
    exact ⟨_, _, rfl, rfl, rfl, rfl, rfl, rfl, by simp, rfl⟩
  · rw [if_neg hse]
    exact ⟨_, _, rfl, rfl, rfl, rfl, rfl, rfl, by simp, rfl⟩

theorem edge_loop_spec (m : Nat) : ∀ (k : Nat) (sim : GraphSimulation NP EP),
    k + m = sim.m_graph.m_edges.length →
    (∀ x ∈ sim.m_graph.m_edges, x.start_node_idx < sim.m_graph.m_nodes.length ∧
      x.end_node_idx < sim.m_graph.m_nodes.length) →
    ∃ s1, for_each edge_call (List.range' k m) sim = some s1 ∧ s1.m_t = sim.m_t ∧
      s1.m_dt = sim.m_dt ∧ s1.m_node_func = sim.m_node_func ∧
      s1.m_edge_func = sim.m_edge_func ∧
      s1.m_graph.m_nodes.length = sim.m_graph.m_nodes.length ∧
      s1.m_graph.m_edges.length = sim.m_graph.m_edges.length ∧
      s1.calls = sim.calls ++ (sim.m_graph.m_edges.drop k).map
        (fun e => Call.edge sim.m_t sim.m_dt e.property e.start_node_idx e.end_node_idx) := by
  induction m with
  | zero =>
    intro k sim hk _
    refine ⟨sim, rfl, rfl, rfl, rfl, rfl, rfl, rfl, ?_⟩
    rw [List.drop_of_length_le (by omega)]
    simp
  | succ m ih =>
    intro k sim hk hv
    have hklt : k < sim.m_graph.m_edges.length := by omega
    have hget : sim.m_graph.m_edges[k]? = some (sim.m_graph.m_edges[k]) :=
      List.getElem?_eq_getElem hklt
    have hmem : sim.m_graph.m_edges[k] ∈ sim.m_graph.m_edges := List.getElem_mem hklt
    obtain ⟨s1, pr, h1, ht, hdt, hnf, hef, hed, hlen, hc⟩ :=
      edge_call_spec sim k _ hget (hv _ hmem).1 (hv _ hmem).2
    have hv1 : ∀ x ∈ s1.m_graph.m_edges, x.start_node_idx < s1.m_graph.m_nodes.length ∧
        x.end_node_idx < s1.m_graph.m_nodes.length := by
      intro x hx
      rw [hed] at hx
      rw [hlen]
      rcases List.mem_or_eq_of_mem_set hx with hx | hx
      · exact hv x hx
      · rw [hx]
        exact hv (sim.m_graph.m_edges[k]) hmem
    have hl1 : s1.m_graph.m_edges.length = sim.m_graph.m_edges.length := by
      rw [hed, List.length_set]
    obtain ⟨s2, h2, ht2, hdt2, hnf2, hef2, hlen2, hel2, hc2⟩ :=
      ih (k + 1) s1 (by omega) hv1
    refine ⟨s2, ?_, ht2.trans ht, hdt2.trans hdt, hnf2.trans hnf, hef2.trans hef,
      hlen2.trans hlen, hel2.trans hl1, ?_⟩
    · simp only [List.range', for_each, h1]
      exact h2
    · rw [hc2, hc, ht, hdt, hed, List.drop_set_of_lt _ _ (Nat.lt_succ_self k),
        List.drop_eq_getElem_cons hklt]
      simp only [List.map_cons, List.append_assoc, List.singleton_append]

end GraphSimulation

end epi

namespace epi

/-- C4: one step of `advance` on a simulation whose graph was built through the public
interface returns, and the calls it makes are, in this order: the node function once for
every node, in node order, with the arguments `(t, dt)`; then the edge function once for
every edge, in the order of the edge list, with the arguments `(t + dt, dt)`, the
property of the edge and its start and end node. All node calls of the step come before
all its edge calls, and afterwards the time is `t + dt`. -/
theorem advance_calls_nodes_then_edges {NP EP : Type} (sim : GraphSimulation NP EP)
    (hg : sim.m_graph.Built) :
    ∃ s1, sim.advance 1 = some s1 ∧ s1.get_t = sim.m_t + sim.m_dt ∧
      s1.calls = sim.calls ++
        (List.range sim.m_graph.nodes.length).map (Call.node sim.m_t sim.m_dt) ++
        sim.m_graph.edges.map (fun e =>
          Call.edge (sim.m_t + sim.m_dt) sim.m_dt e.property e.start_node_idx e.end_node_idx) := by
  have hv := hg.inv.2
  obtain ⟨s1, h1, ht, hdt, hnf, hef, hed, hlen, hc⟩ :=
    GraphSimulation.node_loop_spec sim.m_graph.m_nodes.length 0 sim (by omega)
  have hv2 : ∀ x ∈ ({ s1 with m_t := s1.m_t + s1.m_dt } : GraphSimulation NP EP).m_graph.m_edges,
      x.start_node_idx <
        ({ s1 with m_t := s1.m_t + s1.m_dt } : GraphSimulation NP EP).m_graph.m_nodes.length ∧
      x.end_node_idx <
        ({ s1 with m_t := s1.m_t + s1.m_dt } : GraphSimulation NP EP).m_graph.m_nodes.length := by
    intro x hx
    simp only at hx ⊢
    rw [hed] at hx
    rw [hlen]
    exact hv x hx
  obtain ⟨s2, h2, ht2, hdt2, -, -, -, -, hc2⟩ :=
    GraphSimulation.edge_loop_spec
      ({ s1 with m_t := s1.m_t + s1.m_dt } : GraphSimulation NP EP).m_graph.m_edges.length 0
      { s1 with m_t := s1.m_t + s1.m_dt } (by omega) hv2
  refine ⟨s2, ?_, ?_, ?_⟩
  · simp only [GraphSimulation.advance, Int.toNat_one, GraphSimulation.advance_loop,
      GraphSimulation.advance_step, List.range_eq_range', h1, h2]
  · simp only [GraphSimulation.get_t, ht2, ht, hdt]
  · rw [hc2, hc]
    simp only [List.drop_zero, hed, ht, hdt, Graph.nodes, Graph.edges, List.range_eq_range']

/-- Witness of C4: a step of a simulation on two nodes with the edges `(0,1)` and
`(1,0)`; the node function adds one to a node, the edge function moves the property from
the start node to the end node. -/
theorem advance_calls_nodes_then_edges_witness :
    ∃ s1, (make_graph_sim 0 (1 / 2) (⟨[10, 20], [⟨0, 1, 3⟩, ⟨1, 0, 4⟩]⟩ : Graph Nat Nat)
        (fun _ _ n => n + 1)
        ⟨fun _ _ p a b => (p, a - p, b + p), fun _ _ p a => (p, a)⟩).advance 1 = some s1 ∧
      s1.get_t = 0 + 1 / 2 ∧
      s1.calls = [] ++ (List.range 2).map (Call.node 0 (1 / 2)) ++
        ([⟨0, 1, 3⟩, ⟨1, 0, 4⟩] : List (Edge Nat)).map (fun e =>
          Call.edge (0 + 1 / 2) (1 / 2) e.property e.start_node_idx e.end_node_idx) :=
  advance_calls_nodes_then_edges
    (make_graph_sim 0 (1 / 2) (⟨[10, 20], [⟨0, 1, 3⟩, ⟨1, 0, 4⟩]⟩ : Graph Nat Nat)
      (fun _ _ n => n + 1)
      ⟨fun _ _ p a b => (p, a - p, b + p), fun _ _ p a => (p, a)⟩)
    ⟨[GraphOp.add_node 10, GraphOp.add_node 20, GraphOp.add_edge 1 0 4, GraphOp.add_edge 0 1 3],
      by decide⟩

end epi

namespace mio

/-! ## The loop of `interpolate_simulation_result` -/

theorem TimeSeries.point_eq (r : TimeSeries) (j : Nat) (h : j < r.data.length) :
    r.data[j] = r.point j := by
  unfold TimeSeries.point
  rw [List.getD_eq_getElem _ _ h]

theorem interpolate_loop_spec (r : TimeSeries)
    (hsorted : ∀ a b, a ≤ b → b < r.data.length → (r.point a).1 ≤ (r.point b).1) :
    ∀ (i : Nat) (day : ℤ) (acc : TimeSeries), i < r.data.length →
      (r.point i).1 < (day : ℚ) → day ≤ ⌊(r.point (r.data.length - 1)).1⌋ + 1 →
      ∃ ext : List (ℚ × List ℚ),
        interpolate_loop r i day acc =
          (⌊(r.point (r.data.length - 1)).1⌋ + 1, ⟨acc.num_elements, acc.data ++ ext⟩) ∧
        ext.length = (⌊(r.point (r.data.length - 1)).1⌋ + 1 - day).toNat ∧
        ∀ m, m < ext.length → ∃ j, i ≤ j ∧ j + 1 < r.data.length ∧
          (r.point j).1 < ((day + (m : ℤ) : ℤ) : ℚ) ∧
          ((day + (m : ℤ) : ℤ) : ℚ) ≤ (r.point (j + 1)).1 ∧
          ext[m]? = some (((day + (m : ℤ) : ℤ) : ℚ),
            interpolate_point (r.point j) (r.point (j + 1)) (day + (m : ℤ))) := by
  intro i day acc
  induction i, day, acc using interpolate_loop.induct r with
  | case1 i day acc h hc ih =>
    intro hi hlt hle
    rw [r.point_eq i (by omega), r.point_eq (i + 1) h] at hc ih
    have hT : (r.point (i + 1)).1 ≤ (r.point (r.data.length - 1)).1 :=
      hsorted _ _ (by omega) (by omega)
    have hday : day ≤ ⌊(r.point (r.data.length - 1)).1⌋ := Int.le_floor.2 (le_trans hc.2 hT)
    have hlt1 : (r.point i).1 < ((day + 1 : ℤ) : ℚ) := by
      push_cast
      linarith
    obtain ⟨ext, heq, hlen, hext⟩ := ih hi hlt1 (by omega)
    refine ⟨(((day : ℤ) : ℚ), interpolate_point (r.point i) (r.point (i + 1)) day) :: ext,
      ?_, ?_, ?_⟩
    · rw [interpolate_loop, dif_pos h, r.point_eq i (by omega), r.point_eq (i + 1) h,
        if_pos hc, heq]
      simp [TimeSeries.add_time_point]
    · simp only [List.length_cons, hlen]
      omega
    · intro m hm
      cases m with
      | zero =>
        refine ⟨i, le_refl _, h, ?_, ?_, ?_⟩
        · simpa using hc.1
        · simpa using hc.2
        · simp
      | succ m =>
        obtain ⟨j, hj1, hj2, hj3, hj4, hj5⟩ := hext m (by simpa using hm)
        have he : day + ((m + 1 : ℕ) : ℤ) = day + 1 + (m : ℤ) := by push_cast; ring
        refine ⟨j, hj1, hj2, ?_, ?_, ?_⟩
        · rw [he]; exact hj3
        · rw [he]; exact hj4
        · rw [he]; simpa using hj5
  | case2 i day acc h hc ih =>
    intro hi hlt hle
    rw [r.point_eq i (by omega), r.point_eq (i + 1) h] at hc
    have hlt1 : (r.point (i + 1)).1 < (day : ℚ) := by
      by_contra hcon
      exact hc ⟨hlt, not_lt.1 hcon⟩
    obtain ⟨ext, heq, hlen, hext⟩ := ih h hlt1 hle
    refine ⟨ext, ?_, hlen, ?_⟩
    · rw [interpolate_loop, dif_pos h, r.point_eq i (by omega), r.point_eq (i + 1) h,
        if_neg hc, heq]
    · intro m hm
      obtain ⟨j, hj1, hj2, hj3⟩ := hext m hm
      exact ⟨j, by omega, hj2, hj3⟩
  | case3 i day acc h =>
    intro hi hlt hle
    have hin : i = r.data.length - 1 := by omega
    have hfl : ⌊(r.point (r.data.length - 1)).1⌋ < day := by
      rw [Int.floor_lt, ← hin]
      exact hlt
    have hd : day = ⌊(r.point (r.data.length - 1)).1⌋ + 1 := by omega
    refine ⟨[], ?_, ?_, ?_⟩
    · rw [interpolate_loop, dif_neg h, ← hd]
      simp
    · simp only [List.length_nil]
      omega
    · intro m hm
      simp at hm

theorem interpolate_structure (r : TimeSeries) (hne : 0 < r.data.length)
    (hsorted : ∀ a b, a ≤ b → b < r.data.length → (r.point a).1 ≤ (r.point b).1) :
    ∃ ext : List (ℚ × List ℚ),
      interpolate_simulation_result r = some ⟨r.num_elements,
        (((⌊(r.point 0).1⌋ : ℤ) : ℚ), (r.point 0).2) :: (ext ++
          (if ((⌈(r.point (r.data.length - 1)).1⌉ : ℤ) : ℚ) > (r.point (r.data.length - 1)).1 then
            [(((⌊(r.point (r.data.length - 1)).1⌋ + 1 : ℤ) : ℚ),
              (r.point (r.data.length - 1)).2)]
          else []))⟩ ∧
      ext.length = (⌊(r.point (r.data.length - 1)).1⌋ - ⌊(r.point 0).1⌋).toNat ∧
      ∀ m, m < ext.length → ∃ j, j + 1 < r.data.length ∧
        (r.point j).1 < ((⌊(r.point 0).1⌋ + 1 + (m : ℤ) : ℤ) : ℚ) ∧
        ((⌊(r.point 0).1⌋ + 1 + (m : ℤ) : ℤ) : ℚ) ≤ (r.point (j + 1)).1 ∧
        ext[m]? = some (((⌊(r.point 0).1⌋ + 1 + (m : ℤ) : ℤ) : ℚ),
          interpolate_point (r.point j) (r.point (j + 1)) (⌊(r.point 0).1⌋ + 1 + (m : ℤ))) := by
  have h0T : (r.point 0).1 ≤ (r.point (r.data.length - 1)).1 :=
    hsorted _ _ (Nat.zero_le _) (by omega)
  have hfl : ⌊(r.point 0).1⌋ ≤ ⌊(r.point (r.data.length - 1)).1⌋ := Int.floor_mono h0T
  have hlt : (r.point 0).1 < ((⌊(r.point 0).1⌋ + 1 : ℤ) : ℚ) := by
    push_cast
    exact Int.lt_floor_add_one _
  obtain ⟨ext, heq, hlen, hext⟩ := interpolate_loop_spec r hsorted 0 (⌊(r.point 0).1⌋ + 1)
    ((TimeSeries.mk r.get_num_elements []).add_time_point ((⌊(r.point 0).1⌋ : ℤ) : ℚ)
      (r.point 0).2) hne hlt (by omega)
  refine ⟨ext, ?_, ?_, ?_⟩
  · unfold interpolate_simulation_result
    rw [dif_pos (show r.get_num_time_points > 0 from hne)]
    simp only [r.point_eq 0 hne, r.point_eq (r.data.length - 1) (by omega), heq]
    split_ifs with hc
    · simp [TimeSeries.add_time_point, TimeSeries.get_num_elements]
    · simp [TimeSeries.add_time_point, TimeSeries.get_num_elements]
  · rw [hlen]; omega
  · intro m hm
    obtain ⟨j, -, hj⟩ := hext m hm
    exact ⟨j, hj⟩

end mio

namespace mio

theorem TimeSeries.sorted_index (r : TimeSeries) (hs : r.times.Pairwise (fun a b => a ≤ b)) :
    ∀ a b, a ≤ b → b < r.data.length → (r.point a).1 ≤ (r.point b).1 := by
  intro a b hab hb
  rcases Nat.eq_or_lt_of_le hab with h | h
  · rw [h]
  · have ha : a < r.data.length := by omega
    unfold TimeSeries.times at hs
    rw [List.pairwise_iff_getElem] at hs
    have := hs a b (by simpa using ha) (by simpa using hb) h
    rw [List.getElem_map, List.getElem_map, r.point_eq a ha, r.point_eq b hb] at this
    exact this

theorem TimeSeries.strict_index (r : TimeSeries) (hs : r.times.Pairwise (fun a b => a < b)) :
    ∀ a b, a < b → b < r.data.length → (r.point a).1 < (r.point b).1 := by
  intro a b h hb
  have ha : a < r.data.length := by omega
  unfold TimeSeries.times at hs
  rw [List.pairwise_iff_getElem] at hs
  have := hs a b (by simpa using ha) (by simpa using hb) h
  rw [List.getElem_map, List.getElem_map, r.point_eq a ha, r.point_eq b hb] at this
  exact this

theorem map_fst_of_days (ext : List (ℚ × List ℚ)) (d : ℤ)
    (h : ∀ m, m < ext.length → ∃ v, ext[m]? = some (((d + (m : ℤ) : ℤ) : ℚ), v)) :
    ext.map Prod.fst = (List.range ext.length).map (fun (m : ℕ) => ((d + (m : ℤ) : ℤ) : ℚ)) := by
  apply List.ext_getElem
  · simp
  · intro m h1 h2
    have hm : m < ext.length := by simpa using h1
    obtain ⟨v, hv⟩ := h m hm
    rw [List.getElem?_eq_getElem hm] at hv
    simp only [Option.some.injEq] at hv
    simp [hv]

end mio

namespace mio

theorem ceil_of_gt (T : ℚ) (h : ((⌈T⌉ : ℤ) : ℚ) > T) : ⌈T⌉ = ⌊T⌋ + 1 := by
  have h1 := Int.ceil_le_floor_add_one T
  have h2 : ⌊T⌋ < ⌈T⌉ := by
    rw [Int.floor_lt]
    exact h
  omega

theorem ceil_of_not_gt (T : ℚ) (h : ¬ ((⌈T⌉ : ℤ) : ℚ) > T) : ⌈T⌉ = ⌊T⌋ ∧ ((⌊T⌋ : ℤ) : ℚ) = T := by
  have h1 : T = ((⌈T⌉ : ℤ) : ℚ) := le_antisymm (Int.le_ceil T) (not_lt.1 h)
  have h2 : ⌊T⌋ = ⌈T⌉ := by
    conv_lhs => rw [h1]
    exact Int.floor_intCast _
  exact ⟨h2.symm, by rw [h2]; exact h1.symm⟩

theorem interpolate_point_length (a b : ℚ × List ℚ) (d : ℤ) (n : Nat) (ha : a.2.length = n)
    (hb : b.2.length = n) : (interpolate_point a b d).length = n := by
  simp [interpolate_point, vadd, vscale, vsub, ha, hb]

theorem TimeSeries.wf_point (r : TimeSeries) (hwf : r.wf) (j : Nat) (hj : j < r.data.length) :
    (r.point j).2.length = r.num_elements := by
  rw [← r.point_eq j hj]
  exact hwf _ (List.getElem_mem hj)

theorem interpolate_times_eq (r : TimeSeries) (hne : 0 < r.data.length)
    (hsorted : ∀ a b, a ≤ b → b < r.data.length → (r.point a).1 ≤ (r.point b).1)
    (out : TimeSeries) (hout : interpolate_simulation_result r = some out) :
    out.times = (List.range
        (⌈(r.point (r.get_num_time_points - 1)).1⌉ - ⌊(r.point 0).1⌋ + 1).toNat).map
      (fun (k : ℕ) => ((⌊(r.point 0).1⌋ + (k : ℤ) : ℤ) : ℚ)) := by
  obtain ⟨ext, heq, hlen, hext⟩ := interpolate_structure r hne hsorted
  have h0T : (r.point 0).1 ≤ (r.point (r.data.length - 1)).1 :=
    hsorted _ _ (Nat.zero_le _) (by omega)
  have hfl : ⌊(r.point 0).1⌋ ≤ ⌊(r.point (r.data.length - 1)).1⌋ := Int.floor_mono h0T
  have hfst : ext.map Prod.fst = (List.range ext.length).map
      (fun (m : ℕ) => ((⌊(r.point 0).1⌋ + 1 + (m : ℤ) : ℤ) : ℚ)) := by
    apply map_fst_of_days
    intro m hm
    obtain ⟨j, -, -, -, hj⟩ := hext m hm
    exact ⟨_, hj⟩
  rw [heq] at hout
  simp only [Option.some.injEq] at hout
  subst hout
  simp only [TimeSeries.times, TimeSeries.get_num_time_points, List.map_cons, List.map_append,
    hfst]
  split_ifs with hc
  · have hce := ceil_of_gt _ hc
    have hcount : (⌈(r.point (r.data.length - 1)).1⌉ - ⌊(r.point 0).1⌋ + 1).toNat =
        ext.length + 1 + 1 := by
      rw [hlen, hce]; omega
    rw [hcount, List.range_succ, List.map_append, List.range_succ_eq_map]
    simp only [List.map_cons, List.map_map, List.map_nil, Nat.cast_zero, add_zero,
      List.cons_append]
    congr 1
    congr 1
    · apply List.map_congr_left
      intro m _
      simp only [Function.comp, Nat.cast_succ]
      push_cast
      ring
    · simp only [List.cons.injEq, and_true]
      rw [hlen]
      congr 1
      have : (((⌊(r.point (r.data.length - 1)).1⌋ - ⌊(r.point 0).1⌋).toNat + 1 : ℕ) : ℤ) =
          ⌊(r.point (r.data.length - 1)).1⌋ - ⌊(r.point 0).1⌋ + 1 := by
        push_cast
        rw [Int.toNat_of_nonneg (by omega)]
      rw [this]
      ring
  · have hce := (ceil_of_not_gt _ hc).1
    have hcount : (⌈(r.point (r.data.length - 1)).1⌉ - ⌊(r.point 0).1⌋ + 1).toNat =
        ext.length + 1 := by
      rw [hlen, hce]; omega
    rw [hcount, List.range_succ_eq_map]
    simp only [List.map_cons, List.map_map, List.map_nil, Nat.cast_zero, add_zero,
      List.append_nil]
    congr 1
    apply List.map_congr_left
    intro m _
    simp only [Function.comp, Nat.cast_succ]
    push_cast
    ring

theorem interpolate_values_length (r : TimeSeries) (hne : 0 < r.data.length)
    (hsorted : ∀ a b, a ≤ b → b < r.data.length → (r.point a).1 ≤ (r.point b).1)
    (hwf : r.wf) (out : TimeSeries) (hout : interpolate_simulation_result r = some out) :
    out.num_elements = r.num_elements ∧ ∀ v ∈ out.values, v.length = r.num_elements := by
  obtain ⟨ext, heq, hlen, hext⟩ := interpolate_structure r hne hsorted
  rw [heq] at hout
  simp only [Option.some.injEq] at hout
  subst hout
  refine ⟨rfl, ?_⟩
  intro v hv
  simp only [TimeSeries.values, List.map_cons, List.map_append, List.mem_cons,
    List.mem_append, List.mem_map] at hv
  rcases hv with hv | ⟨p, hp, hv⟩ | ⟨p, hp, hv⟩
  · rw [hv]
    exact r.wf_point hwf 0 hne
  · obtain ⟨m, hm, hpm⟩ := List.getElem_of_mem hp
    obtain ⟨j, hj, -, -, hjv⟩ := hext m hm
    rw [List.getElem?_eq_getElem hm, hpm] at hjv
    simp only [Option.some.injEq] at hjv
    rw [← hv, hjv]
    exact interpolate_point_length _ _ _ _ (r.wf_point hwf j (by omega))
      (r.wf_point hwf (j + 1) hj)
  · split_ifs at hp with hc
    · simp only [List.mem_singleton] at hp
      rw [← hv, hp]
      exact r.wf_point hwf _ (by omega)
    · simp at hp

/-- C5: for a non-empty time series with non-decreasing time points `t_0 ≤ ... ≤ t_max`,
`interpolate_simulation_result` returns a series whose time points are exactly the
consecutive integers `floor(t_0), floor(t_0) + 1, ..., ceil(t_max)`, each once and in
increasing order, so there are `ceil(t_max) - floor(t_0) + 1` of them; the result has the
number of elements of the input and every value vector of it has that many entries. -/
theorem interpolate_time_points (r : TimeSeries) (hne : 0 < r.get_num_time_points)
    (hs : r.times.Pairwise (fun a b => a ≤ b)) (hwf : r.wf) :
    ∃ out, interpolate_simulation_result r = some out ∧
      out.times = (List.range
          (⌈(r.point (r.get_num_time_points - 1)).1⌉ - ⌊(r.point 0).1⌋ + 1).toNat).map
        (fun (k : ℕ) => ((⌊(r.point 0).1⌋ + (k : ℤ) : ℤ) : ℚ)) ∧
      out.get_num_time_points =
        (⌈(r.point (r.get_num_time_points - 1)).1⌉ - ⌊(r.point 0).1⌋ + 1).toNat ∧
      out.get_num_elements = r.get_num_elements ∧
      ∀ v ∈ out.values, v.length = r.get_num_elements := by
  have hne1 : 0 < r.data.length := hne
  have hsorted := r.sorted_index hs
  obtain ⟨ext, heq, -, -⟩ := interpolate_structure r hne1 hsorted
  have htimes := interpolate_times_eq r hne1 hsorted _ heq
  have hval := interpolate_values_length r hne1 hsorted hwf _ heq
  refine ⟨_, heq, htimes, ?_, hval.1, hval.2⟩
  have := congrArg List.length htimes
  simpa [TimeSeries.times, TimeSeries.get_num_time_points] using this

/-- Witness of C5: the series of the test `aFewMoreComplexValues`, with the times 0, 1.5
and 2.1. -/
theorem interpolate_time_points_witness :
    ∃ out, interpolate_simulation_result ts_complex = some out ∧
      out.times = (List.range
          (⌈(ts_complex.point (ts_complex.get_num_time_points - 1)).1⌉ -
            ⌊(ts_complex.point 0).1⌋ + 1).toNat).map
        (fun (k : ℕ) => ((⌊(ts_complex.point 0).1⌋ + (k : ℤ) : ℤ) : ℚ)) ∧
      out.get_num_time_points =
        (⌈(ts_complex.point (ts_complex.get_num_time_points - 1)).1⌉ -
          ⌊(ts_complex.point 0).1⌋ + 1).toNat ∧
      out.get_num_elements = ts_complex.get_num_elements ∧
      ∀ v ∈ out.values, v.length = ts_complex.get_num_elements :=
  interpolate_time_points ts_complex (by decide)
    (by norm_num [TimeSeries.times, ts_complex]) (by decide)

end mio

namespace mio

theorem interpolate_point_eq (a b : ℚ × List ℚ) (d : ℤ) :
    interpolate_point a b d =
      List.zipWith (fun x y => x + (y - x) * ((d : ℚ) - a.1) / (b.1 - a.1)) a.2 b.2 := by
  unfold interpolate_point vadd vscale vsub
  generalize a.2 = u
  generalize b.2 = v
  induction u generalizing v with
  | nil => simp
  | cons x xs ih =>
    cases v with
    | nil => simp
    | cons y ys =>
      simp only [List.zipWith_cons_cons, List.map_cons, List.cons.injEq]
      exact ⟨by rw [mul_div_assoc], ih ys⟩

theorem zipWith_weight_one (u v : List ℚ) (t : ℚ) (s : ℚ) (hts : t - s ≠ 0)
    (h : u.length = v.length) :
    List.zipWith (fun x y => x + (y - x) * (t - s) / (t - s)) u v = v := by
  induction u generalizing v with
  | nil =>
    cases v with
    | nil => rfl
    | cons y ys => simp at h
  | cons x xs ih =>
    cases v with
    | nil => simp at h
    | cons y ys =>
      simp only [List.zipWith_cons_cons, List.cons.injEq]
      refine ⟨?_, ih ys (by simpa using h)⟩
      field_simp

/-- C6: for a non-empty time series with strictly increasing times (exact arithmetic),
`interpolate_simulation_result` returns a series that holds, at position `d - floor(t_0)`
for the day `d`: the first input value at the day `floor(t_0)`; for every integer day `d`
and every `i` with `t_i < d ≤ t_{i+1}` the time `d` with the value
`v_i + (v_{i+1} - v_i) * (d - t_i) / (t_{i+1} - t_i)`, which is the input value `v_{i+1}`
when `t_{i+1} = d`; and, when `t_max` is not an integer, the last input value at the day
`ceil(t_max)`. -/
theorem interpolate_values (r : TimeSeries) (hne : 0 < r.get_num_time_points)
    (hs : r.times.Pairwise (fun a b => a < b)) :
    ∃ out, interpolate_simulation_result r = some out ∧
      out.data[0]? = some (((⌊(r.point 0).1⌋ : ℤ) : ℚ), (r.point 0).2) ∧
      (∀ (i : ℕ) (d : ℤ), i + 1 < r.get_num_time_points → (r.point i).1 < (d : ℚ) →
        (d : ℚ) ≤ (r.point (i + 1)).1 →
        out.data[(d - ⌊(r.point 0).1⌋).toNat]? = some ((d : ℚ),
          List.zipWith (fun x y => x + (y - x) * ((d : ℚ) - (r.point i).1) /
            ((r.point (i + 1)).1 - (r.point i).1)) (r.point i).2 (r.point (i + 1)).2) ∧
        (r.wf → (r.point (i + 1)).1 = (d : ℚ) →
          out.data[(d - ⌊(r.point 0).1⌋).toNat]? = some ((d : ℚ), (r.point (i + 1)).2))) ∧
      ((∀ z : ℤ, (z : ℚ) ≠ (r.point (r.get_num_time_points - 1)).1) →
        out.data[(⌈(r.point (r.get_num_time_points - 1)).1⌉ - ⌊(r.point 0).1⌋).toNat]? =
          some (((⌈(r.point (r.get_num_time_points - 1)).1⌉ : ℤ) : ℚ),
            (r.point (r.get_num_time_points - 1)).2)) := by
  have hne1 : 0 < r.data.length := hne
  have hstrict := r.strict_index hs
  have hsorted := r.sorted_index (hs.imp (fun h => le_of_lt h))
  obtain ⟨ext, heq, hlen, hext⟩ := interpolate_structure r hne1 hsorted
  have h0T : (r.point 0).1 ≤ (r.point (r.data.length - 1)).1 :=
    hsorted _ _ (Nat.zero_le _) (by omega)
  have hfl : ⌊(r.point 0).1⌋ ≤ ⌊(r.point (r.data.length - 1)).1⌋ := Int.floor_mono h0T
  have hmain : ∀ (i : ℕ) (d : ℤ), i + 1 < r.data.length → (r.point i).1 < (d : ℚ) →
      (d : ℚ) ≤ (r.point (i + 1)).1 →
      ((((⌊(r.point 0).1⌋ : ℤ) : ℚ), (r.point 0).2) :: (ext ++
          (if ((⌈(r.point (r.data.length - 1)).1⌉ : ℤ) : ℚ) > (r.point (r.data.length - 1)).1 then
            [(((⌊(r.point (r.data.length - 1)).1⌋ + 1 : ℤ) : ℚ),
              (r.point (r.data.length - 1)).2)]
          else [])))[(d - ⌊(r.point 0).1⌋).toNat]? = some ((d : ℚ),
        List.zipWith (fun x y => x + (y - x) * ((d : ℚ) - (r.point i).1) /
          ((r.point (i + 1)).1 - (r.point i).1)) (r.point i).2 (r.point (i + 1)).2) := by
    intro i d hi h1 h2
    have hd0 : ⌊(r.point 0).1⌋ < d := by
      rw [Int.floor_lt]
      exact lt_of_le_of_lt (hsorted 0 i (Nat.zero_le _) (by omega)) h1
    have hdT : d ≤ ⌊(r.point (r.data.length - 1)).1⌋ := by
      rw [Int.le_floor]
      exact le_trans h2 (hsorted (i + 1) _ (by omega) (by omega))
    have hidx : (d - ⌊(r.point 0).1⌋).toNat = (d - ⌊(r.point 0).1⌋ - 1).toNat + 1 := by omega
    have hm : (d - ⌊(r.point 0).1⌋ - 1).toNat < ext.length := by rw [hlen]; omega
    obtain ⟨j, hj, hj1, hj2, hj3⟩ := hext _ hm
    have hdm : ⌊(r.point 0).1⌋ + 1 + (((d - ⌊(r.point 0).1⌋ - 1).toNat : ℕ) : ℤ) = d := by
      rw [Int.toNat_of_nonneg (by omega)]
      ring
    rw [hdm] at hj1 hj2 hj3
    have hji : j = i := by
      rcases Nat.lt_trichotomy j i with h | h | h
      · exfalso
        have : (r.point (j + 1)).1 ≤ (r.point i).1 := hsorted _ _ (by omega) (by omega)
        linarith
      · exact h
      · exfalso
        have : (r.point (i + 1)).1 ≤ (r.point j).1 := hsorted _ _ (by omega) (by omega)
        linarith
    subst hji
    rw [hidx, List.getElem?_cons_succ, List.getElem?_append_left hm, hj3,
      interpolate_point_eq]
  refine ⟨_, heq, by simp, ?_, ?_⟩
  · intro i d hi0 h1 h2
    have hi : i + 1 < r.data.length := hi0
    refine ⟨hmain i d hi h1 h2, ?_⟩
    intro hwf hd
    have h := hmain i d hi h1 h2
    simp only at h ⊢
    rw [h, ← hd]
    have hw : (r.point (i + 1)).1 - (r.point i).1 ≠ 0 := by
      have := hstrict i (i + 1) (by omega) hi
      linarith
    rw [zipWith_weight_one _ _ _ _ hw
      ((r.wf_point hwf i (by omega)).trans (r.wf_point hwf (i + 1) hi).symm)]
  · intro hz
    have hc : ((⌈(r.point (r.data.length - 1)).1⌉ : ℤ) : ℚ) > (r.point (r.data.length - 1)).1 :=
      lt_of_le_of_ne (Int.le_ceil _) (fun h => hz _ h.symm)
    have hce := ceil_of_gt _ hc
    have hidx : (⌈(r.point (r.data.length - 1)).1⌉ - ⌊(r.point 0).1⌋).toNat = ext.length + 1 := by
      rw [hlen, hce]; omega
    simp only [TimeSeries.get_num_time_points]
    rw [hidx, if_pos hc, List.getElem?_cons_succ,
      List.getElem?_append_right (le_refl _), hce]
    simp

/-- Witness of C6: the series of the test `aFewMoreComplexValues`. -/
theorem interpolate_values_witness :
    ∃ out, interpolate_simulation_result ts_complex = some out ∧
      out.data[0]? = some (((⌊(ts_complex.point 0).1⌋ : ℤ) : ℚ), (ts_complex.point 0).2) ∧
      (∀ (i : ℕ) (d : ℤ), i + 1 < ts_complex.get_num_time_points →
        (ts_complex.point i).1 < (d : ℚ) → (d : ℚ) ≤ (ts_complex.point (i + 1)).1 →
        out.data[(d - ⌊(ts_complex.point 0).1⌋).toNat]? = some ((d : ℚ),
          List.zipWith (fun x y => x + (y - x) * ((d : ℚ) - (ts_complex.point i).1) /
            ((ts_complex.point (i + 1)).1 - (ts_complex.point i).1))
            (ts_complex.point i).2 (ts_complex.point (i + 1)).2) ∧
        (ts_complex.wf → (ts_complex.point (i + 1)).1 = (d : ℚ) →
          out.data[(d - ⌊(ts_complex.point 0).1⌋).toNat]? =
            some ((d : ℚ), (ts_complex.point (i + 1)).2))) ∧
      ((∀ z : ℤ, (z : ℚ) ≠ (ts_complex.point (ts_complex.get_num_time_points - 1)).1) →
        out.data[(⌈(ts_complex.point (ts_complex.get_num_time_points - 1)).1⌉ -
            ⌊(ts_complex.point 0).1⌋).toNat]? =
          some (((⌈(ts_complex.point (ts_complex.get_num_time_points - 1)).1⌉ : ℤ) : ℚ),
            (ts_complex.point (ts_complex.get_num_time_points - 1)).2)) :=
  interpolate_values ts_complex (by decide) (by norm_num [TimeSeries.times, ts_complex])

end mio

namespace mio

theorem interpolate_of_daily (r : TimeSeries) (hne : 0 < r.data.length) (hwf : r.wf) (d0 : ℤ)
    (hdays : ∀ i, i < r.data.length → (r.point i).1 = ((d0 + (i : ℤ) : ℤ) : ℚ)) :
    interpolate_simulation_result r = some r := by
  have hsorted : ∀ a b, a ≤ b → b < r.data.length → (r.point a).1 ≤ (r.point b).1 := by
    intro a b hab hb
    rw [hdays a (by omega), hdays b hb]
    exact_mod_cast (by omega : d0 + (a : ℤ) ≤ d0 + (b : ℤ))
  obtain ⟨ext, heq, hlen, hext⟩ := interpolate_structure r hne hsorted
  have hT : (r.point (r.data.length - 1)).1 = ((d0 + ((r.data.length - 1 : ℕ) : ℤ) : ℤ) : ℚ) :=
    hdays _ (by omega)
  have h0 : (r.point 0).1 = ((d0 : ℤ) : ℚ) := by
    rw [hdays 0 hne]; simp
  have hfl0 : ⌊(r.point 0).1⌋ = d0 := by rw [h0]; exact Int.floor_intCast _
  have hflT : ⌊(r.point (r.data.length - 1)).1⌋ = d0 + ((r.data.length - 1 : ℕ) : ℤ) := by
    rw [hT]; exact Int.floor_intCast _
  have hceT : ¬ ((⌈(r.point (r.data.length - 1)).1⌉ : ℤ) : ℚ) > (r.point (r.data.length - 1)).1 := by
    rw [hT, Int.ceil_intCast]
    exact lt_irrefl _
  have hlen1 : ext.length = r.data.length - 1 := by
    rw [hlen, hflT, hfl0]; omega
  rw [heq, if_neg hceT, List.append_nil]
  have hdata : (((⌊(r.point 0).1⌋ : ℤ) : ℚ), (r.point 0).2) :: ext = r.data := by
    apply List.ext_getElem?
    intro k
    cases k with
    | zero =>
      rw [List.getElem?_cons_zero, List.getElem?_eq_getElem hne, r.point_eq 0 hne, hfl0, ← h0]
    | succ m =>
      rw [List.getElem?_cons_succ]
      by_cases hm : m < ext.length
      · have hm1 : m + 1 < r.data.length := by omega
        obtain ⟨j, hj, hj1, hj2, hj3⟩ := hext m hm
        rw [hfl0] at hj1 hj2 hj3
        have hji : j = m := by
          rw [hdays j (by omega)] at hj1
          rw [hdays (j + 1) hj] at hj2
          have h1 : d0 + (j : ℤ) < d0 + 1 + (m : ℤ) := by exact_mod_cast hj1
          have h2 : d0 + 1 + (m : ℤ) ≤ d0 + ((j + 1 : ℕ) : ℤ) := by exact_mod_cast hj2
          push_cast at h2
          omega
        subst hji
        have htd : (((d0 + 1 + (j : ℤ) : ℤ)) : ℚ) = (r.point (j + 1)).1 := by
          rw [hdays (j + 1) hm1]
          push_cast
          ring
        have hw : (r.point (j + 1)).1 - (r.point j).1 ≠ 0 := by
          rw [hdays (j + 1) hm1, hdays j (by omega)]
          push_cast
          ring_nf
          norm_num
        rw [hj3, List.getElem?_eq_getElem hm1, r.point_eq (j + 1) hm1, interpolate_point_eq,
          htd, zipWith_weight_one _ _ _ _ hw
            ((r.wf_point hwf j (by omega)).trans (r.wf_point hwf (j + 1) hm1).symm)]
      · rw [List.getElem?_eq_none (by omega), List.getElem?_eq_none (by omega)]
  rw [hdata]

end mio

namespace mio

theorem interpolate_result_daily (s : TimeSeries) (hne : 0 < s.data.length)
    (hs : s.times.Pairwise (fun a b => a ≤ b)) (hwf : s.wf) (out : TimeSeries)
    (hout : interpolate_simulation_result s = some out) :
    0 < out.data.length ∧ out.wf ∧
      ∀ i, i < out.data.length → (out.point i).1 = ((⌊(s.point 0).1⌋ + (i : ℤ) : ℤ) : ℚ) := by
  have hsorted := s.sorted_index hs
  have htimes := interpolate_times_eq s hne hsorted out hout
  have hval := interpolate_values_length s hne hsorted hwf out hout
  obtain ⟨ext, heq, -, -⟩ := interpolate_structure s hne hsorted
  have hpos : 0 < out.data.length := by
    rw [heq] at hout
    simp only [Option.some.injEq] at hout
    rw [← hout]
    simp
  refine ⟨hpos, ?_, ?_⟩
  · intro p hp
    rw [hval.1]
    exact hval.2 p.2 (by simp only [TimeSeries.values]; exact List.mem_map_of_mem _ hp)
  · intro i hi
    have h1 : out.times[i]? = some (out.point i).1 := by
      simp only [TimeSeries.times, List.getElem?_map, List.getElem?_eq_getElem hi,
        out.point_eq i hi, Option.map_some']
    rw [htimes] at h1
    rw [List.getElem?_map] at h1
    cases hr : (List.range
        (⌈(s.point (s.get_num_time_points - 1)).1⌉ - ⌊(s.point 0).1⌋ + 1).toNat)[i]? with
    | none => rw [hr] at h1; simp at h1
    | some k =>
      rw [hr] at h1
      have hk := List.getElem?_eq_some_iff.1 hr
      obtain ⟨hk1, hk2⟩ := hk
      rw [List.getElem_range] at hk2
      subst hk2
      simp only [Option.map_some', Option.some.injEq] at h1
      exact h1.symm

/-- C7: for a non-empty time series with one time point per day on consecutive integer
days `d_0, d_0 + 1, ..., d_1` (exact arithmetic), `interpolate_simulation_result` returns
its input: same time points, same values. Consequently interpolating the result of an
interpolation (of any non-empty series with non-decreasing times) changes nothing. -/
theorem interpolate_daily_is_identity (r : TimeSeries) (hne : 0 < r.get_num_time_points)
    (hwf : r.wf) (d0 : ℤ)
    (hdays : ∀ i, i < r.get_num_time_points → (r.point i).1 = ((d0 + (i : ℤ) : ℤ) : ℚ)) :
    interpolate_simulation_result r = some r ∧
      ∀ s : TimeSeries, 0 < s.get_num_time_points → s.times.Pairwise (fun a b => a ≤ b) →
        s.wf → ∃ out, interpolate_simulation_result s = some out ∧
          interpolate_simulation_result out = some out := by
  refine ⟨interpolate_of_daily r hne hwf d0 hdays, ?_⟩
  intro s hsne hs hswf
  have hsne1 : 0 < s.data.length := hsne
  obtain ⟨ext, heq, -, -⟩ := interpolate_structure s hsne1 (s.sorted_index hs)
  obtain ⟨h1, h2, h3⟩ := interpolate_result_daily s hsne1 hs hswf _ heq
  exact ⟨_, heq, interpolate_of_daily _ h1 h2 _ h3⟩

/-- Witness of C7: a series on the days 2, 3 and 4. -/
theorem interpolate_daily_is_identity_witness :
    interpolate_simulation_result ts_daily = some ts_daily ∧
      ∀ s : TimeSeries, 0 < s.get_num_time_points → s.times.Pairwise (fun a b => a ≤ b) →
        s.wf → ∃ out, interpolate_simulation_result s = some out ∧
          interpolate_simulation_result out = some out :=
  interpolate_daily_is_identity ts_daily (by decide) (by decide) 2 (by
    intro i hi
    have hi3 : i < 3 := hi
    interval_cases i <;> norm_num [TimeSeries.point, ts_daily])

end mio

namespace mio

/-! ## Reading and writing entries of a result -/

theorem Shape.get {res : List TimeSeries} {N T E : Nat} (hS : Shape res N T E) {n : Nat}
    (hn : n < N) : ∃ ts, res[n]? = some ts ∧ ts ∈ res ∧ ts.data.length = T ∧
      ts.num_elements = E ∧ ts.wf := by
  have hlt : n < res.length := by rw [hS.1]; exact hn
  exact ⟨res[n], List.getElem?_eq_getElem hlt, List.getElem_mem hlt,
    hS.2 _ (List.getElem_mem hlt)⟩

theorem Shape.read (res : List TimeSeries) (N T E : Nat) (hS : Shape res N T E) (n t : Nat)
    (hn : n < N) (ht : t < T) :
    ∃ x v, read_time res n t = some x ∧ read_value res n t = some v ∧ v.length = E := by
  obtain ⟨ts, h1, -, h2, h3, h4⟩ := hS.get hn
  have hlt : t < ts.data.length := by rw [h2]; exact ht
  refine ⟨(ts.data[t]).1, (ts.data[t]).2, ?_, ?_, ?_⟩
  · simp only [read_time, h1, List.getElem?_eq_getElem hlt]
  · simp only [read_value, h1, List.getElem?_eq_getElem hlt]
  · rw [h4 _ (List.getElem_mem hlt), h3]

theorem write_value_spec (res : List TimeSeries) (N T E : Nat) (hS : Shape res N T E)
    (n t : Nat) (v : List ℚ) (hn : n < N) (ht : t < T) (hv : v.length = E) :
    ∃ res1, write_value res n t v = some res1 ∧ Shape res1 N T E ∧
      (∀ n1 t1, read_time res1 n1 t1 = read_time res n1 t1) ∧
      (∀ n1 t1, read_value res1 n1 t1 =
        if n1 = n ∧ t1 = t then some v else read_value res n1 t1) := by
  obtain ⟨ts, h1, hmem, h2, h3, h4⟩ := hS.get hn
  have hlt : t < ts.data.length := by rw [h2]; exact ht
  have hnl : n < res.length := by rw [hS.1]; exact hn
  refine ⟨res.set n { ts with data := ts.data.set t ((ts.data[t]).1, v) },
    by simp only [write_value, h1, List.getElem?_eq_getElem hlt], ?_, ?_, ?_⟩
  · refine ⟨by rw [List.length_set]; exact hS.1, ?_⟩
    intro ts1 hts1
    rcases List.mem_or_eq_of_mem_set hts1 with h | h
    · exact hS.2 _ h
    · subst h
      refine ⟨by simp only [List.length_set]; exact h2, h3, ?_⟩
      intro p hp
      rcases List.mem_or_eq_of_mem_set hp with h | h
      · exact h4 p h
      · rw [h]; simp only; rw [hv, h3]
  · intro n1 t1
    simp only [read_time, List.getElem?_set]
    by_cases hn1 : n = n1
    · subst hn1
      simp only [if_true, hnl, h1, List.getElem?_set]
      by_cases ht1 : t = t1
      · subst ht1
        simp only [if_true, hlt, List.getElem?_eq_getElem hlt]
      · simp only [if_neg ht1]
    · simp only [if_neg hn1]
  · intro n1 t1
    simp only [read_value, List.getElem?_set]
    by_cases hn1 : n = n1
    · subst hn1
      simp only [if_true, hnl, h1, List.getElem?_set, true_and]
      by_cases ht1 : t = t1
      · subst ht1
        simp only [if_true, hlt]
      · simp only [if_neg ht1, if_neg (fun h : t1 = t => ht1 h.symm)]
    · simp only [if_neg hn1, if_neg (fun h : n1 = n ∧ t1 = t => hn1 h.1.symm)]

theorem write_time_spec (res : List TimeSeries) (N T E : Nat) (hS : Shape res N T E)
    (n t : Nat) (x : ℚ) (hn : n < N) (ht : t < T) :
    ∃ res1, write_time res n t x = some res1 ∧ Shape res1 N T E ∧
      (∀ n1 t1, read_value res1 n1 t1 = read_value res n1 t1) ∧
      (∀ n1 t1, read_time res1 n1 t1 =
        if n1 = n ∧ t1 = t then some x else read_time res n1 t1) := by
  obtain ⟨ts, h1, hmem, h2, h3, h4⟩ := hS.get hn
  have hlt : t < ts.data.length := by rw [h2]; exact ht
  have hnl : n < res.length := by rw [hS.1]; exact hn
  refine ⟨res.set n { ts with data := ts.data.set t (x, (ts.data[t]).2) },
    by simp only [write_time, h1, List.getElem?_eq_getElem hlt], ?_, ?_, ?_⟩
  · refine ⟨by rw [List.length_set]; exact hS.1, ?_⟩
    intro ts1 hts1
    rcases List.mem_or_eq_of_mem_set hts1 with h | h
    · exact hS.2 _ h
    · subst h
      refine ⟨by simp only [List.length_set]; exact h2, h3, ?_⟩
      intro p hp
      rcases List.mem_or_eq_of_mem_set hp with h | h
      · exact h4 p h
      · rw [h]; exact h4 (ts.data[t]) (List.getElem_mem hlt)
  · intro n1 t1
    simp only [read_value, List.getElem?_set]
    by_cases hn1 : n = n1
    · subst hn1
      simp only [if_true, hnl, h1, List.getElem?_set]
      by_cases ht1 : t = t1
      · subst ht1
        simp only [if_true, hlt, List.getElem?_eq_getElem hlt]
      · simp only [if_neg ht1]
    · simp only [if_neg hn1]
  · intro n1 t1
    simp only [read_time, List.getElem?_set]
    by_cases hn1 : n = n1
    · subst hn1
      simp only [if_true, hnl, h1, List.getElem?_set, true_and]
      by_cases ht1 : t = t1
      · subst ht1
        simp only [if_true, hlt]
      · simp only [if_neg ht1, if_neg (fun h : t1 = t => ht1 h.symm)]
    · simp only [if_neg hn1, if_neg (fun h : n1 = n ∧ t1 = t => hn1 h.1.symm)]

theorem write_elem_spec (res : List TimeSeries) (N T E : Nat) (hS : Shape res N T E)
    (n t e : Nat) (x : ℚ) (hn : n < N) (ht : t < T) (he : e < E) :
    ∃ res1, write_elem res n t e x = some res1 ∧ Shape res1 N T E ∧
      (∀ n1 t1, read_time res1 n1 t1 = read_time res n1 t1) ∧
      (∀ n1 t1 e1, read_elem res1 n1 t1 e1 =
        if n1 = n ∧ t1 = t ∧ e1 = e then some x else read_elem res n1 t1 e1) := by
  obtain ⟨x0, v, -, hv, hlen⟩ := Shape.read res N T E hS n t hn ht
  obtain ⟨res1, h1, h2, h3, h4⟩ :=
    write_value_spec res N T E hS n t (v.set e x) hn ht (by rw [List.length_set]; exact hlen)
  refine ⟨res1, ?_, h2, h3, ?_⟩
  · simp only [write_elem, hv, hlen, he, if_true, h1]
  · intro n1 t1 e1
    simp only [read_elem, h4]
    by_cases hnt : n1 = n ∧ t1 = t
    · obtain ⟨hn1, ht1⟩ := hnt
      subst hn1 ht1
      simp only [true_and, and_self, if_true, hv, List.getElem?_set]
      by_cases he1 : e = e1
      · subst he1
        simp only [if_true, hlen, he]
      · simp only [if_neg he1, if_neg (fun h : e1 = e => he1 h.symm)]
    · simp only [if_neg hnt, if_neg (fun h : n1 = n ∧ t1 = t ∧ e1 = e => hnt ⟨h.1, h.2.1⟩)]

end mio

theorem for_each_range_from {σ : Type} (body : σ → Nat → Option σ) (I : Nat → σ → Prop)
    (m : Nat) : ∀ (k : Nat) (s : σ), I k s →
      (∀ j s, k ≤ j → j < k + m → I j s → ∃ s1, body s j = some s1 ∧ I (j + 1) s1) →
      ∃ s1, for_each body (List.range' k m) s = some s1 ∧ I (k + m) s1 := by
  induction m with
  | zero =>
    intro k s h0 _
    exact ⟨s, rfl, h0⟩
  | succ m ih =>
    intro k s h0 hstep
    obtain ⟨s1, h1, h2⟩ := hstep k s (le_refl _) (by omega) h0
    obtain ⟨s2, h3, h4⟩ := ih (k + 1) s1 h2 (fun j s hj1 hj2 hI => hstep j s (by omega) (by omega) hI)
    refine ⟨s2, ?_, ?_⟩
    · simp only [List.range', for_each, h1]
      exact h3
    · have : k + (m + 1) = k + 1 + m := by omega
      rw [this]
      exact h4

theorem for_each_range {σ : Type} (body : σ → Nat → Option σ) (I : Nat → σ → Prop)
    (n : Nat) (s : σ) (h0 : I 0 s)
    (hstep : ∀ j s, j < n → I j s → ∃ s1, body s j = some s1 ∧ I (j + 1) s1) :
    ∃ s1, for_each body (List.range n) s = some s1 ∧ I n s1 := by
  have := for_each_range_from body I n 0 s h0
    (fun j s _ hj hI => hstep j s (by omega) hI)
  rw [List.range_eq_range']
  simpa using this

namespace mio

theorem shape_zero (N T E : Nat) :
    Shape (List.replicate N (TimeSeries.zero T E)) N T E := by
  refine ⟨List.length_replicate _ _, ?_⟩
  intro ts hts
  rw [List.eq_of_mem_replicate hts]
  refine ⟨by simp [TimeSeries.zero], rfl, ?_⟩
  intro p hp
  simp only [TimeSeries.zero] at hp ⊢
  rw [List.eq_of_mem_replicate hp]
  simp

theorem single_element_ensemble_uniform (ens : List (List TimeSeries)) (N T E n t e : Nat)
    (hu : Uniform ens N T E) (hn : n < N) (ht : t < T) (he : e < E) :
    single_element_ensemble ens n t e = some (run_values ens n t e) := by
  induction ens with
  | nil => rfl
  | cons run runs ih =>
    have hrun : Shape run N T E := hu run (List.mem_cons_self _ _)
    obtain ⟨x, v, -, hv, hlen⟩ := Shape.read run N T E hrun n t hn ht
    have hre : read_elem run n t e = some (v[e]) := by
      simp only [read_elem, hv]
      exact List.getElem?_eq_getElem (by omega)
    have ih1 := ih (fun r hr => hu r (List.mem_cons_of_mem _ hr))
    simp only [single_element_ensemble, hre, ih1, run_values, List.map_cons, run_value,
      Option.getD_some]

theorem percentile_index_lt (N : Nat) (p : ℚ) (hN : 0 < N) (hp0 : 0 < p) (hp1 : p < 1) :
    (⌊(N : ℚ) * p⌋).toNat < N := by
  have hNq : (0 : ℚ) < (N : ℚ) := by exact_mod_cast hN
  have h1 : ⌊(N : ℚ) * p⌋ < (N : ℤ) := by
    rw [Int.floor_lt]
    push_cast
    nlinarith
  have h0 : 0 ≤ ⌊(N : ℚ) * p⌋ := Int.floor_nonneg.2 (by positivity)
  omega

theorem percentile_value_some (ens : List (List TimeSeries)) (p : ℚ) (n t e : Nat)
    (hN : 0 < ens.length) (hp0 : 0 < p) (hp1 : p < 1) :
    ∃ x, percentile_value ens p n t e = some x := by
  unfold percentile_value
  have hlt : (⌊(ens.length : ℚ) * p⌋).toNat <
      ((run_values ens n t e).insertionSort (fun a b => a ≤ b)).length := by
    rw [List.length_insertionSort]
    simp only [run_values, List.length_map]
    exact percentile_index_lt _ p hN hp0 hp1
  exact ⟨_, List.getElem?_eq_getElem hlt⟩

end mio

namespace mio

/-! ## The loops of `ensemble_percentile` -/

theorem percentile_elem_loop (ens : List (List TimeSeries)) (p : ℚ) (run0 : List TimeSeries)
    (N T E node time : Nat) (hu : Uniform ens N T E) (hN : 0 < ens.length) (hp0 : 0 < p)
    (hp1 : p < 1) (hn : node < N) (ht : time < T) (s : List TimeSeries)
    (h : PercentileInv ens p run0 N T E node time 0 (time + 1) s) :
    ∃ s1, for_each (ensemble_percentile_elem ens p node time) (List.range E) s = some s1 ∧
      PercentileInv ens p run0 N T E node time E (time + 1) s1 := by
  apply for_each_range (ensemble_percentile_elem ens p node time)
    (fun e s => PercentileInv ens p run0 N T E node time e (time + 1) s) E s h
  intro e s he hI
  obtain ⟨hS, hE, hT⟩ := hI
  obtain ⟨x, hx⟩ := percentile_value_some ens p node time e hN hp0 hp1
  obtain ⟨s1, h1, h2, h3, h4⟩ := write_elem_spec s N T E hS node time e x hn ht he
  refine ⟨s1, ?_, h2, ?_, ?_⟩
  · have hx1 := hx
    unfold percentile_value at hx1
    simp only [ensemble_percentile_elem,
      single_element_ensemble_uniform ens N T E node time e hu hn ht he, hx1, h1]
  · intro n1 t1 e1 hn1 ht1 he1 hlex
    rw [h4]
    by_cases hpos : n1 = node ∧ t1 = time ∧ e1 = e
    · obtain ⟨r1, r2, r3⟩ := hpos
      subst r1 r2 r3
      rw [if_pos ⟨rfl, rfl, rfl⟩, hx]
    · rw [if_neg hpos]
      exact hE n1 t1 e1 hn1 ht1 he1 (by omega)
  · intro n1 t1 hn1 ht1 hlex
    rw [h3]
    exact hT n1 t1 hn1 ht1 hlex

theorem percentile_time_step (ens : List (List TimeSeries)) (p : ℚ) (run0 : List TimeSeries)
    (N T E node time : Nat) (hu : Uniform ens N T E) (hN : 0 < ens.length) (hp0 : 0 < p)
    (hp1 : p < 1) (h0 : Shape run0 N T E) (hn : node < N) (ht : time < T)
    (s : List TimeSeries) (h : PercentileInv ens p run0 N T E node time 0 time s) :
    ∃ s1, ensemble_percentile_time ens p run0 E node s time = some s1 ∧
      PercentileInv ens p run0 N T E node (time + 1) 0 (time + 1) s1 := by
  obtain ⟨hS, hE, hT⟩ := h
  obtain ⟨x, v, hx, -, -⟩ := Shape.read run0 N T E h0 node time hn ht
  obtain ⟨s1, h1, h2, h3, h4⟩ := write_time_spec s N T E hS node time x hn ht
  have hI1 : PercentileInv ens p run0 N T E node time 0 (time + 1) s1 := by
    refine ⟨h2, ?_, ?_⟩
    · intro n1 t1 e1 hn1 ht1 he1 hlex
      simp only [read_elem, h3]
      exact hE n1 t1 e1 hn1 ht1 he1 hlex
    · intro n1 t1 hn1 ht1 hlex
      rw [h4]
      by_cases hpos : n1 = node ∧ t1 = time
      · rw [if_pos hpos, hpos.1, hpos.2, hx]
      · rw [if_neg hpos]
        exact hT n1 t1 hn1 ht1 (by omega)
  obtain ⟨s2, h5, hS2, hE2, hT2⟩ :=
    percentile_elem_loop ens p run0 N T E node time hu hN hp0 hp1 hn ht s1 hI1
  refine ⟨s2, ?_, hS2, ?_, hT2⟩
  · simp only [ensemble_percentile_time, hx, h1, h5]
  · intro n1 t1 e1 hn1 ht1 he1 hlex
    exact hE2 n1 t1 e1 hn1 ht1 he1 (by omega)

theorem percentile_node_step (ens : List (List TimeSeries)) (p : ℚ) (run0 : List TimeSeries)
    (N T E node : Nat) (hu : Uniform ens N T E) (hN : 0 < ens.length) (hp0 : 0 < p)
    (hp1 : p < 1) (h0 : Shape run0 N T E) (hn : node < N) (s : List TimeSeries)
    (h : PercentileInv ens p run0 N T E node 0 0 0 s) :
    ∃ s1, ensemble_percentile_node ens p run0 T E s node = some s1 ∧
      PercentileInv ens p run0 N T E (node + 1) 0 0 0 s1 := by
  obtain ⟨s1, h1, hS1, hE1, hT1⟩ := for_each_range
    (ensemble_percentile_time ens p run0 E node)
    (fun t s => PercentileInv ens p run0 N T E node t 0 t s) T s h
    (fun t s ht hI => percentile_time_step ens p run0 N T E node t hu hN hp0 hp1 h0 hn ht s hI)
  refine ⟨s1, h1, hS1, ?_, ?_⟩
  · intro n1 t1 e1 hn1 ht1 he1 hlex
    exact hE1 n1 t1 e1 hn1 ht1 he1 (by omega)
  · intro n1 t1 hn1 ht1 hlex
    exact hT1 n1 t1 hn1 ht1 (by omega)

theorem Uniform.head (ens : List (List TimeSeries)) (N T E : Nat) (hu : Uniform ens N T E)
    (hN : 0 < ens.length) (hnodes : 0 < N) :
    ∃ run0 ts00, ens[0]? = some run0 ∧ run0[0]? = some ts00 ∧ Shape run0 N T E ∧
      run0.length = N ∧ ts00.get_num_time_points = T ∧ ts00.get_num_elements = E := by
  have h0 : Shape (ens[0]) N T E := hu _ (List.getElem_mem hN)
  obtain ⟨ts, h1, -, h2, h3, -⟩ := h0.get hnodes
  exact ⟨ens[0], ts, List.getElem?_eq_getElem hN, h1, h0, h0.1, h2, h3⟩

theorem ensemble_percentile_run (ens : List (List TimeSeries)) (p : ℚ) (N T E : Nat)
    (hu : Uniform ens N T E) (hN : 0 < ens.length) (hnodes : 0 < N) (hp0 : 0 < p)
    (hp1 : p < 1) :
    ∃ res run0, ensemble_percentile ens p = some res ∧ ens[0]? = some run0 ∧ Shape res N T E ∧
      (∀ n t e, n < N → t < T → e < E → read_elem res n t e = percentile_value ens p n t e) ∧
      (∀ n t, n < N → t < T → read_time res n t = read_time run0 n t) := by
  obtain ⟨run0, ts00, h1, h2, h3, h4, h5, h6⟩ := Uniform.head ens N T E hu hN hnodes
  obtain ⟨res, hr, hS, hE, hT⟩ := for_each_range
    (ensemble_percentile_node ens p run0 T E)
    (fun n s => PercentileInv ens p run0 N T E n 0 0 0 s) N
    (List.replicate N (TimeSeries.zero T E))
    ⟨shape_zero N T E, fun n t e _ _ _ hlex => by omega, fun n t _ _ hlex => by omega⟩
    (fun n s hn hI => percentile_node_step ens p run0 N T E n hu hN hp0 hp1 h3 hn s hI)
  refine ⟨res, run0, ?_, h1, hS, ?_, ?_⟩
  · simp only [ensemble_percentile, hp0, hp1, and_self, if_true, h1, h2, h4, h5, h6, hr]
  · intro n t e hn ht he
    exact hE n t e hn ht he (Or.inl hn)
  · intro n t hn ht
    exact hT n t hn ht (Or.inl hn)

end mio

namespace mio

theorem Shape.read_elem_range (res : List TimeSeries) (N T E : Nat) (hS : Shape res N T E)
    (n t e : Nat) (x : ℚ) (h : read_elem res n t e = some x) : n < N ∧ t < T ∧ e < E := by
  unfold read_elem read_value at h
  cases hn : res[n]? with
  | none => simp [hn] at h
  | some ts =>
    have hmem := List.getElem?_mem hn
    obtain ⟨h2, h3, h4⟩ := hS.2 ts hmem
    have hn1 : n < res.length := (List.getElem?_eq_some_iff.1 hn).1
    simp only [hn] at h
    cases ht : ts.data[t]? with
    | none => simp [ht] at h
    | some q =>
      simp only [ht] at h
      have ht1 : t < ts.data.length := (List.getElem?_eq_some_iff.1 ht).1
      have he1 : e < q.2.length := (List.getElem?_eq_some_iff.1 h).1
      have := h4 q (List.getElem?_mem ht)
      have hN := hS.1
      omega

theorem times_eq_of_read_time (res run0 : List TimeSeries) (n T : Nat) (ts ts0 : TimeSeries)
    (h1 : res[n]? = some ts) (h2 : run0[n]? = some ts0) (h3 : ts.data.length = T)
    (h4 : ts0.data.length = T) (h : ∀ t, t < T → read_time res n t = read_time run0 n t) :
    ts.times = ts0.times := by
  apply List.ext_getElem?
  intro t
  by_cases ht : t < T
  · have := h t ht
    simp only [read_time, h1, h2] at this
    have ha : t < ts.data.length := by omega
    have hb : t < ts0.data.length := by omega
    simp only [List.getElem?_eq_getElem ha, List.getElem?_eq_getElem hb, Option.some.injEq]
      at this
    simp only [TimeSeries.times, List.getElem?_map, List.getElem?_eq_getElem ha,
      List.getElem?_eq_getElem hb, Option.map_some', this]
  · rw [List.getElem?_eq_none (by simp only [TimeSeries.times, List.length_map]; omega),
      List.getElem?_eq_none (by simp only [TimeSeries.times, List.length_map]; omega)]

theorem run_values_get (ens : List (List TimeSeries)) (N T E n t e r : Nat)
    (hu : Uniform ens N T E) (hn : n < N) (ht : t < T) (he : e < E) (hr : r < ens.length) :
    ∃ run, ens[r]? = some run ∧ read_elem run n t e = (run_values ens n t e)[r]? := by
  refine ⟨ens[r], List.getElem?_eq_getElem hr, ?_⟩
  have hrun : Shape (ens[r]) N T E := hu _ (List.getElem_mem hr)
  obtain ⟨x, v, -, hv, hlen⟩ := Shape.read _ N T E hrun n t hn ht
  have hre : read_elem (ens[r]) n t e = some (v[e]) := by
    simp only [read_elem, hv]
    exact List.getElem?_eq_getElem (by omega)
  simp only [run_values, List.getElem?_map, List.getElem?_eq_getElem hr, Option.map_some',
    run_value, hre, Option.getD_some]

/-- Counterexample to C8 as stated: a uniform ensemble of one run without nodes. The sizes
are read from `ensemble_result[0][0]`, which does not exist, so nothing is returned. -/
theorem ensemble_percentile_no_nodes :
    Uniform [[]] 0 0 0 ∧ 1 ≤ ([[]] : List (List TimeSeries)).length ∧
      (0 : ℚ) < 1 / 2 ∧ (1 / 2 : ℚ) < 1 ∧ ¬ ∃ res, ensemble_percentile [[]] (1 / 2) = some res := by
  refine ⟨by decide, by decide, by norm_num, by norm_num, ?_⟩
  rintro ⟨res, h⟩
  simp [ensemble_percentile] at h

/-- C8 (amended): for every uniform ensemble of at least one run in which the runs have
at least one node, and every `p` with `0 < p < 1`, `ensemble_percentile` returns one series
per node with the time points of run 0, and its value at `(node, time, element)` is the
entry at index `floor(num_runs * p)` of the ascending sort of the run values at that
position (a sorted permutation of the values `run[node][time][element]` of the runs). -/
theorem ensemble_percentile_value (ens : List (List TimeSeries)) (p : ℚ) (N T E : Nat)
    (hN : 1 ≤ ens.length) (hnodes : 1 ≤ N) (hu : Uniform ens N T E) (hp0 : 0 < p)
    (hp1 : p < 1) :
    ∃ res run0, ensemble_percentile ens p = some res ∧ ens[0]? = some run0 ∧ res.length = N ∧
      (∀ n, n < N → ∃ ts ts0, res[n]? = some ts ∧ run0[n]? = some ts0 ∧
        ts.times = ts0.times ∧ ts.get_num_time_points = T ∧ ts.get_num_elements = E) ∧
      (∀ n t e, n < N → t < T → e < E →
        (∀ r, r < ens.length → ∃ run, ens[r]? = some run ∧
          read_elem run n t e = (run_values ens n t e)[r]?) ∧
        ∃ sorted : List ℚ, sorted.Sorted (fun a b => a ≤ b) ∧
          sorted.Perm (run_values ens n t e) ∧
          (⌊(ens.length : ℚ) * p⌋).toNat < sorted.length ∧
          read_elem res n t e = sorted[(⌊(ens.length : ℚ) * p⌋).toNat]?) := by
  obtain ⟨res, run0, h1, h2, hS, hE, hT⟩ := ensemble_percentile_run ens p N T E hu hN hnodes hp0 hp1
  have h0 : Shape run0 N T E := hu run0 (List.getElem?_mem h2)
  refine ⟨res, run0, h1, h2, hS.1, ?_, ?_⟩
  · intro n hn
    obtain ⟨ts, a1, -, a2, a3, -⟩ := hS.get hn
    obtain ⟨ts0, b1, -, b2, -, -⟩ := h0.get hn
    exact ⟨ts, ts0, a1, b1,
      times_eq_of_read_time res run0 n T ts ts0 a1 b1 a2 b2 (fun t ht => hT n t hn ht), a2, a3⟩
  · intro n t e hn ht he
    refine ⟨fun r hr => run_values_get ens N T E n t e r hu hn ht he hr, ?_⟩
    refine ⟨(run_values ens n t e).insertionSort (fun a b => a ≤ b),
      List.sorted_insertionSort _ _, List.perm_insertionSort _ _, ?_, hE n t e hn ht he⟩
    rw [List.length_insertionSort]
    simp only [run_values, List.length_map]
    exact percentile_index_lt _ p hN hp0 hp1

/-- Witness of C8 (amended): the ensemble of the test `TestEnsemblePercentile.basic` with
`p = 0.4`. -/
theorem ensemble_percentile_value_witness :
    ∃ res run0, ensemble_percentile ensemble_percentile_test (2 / 5) = some res ∧
      ensemble_percentile_test[0]? = some run0 ∧ res.length = 2 ∧
      (∀ n, n < 2 → ∃ ts ts0, res[n]? = some ts ∧ run0[n]? = some ts0 ∧
        ts.times = ts0.times ∧ ts.get_num_time_points = 3 ∧ ts.get_num_elements = 2) ∧
      (∀ n t e, n < 2 → t < 3 → e < 2 →
        (∀ r, r < ensemble_percentile_test.length → ∃ run,
          ensemble_percentile_test[r]? = some run ∧
          read_elem run n t e = (run_values ensemble_percentile_test n t e)[r]?) ∧
        ∃ sorted : List ℚ, sorted.Sorted (fun a b => a ≤ b) ∧
          sorted.Perm (run_values ensemble_percentile_test n t e) ∧
          (⌊(ensemble_percentile_test.length : ℚ) * (2 / 5)⌋).toNat < sorted.length ∧
          read_elem res n t e =
            sorted[(⌊(ensemble_percentile_test.length : ℚ) * (2 / 5)⌋).toNat]?) :=
  ensemble_percentile_value ensemble_percentile_test (2 / 5) 2 3 2 (by decide) (by decide)
    (by decide) (by norm_num) (by norm_num)

end mio

namespace mio

theorem ensemble_percentile_none_of_no_nodes (ens : List (List TimeSeries)) (p : ℚ) (T E : Nat)
    (hu : Uniform ens 0 T E) : ensemble_percentile ens p = none := by
  unfold ensemble_percentile
  split_ifs with hp
  · cases h0 : ens[0]? with
    | none => rfl
    | some run0 =>
      have hlen : run0.length = 0 := (hu run0 (List.getElem?_mem h0)).1
      have : run0[0]? = none := List.getElem?_eq_none (by omega)
      simp only [this]
  · rfl

theorem percentile_value_mono (ens : List (List TimeSeries)) (p1 p2 : ℚ) (n t e : Nat)
    (x1 x2 : ℚ) (hp12 : p1 ≤ p2)
    (h1 : percentile_value ens p1 n t e = some x1)
    (h2 : percentile_value ens p2 n t e = some x2) : x1 ≤ x2 := by
  unfold percentile_value at h1 h2
  have hsorted : ((run_values ens n t e).insertionSort (fun a b => a ≤ b)).Sorted
      (fun a b => a ≤ b) := List.sorted_insertionSort _ _
  have hNq : (0 : ℚ) ≤ (ens.length : ℚ) := by positivity
  have hk : (⌊(ens.length : ℚ) * p1⌋).toNat ≤ (⌊(ens.length : ℚ) * p2⌋).toNat :=
    Int.toNat_le_toNat (Int.floor_mono (mul_le_mul_of_nonneg_left hp12 hNq))
  obtain ⟨a1, a2⟩ := List.getElem?_eq_some_iff.1 h1
  obtain ⟨b1, b2⟩ := List.getElem?_eq_some_iff.1 h2
  rcases Nat.eq_or_lt_of_le hk with h | h
  · have : x1 = x2 := by
      rw [← a2, ← b2]
      congr 1
    exact le_of_eq this
  · rw [← a2, ← b2]
    exact (List.pairwise_iff_getElem.1 hsorted) _ _ a1 b1 h

/-- C9: for a uniform ensemble of at least one run and `0 < p1 ≤ p2 < 1`, whenever
`ensemble_percentile` returns for `p1` and for `p2` (it does when the runs have at least
one node), the two results have entries at exactly the positions `(node, time, element)`
of the ensemble, and every entry of the result for `p1` is less than or equal to the entry
of the result for `p2` at the same position. -/
theorem ensemble_percentile_monotone (ens : List (List TimeSeries)) (p1 p2 : ℚ) (N T E : Nat)
    (hN : 1 ≤ ens.length) (hu : Uniform ens N T E) (hp0 : 0 < p1) (hp12 : p1 ≤ p2)
    (hp2 : p2 < 1) :
    (1 ≤ N → ∃ res1 res2, ensemble_percentile ens p1 = some res1 ∧
      ensemble_percentile ens p2 = some res2) ∧
    ∀ res1 res2, ensemble_percentile ens p1 = some res1 →
      ensemble_percentile ens p2 = some res2 →
      (∀ n t e x1, read_elem res1 n t e = some x1 →
        ∃ x2, read_elem res2 n t e = some x2 ∧ x1 ≤ x2) ∧
      (∀ n t e, n < N → t < T → e < E →
        ∃ x1 x2, read_elem res1 n t e = some x1 ∧ read_elem res2 n t e = some x2 ∧
          x1 ≤ x2) := by
  have hp1 : p1 < 1 := lt_of_le_of_lt hp12 hp2
  have hp20 : 0 < p2 := lt_of_lt_of_le hp0 hp12
  constructor
  · intro hnodes
    obtain ⟨res1, -, h1, -⟩ := ensemble_percentile_run ens p1 N T E hu hN hnodes hp0 hp1
    obtain ⟨res2, -, h2, -⟩ := ensemble_percentile_run ens p2 N T E hu hN hnodes hp20 hp2
    exact ⟨res1, res2, h1, h2⟩
  · intro res1 res2 h1 h2
    by_cases hnodes : 1 ≤ N
    · obtain ⟨r1, -, a1, -, aS, aE, -⟩ :=
        ensemble_percentile_run ens p1 N T E hu hN hnodes hp0 hp1
      obtain ⟨r2, -, b1, -, bS, bE, -⟩ :=
        ensemble_percentile_run ens p2 N T E hu hN hnodes hp20 hp2
      rw [h1] at a1
      rw [h2] at b1
      simp only [Option.some.injEq] at a1 b1
      subst a1 b1
      have key : ∀ n t e, n < N → t < T → e < E →
          ∃ x1 x2, read_elem res1 n t e = some x1 ∧ read_elem res2 n t e = some x2 ∧
            x1 ≤ x2 := by
        intro n t e hn ht he
        obtain ⟨x1, hx1⟩ := percentile_value_some ens p1 n t e hN hp0 hp1
        obtain ⟨x2, hx2⟩ := percentile_value_some ens p2 n t e hN hp20 hp2
        exact ⟨x1, x2, (aE n t e hn ht he).trans hx1, (bE n t e hn ht he).trans hx2,
          percentile_value_mono ens p1 p2 n t e x1 x2 hp12 hx1 hx2⟩
      refine ⟨?_, key⟩
      intro n t e x1 hx1
      obtain ⟨hn, ht, he⟩ := Shape.read_elem_range res1 N T E aS n t e x1 hx1
      obtain ⟨y1, y2, c1, c2, c3⟩ := key n t e hn ht he
      rw [hx1] at c1
      simp only [Option.some.injEq] at c1
      exact ⟨y2, c2, c1 ▸ c3⟩
    · have hN0 : N = 0 := by omega
      subst hN0
      rw [ensemble_percentile_none_of_no_nodes ens p1 T E hu] at h1
      exact Option.noConfusion h1

/-- Witness of C9: the ensemble of the test `TestEnsemblePercentile.basic` with the
percentiles 0.4 and 0.7. -/
theorem ensemble_percentile_monotone_witness :
    (1 ≤ 2 → ∃ res1 res2, ensemble_percentile ensemble_percentile_test (2 / 5) = some res1 ∧
      ensemble_percentile ensemble_percentile_test (7 / 10) = some res2) ∧
    ∀ res1 res2, ensemble_percentile ensemble_percentile_test (2 / 5) = some res1 →
      ensemble_percentile ensemble_percentile_test (7 / 10) = some res2 →
      (∀ n t e x1, read_elem res1 n t e = some x1 →
        ∃ x2, read_elem res2 n t e = some x2 ∧ x1 ≤ x2) ∧
      (∀ n t e, n < 2 → t < 3 → e < 2 →
        ∃ x1 x2, read_elem res1 n t e = some x1 ∧ read_elem res2 n t e = some x2 ∧
          x1 ≤ x2) :=
  ensemble_percentile_monotone ensemble_percentile_test (2 / 5) (7 / 10) 2 3 2 (by decide)
    (by decide) (by norm_num) (by norm_num) (by norm_num)

end mio

namespace mio

/-! ## The loops of `ensemble_mean` -/

theorem mean_so_far_succ (ens : List (List TimeSeries)) (k n t e : Nat) (run : List TimeSeries)
    (hrun : ens[k]? = some run) :
    mean_so_far ens (k + 1) n t e =
      mean_so_far ens k n t e + run_value run n t e / (ens.length : ℚ) := by
  unfold mean_so_far
  have : (run_values ens n t e)[k]? = some (run_value run n t e) := by
    simp only [run_values, List.getElem?_map, hrun, Option.map_some']
  rw [List.take_succ, this]
  simp

theorem mean_time_step (ens : List (List TimeSeries)) (N T E k node time : Nat)
    (hu : Uniform ens N T E) (hn : node < N) (ht : time < T) (run : List TimeSeries)
    (hrun : ens[k]? = some run) (ts : TimeSeries) (hts : run[node]? = some ts)
    (s : List TimeSeries) (h : MeanInv ens N T E k node time s) :
    ∃ s1, ensemble_mean_time ts node ens.length E s time = some s1 ∧
      MeanInv ens N T E k node (time + 1) s1 := by
  obtain ⟨hS, hE, hT⟩ := h
  have hSrun : Shape run N T E := hu run (List.getElem?_mem hrun)
  obtain ⟨a1, a2, a3⟩ := hSrun.2 ts (List.getElem?_mem hts)
  have hlt : time < ts.data.length := by omega
  have hq : ts.data[time]? = some (ts.data[time]) := List.getElem?_eq_getElem hlt
  have hqlen : (ts.data[time]).2.length = E := by
    rw [a3 _ (List.getElem_mem hlt), a2]
  have hrt : read_time run node time = some (ts.data[time]).1 := by
    simp only [read_time, hts, hq]
  have hrv : read_value run node time = some (ts.data[time]).2 := by
    simp only [read_value, hts, hq]
  obtain ⟨s1, b1, b2, b3, b4⟩ := write_time_spec s N T E hS node time (ts.data[time]).1 hn ht
  obtain ⟨x0, mv, -, hmv, hmvlen⟩ := Shape.read s N T E hS node time hn ht
  have hlen : (vadd mv (vdiv (ts.data[time]).2 (ens.length : ℚ))).length = E := by
    simp [vadd, vdiv, hmvlen, hqlen]
  obtain ⟨s2, c1, c2, c3, c4⟩ := write_value_spec s1 N T E b2 node time
    (vadd mv (vdiv (ts.data[time]).2 (ens.length : ℚ))) hn ht hlen
  refine ⟨s2, ?_, c2, ?_, ?_⟩
  · have hmv1 : read_value s1 node time = some mv := by rw [b3]; exact hmv
    simp only [ensemble_mean_time, TimeSeries.get_num_elements, a2, if_true, hq, b1, hmv1, c1]
  · intro n t e hn1 ht1 he1
    simp only [read_elem, c4, b3]
    by_cases hpos : n = node ∧ t = time
    · obtain ⟨r1, r2⟩ := hpos
      subst r1 r2
      have hold := hE n t e hn1 ht1 he1
      rw [if_neg (by omega)] at hold
      simp only [read_elem, hmv] at hold
      have hve : (ts.data[t]).2[e]? = some (run_value run n t e) := by
        have he2 : e < (ts.data[t]).2.length := by omega
        simp only [run_value, read_elem, hrv, List.getElem?_eq_getElem he2, Option.getD_some]
      rw [if_pos ⟨rfl, rfl⟩, if_pos (by omega), mean_so_far_succ ens k n t e run hrun]
      simp only [vadd, vdiv, List.getElem?_zipWith, List.getElem?_map, hold, hve,
        Option.map_some']
    · rw [if_neg hpos]
      have hold := hE n t e hn1 ht1 he1
      simp only [read_elem] at hold
      rw [hold]
      have hiff : (n < node ∨ (n = node ∧ t < time + 1)) ↔ (n < node ∨ (n = node ∧ t < time)) := by
        omega
      simp only [hiff]
  · intro n t hn1 ht1
    rw [c3, b4]
    by_cases hpos : n = node ∧ t = time
    · obtain ⟨r1, r2⟩ := hpos
      subst r1 r2
      rw [if_pos ⟨rfl, rfl⟩, if_pos (by omega)]
      simp only [mean_time, hrun, hrt]
    · rw [if_neg hpos, hT n t hn1 ht1]
      have hiff : (n < node ∨ (n = node ∧ t < time + 1)) ↔ (n < node ∨ (n = node ∧ t < time)) := by
        omega
      simp only [hiff]

end mio

namespace mio

theorem mean_node_step (ens : List (List TimeSeries)) (N T E k node : Nat)
    (hu : Uniform ens N T E) (hn : node < N) (run : List TimeSeries)
    (hrun : ens[k]? = some run) (s : List TimeSeries) (h : MeanInv ens N T E k node 0 s) :
    ∃ s1, ensemble_mean_node run ens.length T E s node = some s1 ∧
      MeanInv ens N T E k (node + 1) 0 s1 := by
  have hSrun : Shape run N T E := hu run (List.getElem?_mem hrun)
  obtain ⟨ts, hts, -, a1, a2, a3⟩ := hSrun.get hn
  obtain ⟨s1, h1, hS1, hE1, hT1⟩ := for_each_range
    (ensemble_mean_time ts node ens.length E)
    (fun t s => MeanInv ens N T E k node t s) T s h
    (fun t s ht hI => mean_time_step ens N T E k node t hu hn ht run hrun ts hts s hI)
  refine ⟨s1, ?_, hS1, ?_, ?_⟩
  · simp only [ensemble_mean_node, hts, TimeSeries.get_num_time_points, a1, if_true, h1]
  · intro n t e hn1 ht1 he1
    have hiff : (n < node + 1 ∨ (n = node + 1 ∧ t < 0)) ↔ (n < node ∨ (n = node ∧ t < T)) := by
      omega
    rw [hE1 n t e hn1 ht1 he1]
    simp only [hiff]
  · intro n t hn1 ht1
    have hiff : (n < node + 1 ∨ (n = node + 1 ∧ t < 0)) ↔ (n < node ∨ (n = node ∧ t < T)) := by
      omega
    rw [hT1 n t hn1 ht1]
    simp only [hiff]

theorem mean_run_step (ens : List (List TimeSeries)) (N T E k : Nat)
    (hu : Uniform ens N T E) (hk : k < ens.length) (s : List TimeSeries)
    (h : MeanInv ens N T E k 0 0 s) :
    ∃ s1, ensemble_mean_run ens N T E s k = some s1 ∧ MeanInv ens N T E (k + 1) 0 0 s1 := by
  have hrun : ens[k]? = some (ens[k]) := List.getElem?_eq_getElem hk
  have hSrun : Shape (ens[k]) N T E := hu _ (List.getElem_mem hk)
  obtain ⟨s1, h1, hS1, hE1, hT1⟩ := for_each_range
    (ensemble_mean_node (ens[k]) ens.length T E)
    (fun n s => MeanInv ens N T E k n 0 s) N s h
    (fun n s hn hI => mean_node_step ens N T E k n hu hn _ hrun s hI)
  refine ⟨s1, ?_, hS1, ?_, ?_⟩
  · simp only [ensemble_mean_run, hrun, hSrun.1, if_true, h1]
  · intro n t e hn1 ht1 he1
    rw [hE1 n t e hn1 ht1 he1, if_pos (by omega), if_neg (by omega)]
  · intro n t hn1 ht1
    rw [hT1 n t hn1 ht1, if_pos (by omega), if_neg (by omega)]

theorem read_zero (N T E n t : Nat) (hn : n < N) (ht : t < T) :
    read_time (List.replicate N (TimeSeries.zero T E)) n t = some 0 ∧
      read_value (List.replicate N (TimeSeries.zero T E)) n t = some (List.replicate E 0) := by
  have h1 : (List.replicate N (TimeSeries.zero T E))[n]? = some (TimeSeries.zero T E) := by
    rw [List.getElem?_replicate, if_pos hn]
  have h2 : (TimeSeries.zero T E).data[t]? = some (0, List.replicate E 0) := by
    simp only [TimeSeries.zero]
    rw [List.getElem?_replicate, if_pos ht]
  simp only [read_time, read_value, h1, h2, and_self]

theorem mean_so_far_all (ens : List (List TimeSeries)) (n t e : Nat) :
    mean_so_far ens ens.length n t e = (run_values ens n t e).sum / (ens.length : ℚ) := by
  unfold mean_so_far
  have hlen : (run_values ens n t e).length = ens.length := by
    simp only [run_values, List.length_map]
  have htake : (run_values ens n t e).take ens.length = run_values ens n t e := by
    rw [← hlen, List.take_length]
  rw [htake]
  simp only [div_eq_mul_inv]
  exact List.sum_map_mul_right (run_values ens n t e) (fun x => x) ((ens.length : ℚ)⁻¹) |>.trans
    (by rw [List.map_id'])

theorem ensemble_mean_run_all (ens : List (List TimeSeries)) (N T E : Nat)
    (hu : Uniform ens N T E) (hN : 0 < ens.length) (hnodes : 0 < N) :
    ∃ res, ensemble_mean ens = some res ∧ Shape res N T E ∧
      (∀ n t e, n < N → t < T → e < E →
        read_elem res n t e = some ((run_values ens n t e).sum / (ens.length : ℚ))) ∧
      (∀ n t, n < N → t < T → read_time res n t = mean_time ens ens.length n t) := by
  obtain ⟨run0, ts00, h1, h2, h3, h4, h5, h6⟩ := Uniform.head ens N T E hu hN hnodes
  obtain ⟨res, hr, hS, hE, hT⟩ := for_each_range
    (ensemble_mean_run ens N T E)
    (fun k s => MeanInv ens N T E k 0 0 s) ens.length
    (List.replicate N (TimeSeries.zero T E))
    ⟨shape_zero N T E,
      fun n t e hn ht he => by
        rw [if_neg (by omega)]
        simp only [read_elem, (read_zero N T E n t hn ht).2, mean_so_far, List.take_zero,
          List.map_nil, List.sum_nil]
        rw [List.getElem?_replicate, if_pos he],
      fun n t hn ht => by
        rw [if_neg (by omega)]
        simp only [(read_zero N T E n t hn ht).1, mean_time]⟩
    (fun k s hk hI => mean_run_step ens N T E k hu hk s hI)
  refine ⟨res, ?_, hS, ?_, ?_⟩
  · simp only [ensemble_mean, h1, h2, h4, h5, h6, hr]
  · intro n t e hn ht he
    rw [hE n t e hn ht he, if_neg (by omega), mean_so_far_all]
  · intro n t hn ht
    rw [hT n t hn ht, if_neg (by omega)]

end mio

namespace mio

/-- Counterexample to C10 as stated: a uniform ensemble of one run without nodes. The
sizes are read from `ensemble_result[0][0]`, which does not exist, so nothing is
returned. -/
theorem ensemble_mean_no_nodes :
    Uniform [[]] 0 0 0 ∧ 1 ≤ ([[]] : List (List TimeSeries)).length ∧
      ¬ ∃ res, ensemble_mean [[]] = some res := by
  refine ⟨by decide, by decide, ?_⟩
  rintro ⟨res, h⟩
  simp [ensemble_mean] at h

/-- C10 (amended): for every uniform ensemble of at least one run in which the runs have
at least one node, `ensemble_mean` returns one series per node. Its time points are those
of the last run, hence the common time points of the runs when the runs share them. Its
value at `(node, time, element)` is the sum of the values of all runs at that position
divided by the number of runs (exact arithmetic). -/
theorem ensemble_mean_value (ens : List (List TimeSeries)) (N T E : Nat)
    (hN : 1 ≤ ens.length) (hnodes : 1 ≤ N) (hu : Uniform ens N T E) :
    ∃ res last, ensemble_mean ens = some res ∧ ens[ens.length - 1]? = some last ∧
      res.length = N ∧
      (∀ n, n < N → ∃ ts tl, res[n]? = some ts ∧ last[n]? = some tl ∧ ts.times = tl.times ∧
        ts.get_num_time_points = T ∧ ts.get_num_elements = E ∧
        ∀ (r : ℕ) (run : List TimeSeries) (tr : TimeSeries), ens[r]? = some run →
          run[n]? = some tr →
          (∀ (q : ℕ) (runq : List TimeSeries) (tq : TimeSeries), ens[q]? = some runq →
            runq[n]? = some tq → tq.times = tr.times) →
          ts.times = tr.times) ∧
      (∀ n t e, n < N → t < T → e < E →
        (∀ r, r < ens.length → ∃ run, ens[r]? = some run ∧
          read_elem run n t e = (run_values ens n t e)[r]?) ∧
        read_elem res n t e = some ((run_values ens n t e).sum / (ens.length : ℚ))) := by
  obtain ⟨res, h1, hS, hE, hT⟩ := ensemble_mean_run_all ens N T E hu hN hnodes
  obtain ⟨m, hm⟩ := Nat.exists_eq_succ_of_ne_zero (by omega : ens.length ≠ 0)
  have hidx : ens.length - 1 = m := by omega
  obtain ⟨last, hlast⟩ : ∃ last, ens[m]? = some last :=
    ⟨ens[m], List.getElem?_eq_getElem (by omega)⟩
  have hSl : Shape last N T E := hu _ (List.getElem?_mem hlast)
  have hmt : ∀ n t, mean_time ens ens.length n t = read_time last n t := by
    intro n t
    rw [hm]
    simp only [mean_time, hlast]
  refine ⟨res, last, h1, by rw [hidx]; exact hlast, hS.1, ?_, ?_⟩
  · intro n hn
    obtain ⟨ts, a1, -, a2, a3, -⟩ := hS.get hn
    obtain ⟨tl, b1, -, b2, -, -⟩ := hSl.get hn
    have htimes : ts.times = tl.times :=
      times_eq_of_read_time res _ n T ts tl a1 b1 a2 b2
        (fun t ht => (hT n t hn ht).trans (hmt n t))
    refine ⟨ts, tl, a1, b1, htimes, a2, a3, ?_⟩
    intro r run tr _ _ hall
    rw [htimes]
    exact hall m last tl hlast b1
  · intro n t e hn ht he
    exact ⟨fun r hr => run_values_get ens N T E n t e r hu hn ht he hr, hE n t e hn ht he⟩

/-- Witness of C10 (amended): the ensemble of the test `TestEnsembleMean.basic`. -/
theorem ensemble_mean_value_witness :
    ∃ res last, ensemble_mean ensemble_mean_test = some res ∧
      ensemble_mean_test[ensemble_mean_test.length - 1]? = some last ∧ res.length = 2 ∧
      (∀ n, n < 2 → ∃ ts tl, res[n]? = some ts ∧ last[n]? = some tl ∧ ts.times = tl.times ∧
        ts.get_num_time_points = 3 ∧ ts.get_num_elements = 1 ∧
        ∀ (r : ℕ) (run : List TimeSeries) (tr : TimeSeries),
          ensemble_mean_test[r]? = some run → run[n]? = some tr →
          (∀ (q : ℕ) (runq : List TimeSeries) (tq : TimeSeries),
            ensemble_mean_test[q]? = some runq → runq[n]? = some tq → tq.times = tr.times) →
          ts.times = tr.times) ∧
      (∀ n t e, n < 2 → t < 3 → e < 1 →
        (∀ r, r < ensemble_mean_test.length → ∃ run, ensemble_mean_test[r]? = some run ∧
          read_elem run n t e = (run_values ensemble_mean_test n t e)[r]?) ∧
        read_elem res n t e =
          some ((run_values ensemble_mean_test n t e).sum / (ensemble_mean_test.length : ℚ))) :=
  ensemble_mean_value ensemble_mean_test 2 3 1 (by decide) (by decide) (by decide)

end mio

namespace mio

/-! ## The loops of `sum_nodes` -/

theorem node_sum_succ (run : List TimeSeries) (j t e : Nat) :
    node_sum run (j + 1) t e = node_sum run j t e + run_value run j t e := by
  unfold node_sum
  rw [List.range_succ, List.map_append, List.sum_append]
  simp

theorem sum_node_step (run : List TimeSeries) (N T E time node : Nat)
    (hrun : Shape run N T E) (ht : time < T) (hn : node < N) (s : List TimeSeries)
    (h : SumInv run N T E time node (time + 1) s) :
    ∃ s1, sum_nodes_node run time s node = some s1 ∧
      SumInv run N T E time (node + 1) (time + 1) s1 := by
  obtain ⟨hS, hE, hT⟩ := h
  obtain ⟨x, v, -, hv, hvlen⟩ := Shape.read run N T E hrun node time hn ht
  obtain ⟨x0, sv, -, hsv, hsvlen⟩ := Shape.read s 1 T E hS 0 time (by omega) ht
  have hlen : (vadd sv v).length = E := by simp [vadd, hsvlen, hvlen]
  obtain ⟨s1, c1, c2, c3, c4⟩ := write_value_spec s 1 T E hS 0 time (vadd sv v) (by omega) ht hlen
  refine ⟨s1, ?_, c2, ?_, ?_⟩
  · simp only [sum_nodes_node, hv, hsv, hsvlen, hvlen, if_true, c1]
  · intro t e ht1 he1
    by_cases hpos : t = time
    · subst hpos
      have hold := hE t e ht1 he1
      rw [if_neg (by omega), if_pos rfl] at hold
      simp only [read_elem, hsv] at hold
      have hve : v[e]? = some (run_value run node t e) := by
        have he2 : e < v.length := by omega
        simp only [run_value, read_elem, hv, List.getElem?_eq_getElem he2, Option.getD_some]
      have hrv : read_value s1 0 t = some (vadd sv v) := by
        rw [c4, if_pos ⟨rfl, rfl⟩]
      rw [if_neg (by omega), if_pos rfl, node_sum_succ]
      simp only [read_elem, hrv, vadd, List.getElem?_zipWith, hold, hve]
    · have hrv : read_value s1 0 t = read_value s 0 t := by
        rw [c4, if_neg (fun h : 0 = 0 ∧ t = time => hpos h.2)]
      have hold := hE t e ht1 he1
      simp only [read_elem] at hold
      simp only [read_elem, hrv]
      rw [hold]
      by_cases hlt : t < time
      · rw [if_pos hlt, if_pos hlt]
      · rw [if_neg hlt, if_neg hlt, if_neg hpos, if_neg hpos]
  · intro t ht1 htt
    rw [c3]
    exact hT t ht1 htt

theorem sum_time_step (run : List TimeSeries) (N T E time : Nat)
    (hrun : Shape run N T E) (hnodes : 0 < N) (ht : time < T) (s : List TimeSeries)
    (h : SumInv run N T E time 0 time s) :
    ∃ s1, sum_nodes_time run N s time = some s1 ∧
      SumInv run N T E (time + 1) 0 (time + 1) s1 := by
  obtain ⟨hS, hE, hT⟩ := h
  obtain ⟨x, v, hx, -, -⟩ := Shape.read run N T E hrun 0 time hnodes ht
  obtain ⟨s1, b1, b2, b3, b4⟩ := write_time_spec s 1 T E hS 0 time x (by omega) ht
  have hI1 : SumInv run N T E time 0 (time + 1) s1 := by
    refine ⟨b2, ?_, ?_⟩
    · intro t e ht1 he1
      simp only [read_elem, b3]
      exact hE t e ht1 he1
    · intro t ht1 htt
      rw [b4]
      by_cases hpos : t = time
      · rw [if_pos ⟨rfl, hpos⟩, hpos, hx]
      · rw [if_neg (fun h : 0 = 0 ∧ t = time => hpos h.2)]
        exact hT t ht1 (by omega)
  obtain ⟨s2, h2, hS2, hE2, hT2⟩ := for_each_range (sum_nodes_node run time)
    (fun n s => SumInv run N T E time n (time + 1) s) N s1 hI1
    (fun n s hn hI => sum_node_step run N T E time n hrun ht hn s hI)
  refine ⟨s2, ?_, hS2, ?_, hT2⟩
  · simp only [sum_nodes_time, hx, b1, h2]
  · intro t e ht1 he1
    rw [hE2 t e ht1 he1]
    by_cases hlt : t < time
    · rw [if_pos hlt, if_pos (by omega)]
    · rw [if_neg hlt]
      by_cases hpos : t = time
      · rw [if_pos hpos, if_pos (by omega)]
      · rw [if_neg hpos, if_neg (by omega)]
        split_ifs <;> rfl

theorem sum_inv_zero (run : List TimeSeries) (N T E : Nat) :
    SumInv run N T E 0 0 0 (List.replicate 1 (TimeSeries.zero T E)) := by
  refine ⟨shape_zero 1 T E, ?_, ?_⟩
  · intro t e ht he
    have h0 : node_sum run (if t < 0 then N else if t = 0 then 0 else 0) t e = 0 := by
      rw [if_neg (by omega)]
      split_ifs <;> simp [node_sum]
    rw [h0]
    simp only [read_elem, (read_zero 1 T E 0 t (by omega) ht).2]
    rw [List.getElem?_replicate, if_pos he]
  · intro t _ htt
    omega

theorem sum_run_step (ens : List (List TimeSeries)) (N T E k : Nat) (hu : Uniform ens N T E)
    (hnodes : 0 < N) (hk : k < ens.length) (res : List (List TimeSeries))
    (h : SumRunsInv ens N T E k res) :
    ∃ res1, sum_nodes_run ens N T res k = some res1 ∧ SumRunsInv ens N T E (k + 1) res1 := by
  obtain ⟨hlen, hdone, hrest⟩ := h
  have hrun : ens[k]? = some (ens[k]) := List.getElem?_eq_getElem hk
  have hSrun : Shape (ens[k]) N T E := hu _ (List.getElem_mem hk)
  have hsk := hrest k (le_refl _) hk
  obtain ⟨s1, h1, hI1⟩ := for_each_range (sum_nodes_time (ens[k]) N)
    (fun t s => SumInv (ens[k]) N T E t 0 t s) T _ (sum_inv_zero (ens[k]) N T E)
    (fun t s ht hI => sum_time_step (ens[k]) N T E t hSrun hnodes ht s hI)
  refine ⟨res.set k s1, ?_, ?_, ?_, ?_⟩
  · simp only [sum_nodes_run, hrun, hsk, h1]
  · rw [List.length_set]
    exact hlen
  · intro r hr
    by_cases hrk : r = k
    · subst hrk
      refine ⟨ens[r], s1, hrun, ?_, hI1⟩
      rw [List.getElem?_set_self (by omega)]
    · obtain ⟨run, s, a1, a2, a3⟩ := hdone r (by omega)
      refine ⟨run, s, a1, ?_, a3⟩
      rw [List.getElem?_set_ne (fun h => hrk h.symm)]
      exact a2
  · intro r hr1 hr2
    rw [List.getElem?_set_ne (by omega)]
    exact hrest r (by omega) hr2

theorem sum_nodes_run_all (ens : List (List TimeSeries)) (N T E : Nat)
    (hu : Uniform ens N T E) (hN : 0 < ens.length) (hnodes : 0 < N) :
    ∃ res, sum_nodes ens = some res ∧ SumRunsInv ens N T E ens.length res := by
  obtain ⟨run0, ts00, h1, h2, h3, h4, h5, h6⟩ := Uniform.head ens N T E hu hN hnodes
  obtain ⟨res, hr, hI⟩ := for_each_range (sum_nodes_run ens N T)
    (fun k s => SumRunsInv ens N T E k s) ens.length
    (List.replicate ens.length (List.replicate 1 (TimeSeries.zero T E)))
    ⟨List.length_replicate _ _, fun r hr => by omega,
      fun r _ hr => by rw [List.getElem?_replicate, if_pos hr]⟩
    (fun k s hk hI => sum_run_step ens N T E k hu hnodes hk s hI)
  refine ⟨res, ?_, hI⟩
  simp only [sum_nodes, h1, h2, h4, h5, h6, hr]

end mio

namespace mio

theorem run_value_read (run : List TimeSeries) (N T E n t e : Nat) (hrun : Shape run N T E)
    (hn : n < N) (ht : t < T) (he : e < E) :
    read_elem run n t e = some (run_value run n t e) := by
  obtain ⟨x, v, -, hv, hlen⟩ := Shape.read run N T E hrun n t hn ht
  have he2 : e < v.length := by omega
  simp only [run_value, read_elem, hv, List.getElem?_eq_getElem he2, Option.getD_some]

theorem shape_one (s : List TimeSeries) (T E : Nat) (h : Shape s 1 T E) :
    ∃ ts, s = [ts] ∧ ts.data.length = T ∧ ts.num_elements = E := by
  obtain ⟨hlen, hall⟩ := h
  match s, hlen with
  | [ts], _ => exact ⟨ts, rfl, (hall ts (List.mem_singleton.2 rfl)).1,
      (hall ts (List.mem_singleton.2 rfl)).2.1⟩

/-- C11: for every uniform ensemble with at least one run whose runs have at least one
node (the claim speaks of node 0 of every run), `sum_nodes` returns as many runs as its
input; each run of the result holds exactly one time series, whose time points are those
of node 0 of that run of the input and whose value at every time point is the
element-wise sum of the values of all nodes of that run at that time point. -/
theorem sum_nodes_value (ens : List (List TimeSeries)) (N T E : Nat) (hN : 1 ≤ ens.length)
    (hnodes : 1 ≤ N) (hu : Uniform ens N T E) :
    ∃ res, sum_nodes ens = some res ∧ res.length = ens.length ∧
      ∀ r, r < ens.length → ∃ run ts ts0, ens[r]? = some run ∧ res[r]? = some [ts] ∧
        run[0]? = some ts0 ∧ ts.times = ts0.times ∧ ts.get_num_time_points = T ∧
        ts.get_num_elements = E ∧
        ∀ t e, t < T → e < E →
          (∀ n, n < N → read_elem run n t e = some (run_value run n t e)) ∧
          read_elem [ts] 0 t e =
            some ((List.range N).map (fun n => run_value run n t e)).sum := by
  obtain ⟨res, h1, hlen, hdone, -⟩ := sum_nodes_run_all ens N T E hu hN hnodes
  refine ⟨res, h1, hlen, ?_⟩
  intro r hr
  obtain ⟨run, s, a1, a2, hS, hE, hT⟩ := hdone r hr
  have hrun : Shape run N T E := hu run (List.getElem?_mem a1)
  obtain ⟨ts, hs, b1, b2⟩ := shape_one s T E hS
  obtain ⟨ts0, c1, -, c2, -, -⟩ := hrun.get hnodes
  subst hs
  refine ⟨run, ts, ts0, a1, a2, c1, ?_, b1, b2, ?_⟩
  · exact times_eq_of_read_time [ts] run 0 T ts ts0 rfl c1 b1 c2 (fun t ht => hT t ht ht)
  · intro t e ht he
    refine ⟨fun n hn => run_value_read run N T E n t e hrun hn ht he, ?_⟩
    have := hE t e ht he
    rw [if_pos ht] at this
    exact this

/-- Witness of C11: the ensemble of the test `TestEnsembleSum.basic`. -/
theorem sum_nodes_value_witness :
    ∃ res, sum_nodes ensemble_sum_test = some res ∧ res.length = ensemble_sum_test.length ∧
      ∀ r, r < ensemble_sum_test.length → ∃ run ts ts0, ensemble_sum_test[r]? = some run ∧
        res[r]? = some [ts] ∧ run[0]? = some ts0 ∧ ts.times = ts0.times ∧
        ts.get_num_time_points = 3 ∧ ts.get_num_elements = 1 ∧
        ∀ t e, t < 3 → e < 1 →
          (∀ n, n < 3 → read_elem run n t e = some (run_value run n t e)) ∧
          read_elem [ts] 0 t e =
            some ((List.range 3).map (fun n => run_value run n t e)).sum :=
  sum_nodes_value ensemble_sum_test 3 3 1 (by decide) (by decide) (by decide)

end mio

namespace mio

/-! ## Calendar arithmetic -/

theorem is_leap_year_iff (y : ℤ) : is_leap_year y = true ↔ leap y := by
  have h : ∀ k : ℤ, Int.tmod y k = 0 ↔ y % k = 0 := by
    intro k
    constructor
    · intro hk
      exact Int.emod_eq_zero_of_dvd (Int.dvd_of_tmod_eq_zero hk)
    · intro hk
      exact Int.tmod_eq_zero_of_dvd (Int.dvd_of_emod_eq_zero hk)
  simp only [is_leap_year, leap, Bool.or_eq_true, Bool.and_eq_true, decide_eq_true_eq, ne_eq, h]

theorem month_len_eq (y m : ℤ) (h1 : 1 ≤ m) (h2 : m ≤ 12) :
    at_index (month_len y) (m - 1) = days_in_month y m := by
  have hm : m = 1 ∨ m = 2 ∨ m = 3 ∨ m = 4 ∨ m = 5 ∨ m = 6 ∨ m = 7 ∨ m = 8 ∨ m = 9 ∨
      m = 10 ∨ m = 11 ∨ m = 12 := by omega
  by_cases hl : leap y
  · have hl2 := (is_leap_year_iff y).2 hl
    rcases hm with hm | hm | hm | hm | hm | hm | hm | hm | hm | hm | hm | hm <;>
    simp [hm, hl, hl2, month_len, at_index, days_in_month]
  · have hl2 : is_leap_year y = false := by
      cases h : is_leap_year y
      · rfl
      · exact absurd ((is_leap_year_iff y).1 h) hl
    rcases hm with hm | hm | hm | hm | hm | hm | hm | hm | hm | hm | hm | hm <;>
    simp [hm, hl, hl2, month_len, at_index, days_in_month]

theorem days_before_month_table (y m : ℤ) (h1 : 1 ≤ m) (h2 : m ≤ 13) :
    days_before_month y m =
      if m = 1 then 0 else if m = 2 then 31
      else (if leap y then 1 else 0) +
        (if m = 3 then 59 else if m = 4 then 90 else if m = 5 then 120 else if m = 6 then 151
        else if m = 7 then 181 else if m = 8 then 212 else if m = 9 then 243
        else if m = 10 then 273 else if m = 11 then 304 else if m = 12 then 334 else 365) := by
  have hm : m = 1 ∨ m = 2 ∨ m = 3 ∨ m = 4 ∨ m = 5 ∨ m = 6 ∨ m = 7 ∨ m = 8 ∨ m = 9 ∨
      m = 10 ∨ m = 11 ∨ m = 12 ∨ m = 13 := by omega
  by_cases hl : leap y <;>
  rcases hm with hm | hm | hm | hm | hm | hm | hm | hm | hm | hm | hm | hm | hm <;>
  simp [hm, hl, days_before_month, days_in_month, List.range_succ]

theorem part_sum_eq (y m : ℤ) (h1 : 2 ≤ m) (h2 : m ≤ 13) :
    at_index (part_sum y) (m - 2) = days_before_month y m := by
  rw [days_before_month_table y m (by omega) h2]
  have hm : m = 2 ∨ m = 3 ∨ m = 4 ∨ m = 5 ∨ m = 6 ∨ m = 7 ∨ m = 8 ∨ m = 9 ∨
      m = 10 ∨ m = 11 ∨ m = 12 ∨ m = 13 := by omega
  by_cases hl : leap y
  · have hl2 := (is_leap_year_iff y).2 hl
    rcases hm with hm | hm | hm | hm | hm | hm | hm | hm | hm | hm | hm | hm <;>
    simp [hm, hl, hl2, part_sum, month_len, partial_sum_from, at_index]
  · have hl2 : is_leap_year y = false := by
      cases h : is_leap_year y
      · rfl
      · exact absurd ((is_leap_year_iff y).1 h) hl
    rcases hm with hm | hm | hm | hm | hm | hm | hm | hm | hm | hm | hm | hm <;>
    simp [hm, hl, hl2, part_sum, month_len, partial_sum_from, at_index]

theorem days_before_year_succ (y : ℤ) :
    days_before_year (y + 1) = days_before_year y + days_in_year y := by
  unfold days_before_year days_in_year leap
  split_ifs <;> omega

theorem days_before_year_le (a b : ℤ) (h : a ≤ b) : days_before_year a ≤ days_before_year b := by
  unfold days_before_year
  omega

theorem days_before_year_mono (a b : ℤ) (h : a < b) :
    days_before_year a + days_in_year a ≤ days_before_year b := by
  rw [← days_before_year_succ]
  exact days_before_year_le _ _ (by omega)

end mio

namespace mio

theorem is_leap_year_false (y : ℤ) (hl : ¬ leap y) : is_leap_year y = false := by
  cases h : is_leap_year y
  · rfl
  · exact absurd ((is_leap_year_iff y).1 h) hl

theorem part_sum_last (y : ℤ) : at_index (part_sum y) 11 = days_in_year y := by
  have := part_sum_eq y 13 (by norm_num) (by norm_num)
  rw [days_before_month_table y 13 (by norm_num) (by norm_num)] at this
  norm_num at this
  rw [this]
  unfold days_in_year
  split_ifs <;> rfl

theorem part_sum_length (y : ℤ) : (part_sum y).length = 12 := by
  unfold part_sum month_len
  split_ifs <;> rfl

theorem find_month (y diy : ℤ) (h2 : diy ≤ days_in_year y) :
    ∃ m : ℤ, 1 ≤ m ∧ m ≤ 12 ∧
      (((part_sum y).findIdx (fun s => decide (diy ≤ s)) : ℕ) : ℤ) = m - 1 ∧
      (2 ≤ m → days_before_month y m < diy) ∧
      diy ≤ days_before_month y (m + 1) := by
  have hlen := part_sum_length y
  have hlast : diy ≤ (part_sum y)[11] := by
    have := part_sum_last y
    unfold at_index at this
    rw [show (11 : ℤ).toNat = 11 from rfl, List.getD_eq_getElem _ _ (by omega)] at this
    rw [this]
    exact h2
  have hex : ∃ x ∈ part_sum y, (fun s => decide (diy ≤ s)) x = true :=
    ⟨(part_sum y)[11], List.getElem_mem (by omega), by simpa using hlast⟩
  have hlt := List.findIdx_lt_length_of_exists hex
  have hp : diy ≤ (part_sum y)[(part_sum y).findIdx (fun s => decide (diy ≤ s))] := by
    have := @List.findIdx_getElem _ (fun s => decide (diy ≤ s)) (part_sum y) hlt
    simpa using this
  refine ⟨(((part_sum y).findIdx (fun s => decide (diy ≤ s)) : ℕ) : ℤ) + 1, by omega, by omega,
    by ring, ?_, ?_⟩
  · intro hm
    have hpos : 0 < (part_sum y).findIdx (fun s => decide (diy ≤ s)) := by omega
    have hnot := @List.not_of_lt_findIdx _ (fun s => decide (diy ≤ s)) (part_sum y)
      ((part_sum y).findIdx (fun s => decide (diy ≤ s)) - 1) (by omega)
    rw [← part_sum_eq y _ hm (by omega)]
    unfold at_index
    have hidx : ((((part_sum y).findIdx (fun s => decide (diy ≤ s)) : ℕ) : ℤ) + 1 - 2).toNat =
        (part_sum y).findIdx (fun s => decide (diy ≤ s)) - 1 := by omega
    rw [hidx, List.getD_eq_getElem _ _ (by omega)]
    simpa using hnot
  · rw [← part_sum_eq y _ (by omega) (by omega)]
    unfold at_index
    have hidx : ((((part_sum y).findIdx (fun s => decide (diy ≤ s)) : ℕ) : ℤ) + 1 + 1 - 2).toNat =
        (part_sum y).findIdx (fun s => decide (diy ≤ s)) := by omega
    rw [hidx, List.getD_eq_getElem _ _ hlt]
    exact hp

theorem days_before_month_succ (y m : ℤ) (h1 : 1 ≤ m) :
    days_before_month y (m + 1) = days_before_month y m + days_in_month y m := by
  unfold days_before_month
  have hidx : (m + 1 - 1).toNat = (m - 1).toNat + 1 := by omega
  have hm : (((m - 1).toNat : ℕ) : ℤ) + 1 = m := by omega
  rw [hidx, List.range_succ, List.map_append, List.sum_append]
  simp only [List.map_cons, List.map_nil, List.sum_cons, List.sum_nil, add_zero, hm]

theorem days_in_month_pos (y m : ℤ) : 28 ≤ days_in_month y m ∧ days_in_month y m ≤ 31 := by
  unfold days_in_month
  split_ifs <;> omega

theorem days_before_month_one (y : ℤ) : days_before_month y 1 = 0 := by
  simp [days_before_month]

theorem days_before_month_nonneg (y m : ℤ) : 0 ≤ days_before_month y m := by
  unfold days_before_month
  apply List.sum_nonneg
  intro x hx
  obtain ⟨k, -, hk⟩ := List.mem_map.1 hx
  rw [← hk]
  have := (days_in_month_pos y ((k : ℤ) + 1)).1
  omega

end mio

namespace mio

theorem Date.make_some (y m d : ℤ) (h1 : 1 ≤ m) (h2 : m ≤ 12) (h3 : 1 ≤ d) (h4 : d ≤ 31) :
    Date.make y m d = some ⟨y, m, d⟩ := by
  unfold Date.make
  rw [if_pos ⟨by omega, by omega⟩, if_pos ⟨by omega, by omega⟩]

theorem day_in_year_eq (date : Date) (n : ℤ) (h : date.asserted) :
    (if date.month > 1 then
        date.day + n + at_index (part_sum date.year) (date.month - 2)
      else date.day + n) = date.day + n + days_before_month date.year date.month := by
  obtain ⟨h1, h2, -, -⟩ := h
  split_ifs with hm
  · rw [part_sum_eq _ _ (by omega) (by omega)]
  · have : date.month = 1 := by omega
    rw [this, days_before_month_one]
    ring

theorem days_before_month_last (y : ℤ) : days_before_month y 13 = days_in_year y := by
  rw [← part_sum_eq y 13 (by norm_num) (by norm_num)]
  exact part_sum_last y

theorem days_before_month_le (y m : ℤ) (h1 : 1 ≤ m) (h2 : m ≤ 12) :
    days_before_month y m + 31 ≤ days_in_year y := by
  rw [← days_before_month_last, days_before_month_table y m h1 (by omega),
    days_before_month_table y 13 (by norm_num) (by norm_num)]
  have hm : m = 1 ∨ m = 2 ∨ m = 3 ∨ m = 4 ∨ m = 5 ∨ m = 6 ∨ m = 7 ∨ m = 8 ∨ m = 9 ∨
      m = 10 ∨ m = 11 ∨ m = 12 := by omega
  rcases hm with hm | hm | hm | hm | hm | hm | hm | hm | hm | hm | hm | hm <;>
  subst hm <;> norm_num <;> split_ifs <;> omega

theorem offset_date_by_days_spec : ∀ (k : ℕ) (date : Date) (n : ℤ), n.natAbs = k →
    date.asserted →
    ∃ d, offset_date_by_days date n = some d ∧ d.calendar_valid ∧
      day_number d = day_number date + n := by
  intro k
  induction k using Nat.strong_induction_on with
  | _ k ih =>
    intro date n hk ha
    have ha1 := ha
    obtain ⟨hm1, hm2, hd1, hd2⟩ := ha1
    rw [offset_date_by_days, dif_pos (show 0 < date.month ∧ date.month < 13 ∧ 0 < date.day ∧
      date.day < 32 from ha)]
    simp only []
    rw [month_len_eq _ _ (by omega) (by omega), day_in_year_eq date n ha, part_sum_last]
    by_cases hc1 : date.day + n > 0 ∧ date.day + n ≤ days_in_month date.year date.month
    · rw [if_pos hc1]
      have hle := (days_in_month_pos date.year date.month).2
      refine ⟨⟨date.year, date.month, date.day + n⟩,
        Date.make_some _ _ _ (by omega) (by omega) (by omega) (by omega), ?_, ?_⟩
      · exact ⟨by simp only; omega, by simp only; omega, by simp only; omega, hc1.2⟩
      · simp only [day_number]
        ring
    · rw [if_neg hc1]
      by_cases hc2 : date.day + n + days_before_month date.year date.month > 0 ∧
          date.day + n + days_before_month date.year date.month ≤ days_in_year date.year
      · rw [if_pos hc2]
        obtain ⟨m, hm1', hm2', hidx, hlo, hhi⟩ :=
          find_month date.year (date.day + n + days_before_month date.year date.month) hc2.2
        rw [hidx]
        have hsub : (if m - 1 > 0 then at_index (part_sum date.year) (m - 1 - 1) else 0) =
            days_before_month date.year m := by
          split_ifs with hgt
          · rw [show m - 1 - 1 = m - 2 by ring, part_sum_eq _ _ (by omega) (by omega)]
          · have : m = 1 := by omega
            rw [this, days_before_month_one]
        rw [hsub, show m - 1 + 1 = m by ring]
        rw [days_before_month_succ _ _ hm1'] at hhi
        have hle := (days_in_month_pos date.year m).2
        have hlo2 : days_before_month date.year m <
            date.day + n + days_before_month date.year date.month := by
          by_cases h2 : 2 ≤ m
          · exact hlo h2
          · have : m = 1 := by omega
            rw [this, days_before_month_one]
            exact hc2.1
        refine ⟨⟨date.year, m, date.day + n + days_before_month date.year date.month -
            days_before_month date.year m⟩,
          Date.make_some _ _ _ hm1' hm2' (by omega) (by omega), ?_, ?_⟩
        · exact ⟨hm1', hm2', by simp only; omega, by simp only; omega⟩
        · simp only [day_number]
          ring
      · rw [if_neg hc2]
        have hdb := days_before_month_le date.year date.month (by omega) (by omega)
        have hnn := days_before_month_nonneg date.year date.month
        by_cases hc3 : date.day + n + days_before_month date.year date.month > 0
        · rw [if_pos hc3]
          have hgt : days_in_year date.year <
              date.day + n + days_before_month date.year date.month := by
            by_contra hcon
            exact hc2 ⟨hc3, not_lt.1 hcon⟩
          obtain ⟨d, h1, h2, h3⟩ := ih
            (date.day + n + days_before_month date.year date.month -
              days_in_year date.year - 1).natAbs (by omega) ⟨date.year + 1, 1, 1⟩ _ rfl
            ⟨by norm_num, by norm_num, by norm_num, by norm_num⟩
          refine ⟨d, h1, h2, ?_⟩
          rw [h3]
          simp only [day_number, days_before_year_succ, days_before_month_one]
          ring
        · rw [if_neg hc3]
          obtain ⟨d, h1, h2, h3⟩ := ih
            (date.day + n + days_before_month date.year date.month).natAbs (by omega)
            ⟨date.year - 1, 12, 31⟩ _ rfl
            ⟨by norm_num, by norm_num, by norm_num, by norm_num⟩
          refine ⟨d, h1, h2, ?_⟩
          rw [h3]
          have hy : days_before_year date.year =
              days_before_year (date.year - 1) + days_in_year (date.year - 1) := by
            have := days_before_year_succ (date.year - 1)
            rw [show date.year - 1 + 1 = date.year by ring] at this
            exact this
          have h12 : days_before_month (date.year - 1) 12 + 31 = days_in_year (date.year - 1) := by
            rw [← days_before_month_last, show (13 : ℤ) = 12 + 1 from rfl,
              days_before_month_succ _ 12 (by norm_num)]
            simp [days_in_month]
          simp only [day_number, hy]
          linarith

end mio

namespace mio

theorem sum_days_loop_eq : ∀ (k : ℕ) (i year2 acc : ℤ), (year2 - i).toNat = k → i ≤ year2 →
    sum_days_loop i year2 acc = acc + days_before_year year2 - days_before_year i := by
  intro k
  induction k with
  | zero =>
    intro i year2 acc hk hle
    have : i = year2 := by omega
    subst this
    rw [sum_days_loop, if_neg (lt_irrefl _)]
    ring
  | succ k ih =>
    intro i year2 acc hk hle
    have hlt : i < year2 := by omega
    rw [sum_days_loop, if_pos hlt, ih (i + 1) year2 _ (by omega) (by omega),
      days_before_year_succ]
    have hleap : (if is_leap_year i = true then (1 : ℤ) else 0) = days_in_year i - 365 := by
      unfold days_in_year
      by_cases hl : leap i
      · rw [if_pos ((is_leap_year_iff i).2 hl), if_pos hl]
        rfl
      · rw [is_leap_year_false i hl, if_neg hl]
        rfl
    rw [hleap]
    ring

theorem get_day_in_year_eq (d : Date) (h : d.asserted) :
    get_day_in_year d = some (days_before_month d.year d.month + d.day) := by
  unfold get_day_in_year
  rw [if_pos (show 0 < d.month ∧ d.month < 13 ∧ 0 < d.day ∧ d.day < 32 from h)]
  obtain ⟨h1, h2, -, -⟩ := h
  split_ifs with hm
  · rw [part_sum_eq _ _ (by omega) (by omega)]
  · have : d.month = 1 := by omega
    rw [this, days_before_month_one]
    simp

theorem get_offset_in_days_eq (d1 d2 : Date) (h1 : d1.asserted) (h2 : d2.asserted) :
    get_offset_in_days d1 d2 = some (day_number d1 - day_number d2) := by
  unfold get_offset_in_days
  by_cases hsame : d1.year = d2.year ∧ d1.month = d2.month
  · rw [if_pos hsame]
    simp only [day_number, hsame.1, hsame.2]
    congr 1
    ring
  · rw [if_neg hsame, get_day_in_year_eq d1 h1, get_day_in_year_eq d2 h2]
    simp only
    by_cases hlt : d1.year < d2.year
    · rw [if_pos hlt, sum_days_loop_eq _ _ _ _ rfl (le_of_lt hlt)]
      simp only [day_number]
      congr 1
      ring
    · rw [if_neg hlt]
      by_cases hgt : d1.year > d2.year
      · rw [if_pos hgt, sum_days_loop_eq _ _ _ _ rfl (le_of_lt hgt)]
        simp only [day_number]
        congr 1
        ring
      · rw [if_neg hgt]
        have : d1.year = d2.year := by omega
        simp only [day_number, this]
        congr 1
        ring

theorem Date.calendar_valid.asserted {d : Date} (h : d.calendar_valid) : d.asserted := by
  obtain ⟨h1, h2, h3, h4⟩ := h
  have := (days_in_month_pos d.year d.month).2
  exact ⟨by omega, by omega, by omega, by omega⟩

theorem day_in_year_range (d : Date) (h : d.calendar_valid) :
    1 ≤ days_before_month d.year d.month + d.day ∧
      days_before_month d.year d.month + d.day ≤ days_in_year d.year := by
  obtain ⟨h1, h2, h3, h4⟩ := h
  have hnn := days_before_month_nonneg d.year d.month
  have hsucc := days_before_month_succ d.year d.month h1
  refine ⟨by omega, ?_⟩
  have hle : days_before_month d.year (d.month + 1) ≤ days_in_year d.year := by
    by_cases h12 : d.month = 12
    · rw [h12]
      exact le_of_eq (days_before_month_last d.year)
    · have := days_before_month_le d.year (d.month + 1) (by omega) (by omega)
      omega
  omega

theorem days_before_month_lt (y a b : ℤ) (ha : 1 ≤ a) (hab : a < b) :
    days_before_month y a + days_in_month y a ≤ days_before_month y b := by
  rw [← days_before_month_succ y a ha]
  have key : ∀ n : ℕ, ∀ c : ℤ, 1 ≤ c →
      days_before_month y c ≤ days_before_month y (c + (n : ℤ)) := by
    intro n
    induction n with
    | zero => intro c _; simp
    | succ n ih =>
      intro c hc
      have h1 := ih c hc
      have h2 := days_before_month_succ y (c + (n : ℤ)) (by omega)
      have h3 := (days_in_month_pos y (c + (n : ℤ))).1
      have h4 : c + ((n + 1 : ℕ) : ℤ) = c + (n : ℤ) + 1 := by push_cast; ring
      rw [h4]
      omega
  have := key (b - (a + 1)).toNat (a + 1) (by omega)
  rw [show a + 1 + (((b - (a + 1)).toNat : ℕ) : ℤ) = b by omega] at this
  exact this

theorem day_number_injective (d1 d2 : Date) (h1 : d1.calendar_valid) (h2 : d2.calendar_valid)
    (h : day_number d1 = day_number d2) : d1 = d2 := by
  have r1 := day_in_year_range d1 h1
  have r2 := day_in_year_range d2 h2
  unfold day_number at h
  have hy : d1.year = d2.year := by
    rcases lt_trichotomy d1.year d2.year with hlt | heq | hgt
    · have := days_before_year_mono _ _ hlt
      omega
    · exact heq
    · have := days_before_year_mono _ _ hgt
      omega
  have hm : d1.month = d2.month := by
    rcases lt_trichotomy d1.month d2.month with hlt | heq | hgt
    · have := days_before_month_lt d1.year d1.month d2.month h1.1 hlt
      have a1 := h1.2.2.2
      have a2 := h2.2.2.1
      rw [hy] at h this a1
      omega
    · exact heq
    · have := days_before_month_lt d2.year d2.month d1.month h2.1 hgt
      have a1 := h2.2.2.2
      have a2 := h1.2.2.1
      rw [hy] at h
      rw [← hy] at this a1
      rw [← hy] at h
      omega
  have hd : d1.day = d2.day := by
    rw [hy, hm] at h
    omega
  cases d1
  cases d2
  simp only at hy hm hd
  subst hy hm hd
  rfl

end mio

namespace mio

/-! ## Claims on `date.h` -/

/-- C13: for every calendar-valid date `d` and every integer `n` (unbounded integers, so
no overflow), `offset_date_by_days(d, n)` returns a calendar-valid date that lies `n` days
after `d` on the time line, and `get_offset_in_days` of that date and `d` is `n`. -/
theorem offset_then_difference (d : Date) (n : ℤ) (hd : d.calendar_valid) :
    ∃ d1, offset_date_by_days d n = some d1 ∧ d1.calendar_valid ∧
      day_number d1 = day_number d + n ∧ get_offset_in_days d1 d = some n := by
  obtain ⟨d1, h1, h2, h3⟩ := offset_date_by_days_spec _ d n rfl hd.asserted
  refine ⟨d1, h1, h2, h3, ?_⟩
  rw [get_offset_in_days_eq d1 d h2.asserted hd.asserted, h3]
  congr 1
  ring

/-- Witness of C13: 1096 days before 1 March 2020. -/
theorem offset_then_difference_witness :
    ∃ d1, offset_date_by_days ⟨2020, 3, 1⟩ (-1096) = some d1 ∧ d1.calendar_valid ∧
      day_number d1 = day_number ⟨2020, 3, 1⟩ + (-1096) ∧
      get_offset_in_days d1 ⟨2020, 3, 1⟩ = some (-1096) :=
  offset_then_difference ⟨2020, 3, 1⟩ (-1096) (by decide)

/-- C14: for all calendar-valid dates `d1` and `d2`, `get_offset_in_days(d1, d2)` returns
the number of days from `d2` to `d1` on the time line, and offsetting `d2` by it gives
`d1`. -/
theorem difference_then_offset (d1 d2 : Date) (h1 : d1.calendar_valid)
    (h2 : d2.calendar_valid) :
    ∃ k, get_offset_in_days d1 d2 = some k ∧ k = day_number d1 - day_number d2 ∧
      offset_date_by_days d2 k = some d1 := by
  refine ⟨day_number d1 - day_number d2,
    get_offset_in_days_eq d1 d2 h1.asserted h2.asserted, rfl, ?_⟩
  obtain ⟨d, a1, a2, a3⟩ :=
    offset_date_by_days_spec _ d2 (day_number d1 - day_number d2) rfl h2.asserted
  have : d = d1 := day_number_injective d d1 a2 h1 (by rw [a3]; ring)
  rw [a1, this]

/-- Witness of C14: 29 February 2020 and 31 December 2017. -/
theorem difference_then_offset_witness :
    ∃ k, get_offset_in_days ⟨2020, 2, 29⟩ ⟨2017, 12, 31⟩ = some k ∧
      k = day_number ⟨2020, 2, 29⟩ - day_number ⟨2017, 12, 31⟩ ∧
      offset_date_by_days ⟨2017, 12, 31⟩ k = some ⟨2020, 2, 29⟩ :=
  difference_then_offset ⟨2020, 2, 29⟩ ⟨2017, 12, 31⟩ (by decide) (by decide)

theorem next_day_spec (d : Date) (hd : d.calendar_valid) :
    (next_day d).calendar_valid ∧ day_number (next_day d) = day_number d + 1 := by
  obtain ⟨h1, h2, h3, h4⟩ := hd
  unfold next_day
  by_cases hlt : d.day < days_in_month d.year d.month
  · rw [if_pos hlt]
    refine ⟨⟨h1, h2, by simp only; omega, by simp only; omega⟩, ?_⟩
    simp only [day_number]
    ring
  · rw [if_neg hlt]
    have hday : d.day = days_in_month d.year d.month := by omega
    by_cases hm : d.month < 12
    · rw [if_pos hm]
      have hpos := (days_in_month_pos d.year (d.month + 1)).1
      refine ⟨⟨by simp only; omega, by simp only; omega, by simp only; omega,
        by simp only; omega⟩, ?_⟩
      simp only [day_number, days_before_month_succ d.year d.month h1, hday]
      ring
    · rw [if_neg hm]
      have hm12 : d.month = 12 := by omega
      have hpos := (days_in_month_pos (d.year + 1) 1).1
      refine ⟨⟨by norm_num, by norm_num, by norm_num, by simp only; omega⟩, ?_⟩
      have hlast := days_before_month_last d.year
      rw [show (13 : ℤ) = 12 + 1 from rfl, days_before_month_succ _ 12 (by norm_num)] at hlast
      simp only [day_number, days_before_year_succ, days_before_month_one, hm12, hday]
      rw [hm12] at hday
      linarith

/-- C15: for every calendar-valid date `(y, m, d)`, `offset_date_by_days((y, m, d), 1)` is
the next day of the Gregorian calendar: `(y, m, d + 1)` if `d` is less than the length of
month `m` in year `y`, otherwise `(y, m + 1, 1)` if `m < 12`, otherwise `(y + 1, 1, 1)`;
February has 29 days exactly when `y` is divisible by 4 and not by 100, or divisible by
400, and 28 days otherwise. -/
theorem offset_by_one_is_next_day (d : Date) (hd : d.calendar_valid) :
    offset_date_by_days d 1 = some (next_day d) ∧
      (next_day d = if d.day < days_in_month d.year d.month then ⟨d.year, d.month, d.day + 1⟩
        else if d.month < 12 then ⟨d.year, d.month + 1, 1⟩ else ⟨d.year + 1, 1, 1⟩) ∧
      (days_in_month d.year 2 =
        if (d.year % 4 = 0 ∧ d.year % 100 ≠ 0) ∨ d.year % 400 = 0 then 29 else 28) := by
  refine ⟨?_, rfl, ?_⟩
  · obtain ⟨d1, a1, a2, a3⟩ := offset_date_by_days_spec _ d 1 rfl hd.asserted
    obtain ⟨b1, b2⟩ := next_day_spec d hd
    have : d1 = next_day d := day_number_injective d1 _ a2 b1 (by rw [a3, b2])
    rw [a1, this]
  · simp only [days_in_month, if_true, leap]

/-- Witness of C15: the day after 28 February 1900, which is not a leap year. -/
theorem offset_by_one_is_next_day_witness :
    offset_date_by_days ⟨1900, 2, 28⟩ 1 = some (next_day ⟨1900, 2, 28⟩) ∧
      (next_day ⟨1900, 2, 28⟩ =
        if (28 : ℤ) < days_in_month 1900 2 then ⟨1900, 2, 28 + 1⟩
        else if (2 : ℤ) < 12 then ⟨1900, 2 + 1, 1⟩ else ⟨1900 + 1, 1, 1⟩) ∧
      (days_in_month 1900 2 =
        if ((1900 : ℤ) % 4 = 0 ∧ (1900 : ℤ) % 100 ≠ 0) ∨ (1900 : ℤ) % 400 = 0 then 29
        else 28) :=
  offset_by_one_is_next_day ⟨1900, 2, 28⟩ (by decide)

/-- C16: for every calendar-valid date `d`, `get_day_in_year(d)` returns the day of `d`
plus the lengths of all months of its year before its month: 1 for 1 January, the length
of the year (365, or 366 in a leap year) for 31 December, and one more than
`get_offset_in_days(d, 1 January of the same year)`. -/
theorem day_in_year_is_ordinal (d : Date) (hd : d.calendar_valid) :
    ∃ k, get_day_in_year d = some k ∧
      k = d.day + ((List.range (d.month - 1).toNat).map
        (fun (j : ℕ) => days_in_month d.year ((j : ℤ) + 1))).sum ∧
      (d.month = 1 → d.day = 1 → k = 1) ∧
      (d.month = 12 → d.day = 31 → k = if leap d.year then 366 else 365) ∧
      get_offset_in_days d ⟨d.year, 1, 1⟩ = some (k - 1) := by
  refine ⟨days_before_month d.year d.month + d.day, get_day_in_year_eq d hd.asserted,
    by unfold days_before_month; ring, ?_, ?_, ?_⟩
  · intro hm hday
    rw [hm, hday, days_before_month_one]
    rfl
  · intro hm hday
    have hlast := days_before_month_last d.year
    rw [show (13 : ℤ) = 12 + 1 from rfl, days_before_month_succ _ 12 (by norm_num)] at hlast
    have h31 : days_in_month d.year 12 = 31 := by simp [days_in_month]
    rw [hm, hday]
    unfold days_in_year at hlast
    rw [← hlast, h31]
  · rw [get_offset_in_days_eq d ⟨d.year, 1, 1⟩ hd.asserted
      ⟨by norm_num, by norm_num, by norm_num, by norm_num⟩]
    simp only [day_number, days_before_month_one]
    congr 1
    ring

/-- Witness of C16: 31 December 2020, day 366 of a leap year. -/
theorem day_in_year_is_ordinal_witness :
    ∃ k, get_day_in_year ⟨2020, 12, 31⟩ = some k ∧
      k = (31 : ℤ) + ((List.range ((12 : ℤ) - 1).toNat).map
        (fun (j : ℕ) => days_in_month 2020 ((j : ℤ) + 1))).sum ∧
      ((12 : ℤ) = 1 → (31 : ℤ) = 1 → k = 1) ∧
      ((12 : ℤ) = 12 → (31 : ℤ) = 31 → k = if leap 2020 then 366 else 365) ∧
      get_offset_in_days ⟨2020, 12, 31⟩ ⟨2020, 1, 1⟩ = some (k - 1) :=
  day_in_year_is_ordinal ⟨2020, 12, 31⟩ (by decide)

end mio

namespace mio

/-! ## Robustness of the analysis functions -/

/-- C12 (counterexample): on the empty ensemble each of `sum_nodes`, `ensemble_mean` and
`ensemble_percentile` reads `ensemble_result[0]` outside the vector and returns nothing; on
an ensemble whose second run has fewer nodes, or fewer time points, than the first, each of
them leaves a container (or fails the assertion "ensemble results not uniform"). -/
theorem analysis_not_robust :
    (sum_nodes [] = none ∧ ensemble_mean [] = none ∧ ensemble_percentile [] (1 / 2) = none) ∧
    (sum_nodes ensemble_fewer_nodes = none ∧ ensemble_mean ensemble_fewer_nodes = none ∧
      ensemble_percentile ensemble_fewer_nodes (1 / 2) = none) ∧
    (sum_nodes ensemble_fewer_time_points = none ∧
      ensemble_mean ensemble_fewer_time_points = none ∧
      ensemble_percentile ensemble_fewer_time_points (1 / 2) = none) := by
  have hf : ⌊((2 : ℕ) : ℚ) * (1 / 2)⌋ = 1 := by norm_num
  refine ⟨⟨rfl, rfl, ?_⟩, ⟨?_, ?_, ?_⟩, ⟨?_, ?_, ?_⟩⟩
  · simp [ensemble_percentile]
  · decide
  · decide
  · simp [ensemble_percentile, ensemble_fewer_nodes, for_each, List.range, List.range.loop,
      ensemble_percentile_node, ensemble_percentile_time, ensemble_percentile_elem,
      single_element_ensemble, read_time, write_time, read_elem, read_value, write_elem,
      write_value, TimeSeries.zero, TimeSeries.get_num_time_points,
      TimeSeries.get_num_elements, hf]
  · decide
  · decide
  · simp [ensemble_percentile, ensemble_fewer_time_points, for_each, List.range,
      List.range.loop, ensemble_percentile_node, ensemble_percentile_time,
      ensemble_percentile_elem, single_element_ensemble, read_time, write_time, read_elem,
      read_value, write_elem, write_value, TimeSeries.zero, TimeSeries.get_num_time_points,
      TimeSeries.get_num_elements, hf]

/-- C12 (amended): for every uniform ensemble of at least one run in which the runs have
at least one node, `sum_nodes` and `ensemble_mean` return a result, and so does
`ensemble_percentile` for every `p` with `0 < p < 1`: no access leaves a container and no
assertion fails. -/
theorem analysis_returns_on_uniform (ens : List (List TimeSeries)) (p : ℚ) (N T E : Nat)
    (hN : 1 ≤ ens.length) (hnodes : 1 ≤ N) (hu : Uniform ens N T E) (hp0 : 0 < p)
    (hp1 : p < 1) :
    (∃ res, sum_nodes ens = some res) ∧ (∃ res, ensemble_mean ens = some res) ∧
      (∃ res, ensemble_percentile ens p = some res) := by
  obtain ⟨r1, h1, -⟩ := sum_nodes_run_all ens N T E hu hN hnodes
  obtain ⟨r2, h2, -⟩ := ensemble_mean_run_all ens N T E hu hN hnodes
  obtain ⟨r3, -, h3, -⟩ := ensemble_percentile_run ens p N T E hu hN hnodes hp0 hp1
  exact ⟨⟨r1, h1⟩, ⟨r2, h2⟩, ⟨r3, h3⟩⟩

/-- Witness of C12 (amended): the ensemble of the test `TestEnsemblePercentile.basic`. -/
theorem analysis_returns_on_uniform_witness :
    (∃ res, sum_nodes ensemble_percentile_test = some res) ∧
      (∃ res, ensemble_mean ensemble_percentile_test = some res) ∧
      (∃ res, ensemble_percentile ensemble_percentile_test (1 / 2) = some res) :=
  analysis_returns_on_uniform ensemble_percentile_test (1 / 2) 2 3 2 (by decide) (by decide)
    (by decide) (by norm_num) (by norm_num)

end mio

namespace mio

/-! ## Order of dates -/

theorem tie_less_trans (a b c : Date) (h1 : tie_less a b = true) (h2 : tie_less b c = true) :
    tie_less a c = true := by
  simp only [tie_less, decide_eq_true_eq] at *
  omega

theorem tie_less_of_less_of_le (a b c : Date) (h1 : tie_less a b = true)
    (h2 : tie_less c b = false) : tie_less a c = true := by
  simp only [tie_less, decide_eq_true_eq, decide_eq_false_iff_not] at *
  omega

theorem tie_less_of_le_of_less (a b c : Date) (h1 : tie_less b a = false)
    (h2 : tie_less b c = true) : tie_less a c = true := by
  simp only [tie_less, decide_eq_true_eq, decide_eq_false_iff_not] at *
  omega

theorem tie_less_asymm (a b : Date) (h1 : tie_less a b = true) : tie_less b a = false := by
  simp only [tie_less, decide_eq_true_eq, decide_eq_false_iff_not] at *
  omega

end mio

namespace epi

theorem dropWhile_all_false {α : Type} (f : α → Bool) (l : List α)
    (hs : l.Pairwise (fun p q => f q = true → f p = true)) :
    ∀ x ∈ l.dropWhile f, f x = false := by
  induction l with
  | nil => simp
  | cons y ys ih =>
    rw [List.pairwise_cons] at hs
    by_cases h : f y = true
    · rw [List.dropWhile_cons_of_pos h]
      exact ih hs.2
    · rw [List.dropWhile_cons_of_neg h]
      intro x hx
      rcases List.mem_cons.1 hx with hx | hx
      · subst hx
        simpa using h
      · by_contra hc
        exact h (hs.1 x hx (by simpa using hc))

end epi

namespace mio.regions.de

/-! ## Holidays -/

theorem sorted_disjoint.pairwise (l : List (Date × Date)) (h : sorted_disjoint l) :
    l.Pairwise (fun p q => tie_less p.2 q.1 = true) := by
  obtain ⟨-, hs, hc⟩ := h
  induction l with
  | nil => exact List.Pairwise.nil
  | cons p ps ih =>
    rw [List.pairwise_cons] at hs ⊢
    refine ⟨?_, ih hs.2 (List.Chain'.tail hc)⟩
    intro q hq
    cases ps with
    | nil => simp at hq
    | cons r rs =>
      have hpr : tie_less p.2 r.1 = true := (List.chain'_cons.1 hc).1
      rcases List.mem_cons.1 hq with hq | hq
      · subst hq
        exact hpr
      · exact tie_less_trans _ _ _ hpr ((List.pairwise_cons.1 hs.2).1 q hq)

end mio.regions.de

namespace epi

theorem filter_of_split {α : Type} (f : α → Bool) (A B C : List α)
    (hA : ∀ x ∈ A, f x = false) (hB : ∀ x ∈ B, f x = true) (hC : ∀ x ∈ C, f x = false) :
    (A ++ B ++ C).filter f = B := by
  rw [List.filter_append, List.filter_append]
  have h1 : A.filter f = [] := by
    rw [List.filter_eq_nil_iff]
    intro x hx
    simp [hA x hx]
  have h2 : C.filter f = [] := by
    rw [List.filter_eq_nil_iff]
    intro x hx
    simp [hC x hx]
  have h3 : B.filter f = B := List.filter_eq_self.2 hB
  rw [h1, h2, h3, List.nil_append, List.append_nil]

end epi

namespace mio.regions.de

theorem get_holidays_eq (data : ℤ → List (Date × Date)) (state : StateId)
    (start_date end_date : Date) (hstate : 1 ≤ state.get ∧ state.get ≤ 16) :
    get_holidays data state start_date end_date =
      some (((data state.get).dropWhile (fun p => tie_less p.2 start_date)).takeWhile
        (fun p => !tie_less end_date p.1)) := by
  unfold get_holidays get_holidays_all get_holidays_bounds
  rw [if_pos ⟨hstate.1, hstate.2⟩]
  simp only [epi.make_range_equal_range]

/-- C17: for every state (id in 1..16) whose holiday table is sorted by start date with
pairwise disjoint periods (every period starts no later than it ends, and each period ends
before the next one starts) and every query with `start_date <= end_date`,
`get_holidays(state, start_date, end_date)` returns exactly the periods of the table with
period end `>= start_date` and period start `<= end_date`. They are the contiguous piece of
the table between the two positions that `std::equal_range` computes: the periods before
it end before `start_date`, the periods behind it start after `end_date` (so the table is
partitioned as `std::equal_range` requires), and the result is sorted by start date. -/
theorem get_holidays_overlapping (data : ℤ → List (Date × Date)) (state : StateId)
    (start_date end_date : Date) (hstate : 1 ≤ state.get ∧ state.get ≤ 16)
    (htable : sorted_disjoint (data state.get))
    (hquery : tie_less end_date start_date = false) :
    ∃ res, get_holidays data state start_date end_date = some res ∧
      res = (data state.get).filter
        (fun p => !tie_less p.2 start_date && !tie_less end_date p.1) ∧
      data state.get =
        (data state.get).take (get_holidays_bounds (data state.get) start_date end_date).1 ++
          res ++
          (data state.get).drop (get_holidays_bounds (data state.get) start_date end_date).2 ∧
      (∀ p ∈ (data state.get).take
          (get_holidays_bounds (data state.get) start_date end_date).1,
        tie_less p.2 start_date = true ∧ tie_less end_date p.1 = false) ∧
      (∀ p ∈ (data state.get).drop
          (get_holidays_bounds (data state.get) start_date end_date).2,
        tie_less end_date p.1 = true ∧ tie_less p.2 start_date = false) ∧
      res.Pairwise (fun p q => tie_less p.1 q.1 = true) := by
  have hpw := sorted_disjoint.pairwise _ htable
  obtain ⟨hwf, hsorted, -⟩ := htable
  -- a period cannot both end before the query and start after it
  have hexcl : ∀ p ∈ data state.get, tie_less p.2 start_date = true →
      tie_less end_date p.1 = true → False := by
    intro p hp h1 h2
    have h3 := tie_less_of_less_of_le _ _ _ h1 hquery
    have h4 := tie_less_trans _ _ _ h3 h2
    rw [hwf p hp] at h4
    exact Bool.noConfusion h4
  have hlo : (data state.get).Pairwise
      (fun p q => tie_less q.2 start_date = true → tie_less p.2 start_date = true) := by
    have : (data state.get).Pairwise (fun p q => tie_less p.2 q.1 = true ∧ q ∈ data state.get) :=
      (List.pairwise_iff_forall_sublist.2 (fun {a b} hab =>
        ⟨(List.pairwise_iff_forall_sublist.1 hpw) hab, hab.subset (by simp)⟩))
    refine this.imp ?_
    intro p q hpq hq
    exact tie_less_trans _ _ _ (tie_less_of_less_of_le _ _ _ hpq.1 (hwf q hpq.2)) hq
  have hhi : (data state.get).Pairwise
      (fun p q => (!tie_less end_date q.1) = true → (!tie_less end_date p.1) = true) := by
    have : (data state.get).Pairwise (fun p q => tie_less p.2 q.1 = true ∧ p ∈ data state.get) :=
      (List.pairwise_iff_forall_sublist.2 (fun {a b} hab =>
        ⟨(List.pairwise_iff_forall_sublist.1 hpw) hab, hab.subset (by simp)⟩))
    refine this.imp ?_
    intro p q hpq hq
    by_contra hc
    have h1 : tie_less end_date p.1 = true := by simpa using hc
    have h2 : tie_less p.1 q.1 = true := tie_less_of_le_of_less _ _ _ (hwf p hpq.2) hpq.1
    have h3 := tie_less_trans _ _ _ h1 h2
    rw [h3] at hq
    exact Bool.noConfusion hq
  have hres := get_holidays_eq data state start_date end_date hstate
  have hsplit := epi.split_equal_range (fun (p : Date × Date) => tie_less p.2 start_date)
    (fun (p : Date × Date) => tie_less end_date p.1) (data state.get)
  rw [epi.make_range_equal_range] at hsplit
  have hA : ∀ p ∈ (data state.get).take
      (get_holidays_bounds (data state.get) start_date end_date).1,
      tie_less p.2 start_date = true ∧ tie_less end_date p.1 = false := by
    intro p hp
    have hmem : p ∈ data state.get := (List.take_sublist _ _).subset hp
    simp only [get_holidays_bounds, epi.equal_range, epi.take_length_takeWhile] at hp
    have h1 := List.mem_takeWhile_imp hp
    simp only at h1
    refine ⟨h1, ?_⟩
    by_contra hc
    exact hexcl p hmem h1 (by simpa using hc)
  have hC : ∀ p ∈ (data state.get).drop
      (get_holidays_bounds (data state.get) start_date end_date).2,
      tie_less end_date p.1 = true ∧ tie_less p.2 start_date = false := by
    intro p hp
    have hmem : p ∈ data state.get := (List.drop_sublist _ _).subset hp
    simp only [get_holidays_bounds, epi.equal_range] at hp
    rw [← List.drop_drop, epi.drop_length_takeWhile, epi.drop_length_takeWhile] at hp
    have h1 := epi.dropWhile_all_false (fun (p : Date × Date) => !tie_less end_date p.1) _
      (hhi.sublist (List.dropWhile_sublist _)) p hp
    have h2 : tie_less end_date p.1 = true := by simpa using h1
    refine ⟨h2, ?_⟩
    by_contra hc
    exact hexcl p hmem (by simpa using hc) h2
  have hB : ∀ p ∈ ((data state.get).dropWhile (fun p => tie_less p.2 start_date)).takeWhile
      (fun p => !tie_less end_date p.1),
      (!tie_less p.2 start_date && !tie_less end_date p.1) = true := by
    intro p hp
    have h1 := List.mem_takeWhile_imp hp
    have h2 := epi.dropWhile_all_false (fun (p : Date × Date) => tie_less p.2 start_date) _ hlo p
      ((List.takeWhile_sublist _).subset hp)
    simp only [Bool.not_eq_true'] at h1
    simp only [h1, h2, Bool.not_false, Bool.and_self]
  refine ⟨_, hres, ?_, hsplit, hA, hC, ?_⟩
  · conv_rhs => rw [hsplit]
    refine (epi.filter_of_split _ _ _ _ ?_ hB ?_).symm
    · intro p hp
      simp [(hA p hp).1]
    · intro p hp
      simp [(hC p hp).1]
  · exact hsorted.sublist ((List.takeWhile_sublist _).trans (List.dropWhile_sublist _))

/-- Witness of C17: the second query of the test `TestRegions.get_holidays` narrowed to
September and October 2020, which only the middle period of the table overlaps. -/
theorem get_holidays_overlapping_witness :
    ∃ res, get_holidays holidays_test ⟨3⟩ ⟨2020, 9, 1⟩ ⟨2020, 10, 20⟩ = some res ∧
      res = (holidays_test 3).filter
        (fun p => !tie_less p.2 ⟨2020, 9, 1⟩ && !tie_less ⟨2020, 10, 20⟩ p.1) ∧
      holidays_test 3 =
        (holidays_test 3).take
            (get_holidays_bounds (holidays_test 3) ⟨2020, 9, 1⟩ ⟨2020, 10, 20⟩).1 ++
          res ++
          (holidays_test 3).drop
            (get_holidays_bounds (holidays_test 3) ⟨2020, 9, 1⟩ ⟨2020, 10, 20⟩).2 ∧
      (∀ p ∈ (holidays_test 3).take
          (get_holidays_bounds (holidays_test 3) ⟨2020, 9, 1⟩ ⟨2020, 10, 20⟩).1,
        tie_less p.2 ⟨2020, 9, 1⟩ = true ∧ tie_less ⟨2020, 10, 20⟩ p.1 = false) ∧
      (∀ p ∈ (holidays_test 3).drop
          (get_holidays_bounds (holidays_test 3) ⟨2020, 9, 1⟩ ⟨2020, 10, 20⟩).2,
        tie_less ⟨2020, 10, 20⟩ p.1 = true ∧ tie_less p.2 ⟨2020, 9, 1⟩ = false) ∧
      res.Pairwise (fun p q => tie_less p.1 q.1 = true) :=
  get_holidays_overlapping holidays_test ⟨3⟩ ⟨2020, 9, 1⟩ ⟨2020, 10, 20⟩ (by decide)
    ⟨by decide, by decide, by simp [holidays_test, tie_less]⟩ (by decide)

end mio.regions.de

namespace mio.regions.de

/-- C18: for every county id of the form ssxxx, that is `c = 1000 * s + x` with `s >= 0`
and `0 <= x < 1000`, `get_state_id(CountyId(c)) = StateId(s)`. -/
theorem get_state_id_of_county (s x : ℤ) (hs : 0 ≤ s) (hx0 : 0 ≤ x) (hx : x < 1000) :
    get_state_id (CountyId.mk (1000 * s + x)) = StateId.mk s := by
  unfold get_state_id
  simp only
  rw [Int.tdiv_eq_ediv (by omega) (by norm_num)]
  congr 1
  omega

/-- Witness of C18: the county 9161 of the test `TestRegions.get_state_id` lies in
state 9. -/
theorem get_state_id_of_county_witness :
    get_state_id (CountyId.mk (1000 * 9 + 161)) = StateId.mk 9 :=
  get_state_id_of_county 9 161 (by decide) (by decide) (by decide)

end mio.regions.de

namespace mio

/-! ## Serialization of `Date` -/

theorem deserialize_eq (io : IOObject) (y m d : ℤ)
    (hy : io.expect_element "Year" = IOResult.success y)
    (hm : io.expect_element "Month" = IOResult.success m)
    (hd : io.expect_element "Day" = IOResult.success d) :
    Date.deserialize io =
      if m ≤ 0 ∨ m > 12 then some (IOResult.failure StatusCode.OutOfRange)
      else if d ≤ 0 ∨ d > 31 then some (IOResult.failure StatusCode.OutOfRange)
      else some (IOResult.success ⟨y, m, d⟩) := by
  unfold Date.deserialize
  simp only [expect_object, hy, hm, hd, apply]
  by_cases h1 : m ≤ 0 ∨ m > 12
  · rw [if_pos h1, if_pos h1]
  · rw [if_neg h1, if_neg h1]
    by_cases h2 : d ≤ 0 ∨ d > 31
    · rw [if_pos h2, if_pos h2]
    · rw [if_neg h2, if_neg h2, Date.make_some y m d (by omega) (by omega) (by omega)
        (by omega)]

/-- C19: for every serialised object that carries the integer elements `Year = y`,
`Month = m` and `Day = d`, `Date::deserialize` returns, and it fails with the status
`OutOfRange` if and only if `m` is outside 1..12 or `d` is outside 1..31; otherwise it
succeeds with exactly the date `(y, m, d)`. -/
theorem deserialize_out_of_range (io : IOObject) (y m d : ℤ)
    (hy : io.expect_element "Year" = IOResult.success y)
    (hm : io.expect_element "Month" = IOResult.success m)
    (hd : io.expect_element "Day" = IOResult.success d) :
    (Date.deserialize io = some (IOResult.failure StatusCode.OutOfRange) ↔
      (m < 1 ∨ 12 < m) ∨ (d < 1 ∨ 31 < d)) ∧
    (¬ ((m < 1 ∨ 12 < m) ∨ (d < 1 ∨ 31 < d)) →
      Date.deserialize io = some (IOResult.success ⟨y, m, d⟩)) := by
  rw [deserialize_eq io y m d hy hm hd]
  by_cases h1 : m ≤ 0 ∨ m > 12
  · rw [if_pos h1]
    exact ⟨⟨fun _ => Or.inl (by omega), fun _ => rfl⟩, fun h => absurd (Or.inl (by omega)) h⟩
  · rw [if_neg h1]
    by_cases h2 : d ≤ 0 ∨ d > 31
    · rw [if_pos h2]
      exact ⟨⟨fun _ => Or.inr (by omega), fun _ => rfl⟩, fun h => absurd (Or.inr (by omega)) h⟩
    · rw [if_neg h2]
      refine ⟨⟨fun h => ?_, fun h => ?_⟩, fun _ => rfl⟩
      · simp at h
      · omega

/-- Witness of C19: an object with month 13. -/
theorem deserialize_out_of_range_witness :
    (Date.deserialize ⟨"Date", [("Year", 2020), ("Month", 13), ("Day", 1)]⟩ =
        some (IOResult.failure StatusCode.OutOfRange) ↔
      ((13 : ℤ) < 1 ∨ (12 : ℤ) < 13) ∨ ((1 : ℤ) < 1 ∨ (31 : ℤ) < 1)) ∧
    (¬ (((13 : ℤ) < 1 ∨ (12 : ℤ) < 13) ∨ ((1 : ℤ) < 1 ∨ (31 : ℤ) < 1)) →
      Date.deserialize ⟨"Date", [("Year", 2020), ("Month", 13), ("Day", 1)]⟩ =
        some (IOResult.success ⟨2020, 13, 1⟩)) :=
  deserialize_out_of_range ⟨"Date", [("Year", 2020), ("Month", 13), ("Day", 1)]⟩ 2020 13 1
    (by decide) (by decide) (by decide)

/-- C20: for every date with month in 1..12 and day in 1..31, `serialize` writes the
object "Date" with exactly the elements `Year`, `Month` and `Day` holding its three fields,
and `deserialize` applied to that object succeeds and returns the original date. -/
theorem serialize_round_trip (date : Date) (hm : 1 ≤ date.month ∧ date.month ≤ 12)
    (hd : 1 ≤ date.day ∧ date.day ≤ 31) :
    date.serialize =
        ⟨"Date", [("Year", date.year), ("Month", date.month), ("Day", date.day)]⟩ ∧
      Date.deserialize date.serialize = some (IOResult.success date) := by
  have hs : date.serialize =
      ⟨"Date", [("Year", date.year), ("Month", date.month), ("Day", date.day)]⟩ := rfl
  refine ⟨hs, ?_⟩
  rw [deserialize_eq date.serialize date.year date.month date.day (by rw [hs]; rfl)
    (by rw [hs]; rfl) (by rw [hs]; rfl)]
  rw [if_neg (by omega), if_neg (by omega)]

/-- Witness of C20: 29 February 2020. -/
theorem serialize_round_trip_witness :
    (⟨2020, 2, 29⟩ : Date).serialize =
        ⟨"Date", [("Year", (2020 : ℤ)), ("Month", (2 : ℤ)), ("Day", (29 : ℤ))]⟩ ∧
      Date.deserialize (⟨2020, 2, 29⟩ : Date).serialize =
        some (IOResult.success ⟨2020, 2, 29⟩) :=
  serialize_round_trip ⟨2020, 2, 29⟩ (by decide) (by decide)

end mio

namespace epi

/-! ## Nodes and edges of a built graph -/

/-- C24: `add_node` appends. For every graph with `n` nodes, afterwards the graph has
`n + 1` nodes, the new node is at index `n` and is the returned reference, the nodes
`0..n-1` are unchanged and in their previous order, and the edge list is unchanged. -/
theorem add_node_appends {NP EP : Type} (g : Graph NP EP) (n : NP) :
    (g.add_node n).1.nodes.length = g.nodes.length + 1 ∧
    (g.add_node n).2 = g.nodes.length ∧
    (g.add_node n).1.nodes[(g.add_node n).2]? = some n ∧
    (∀ i, i < g.nodes.length → (g.add_node n).1.nodes[i]? = g.nodes[i]?) ∧
    (g.add_node n).1.nodes.take g.nodes.length = g.nodes ∧
    (g.add_node n).1.edges = g.edges := by
  refine ⟨?_, rfl, ?_, ?_, ?_, rfl⟩
  · simp [Graph.add_node, Graph.nodes]
  · simp [Graph.add_node, Graph.nodes]
  · intro i hi
    simp only [Graph.nodes] at hi
    simp only [Graph.add_node, Graph.nodes]
    rw [List.getElem?_append_left hi]
  · simp [Graph.add_node, Graph.nodes]

theorem Graph.Built.in_range {NP EP : Type} {g : Graph NP EP} (hg : g.Built) : g.InRange :=
  hg.inv.2

namespace GraphSimulation

variable {NP EP : Type}

theorem node_loop_in_range (sim : GraphSimulation NP EP) (hv : sim.m_graph.InRange) :
    ∃ s1, for_each node_call (List.range sim.m_graph.m_nodes.length) sim = some s1 ∧
      s1.m_graph.InRange := by
  obtain ⟨s1, h1, -, -, -, -, hed, hlen, -⟩ :=
    node_loop_spec sim.m_graph.m_nodes.length 0 sim (by omega)
  refine ⟨s1, by rw [List.range_eq_range']; exact h1, ?_⟩
  intro x hx
  rw [hed] at hx
  rw [hlen]
  exact hv x hx

theorem edge_call_in_range (sim : GraphSimulation NP EP) (j : Nat)
    (hj : j < sim.m_graph.m_edges.length) (hv : sim.m_graph.InRange) :
    ∃ s1, sim.edge_call j = some s1 ∧ s1.m_graph.InRange ∧
      s1.m_graph.m_edges.length = sim.m_graph.m_edges.length := by
  have hmem : sim.m_graph.m_edges[j] ∈ sim.m_graph.m_edges := List.getElem_mem hj
  obtain ⟨s1, pr, h1, -, -, -, -, hed, hlen, -⟩ :=
    edge_call_spec sim j _ (List.getElem?_eq_getElem hj) (hv _ hmem).1 (hv _ hmem).2
  refine ⟨s1, h1, ?_, by rw [hed, List.length_set]⟩
  intro x hx
  rw [hed] at hx
  rw [hlen]
  rcases List.mem_or_eq_of_mem_set hx with hx | hx
  · exact hv x hx
  · rw [hx]
    exact hv (sim.m_graph.m_edges[j]) hmem

theorem advance_step_in_range (sim : GraphSimulation NP EP) (hv : sim.m_graph.InRange) :
    ∃ s1, sim.advance_step = some s1 ∧ s1.m_graph.InRange := by
  obtain ⟨s1, h1, hv1⟩ := node_loop_in_range sim hv
  obtain ⟨s2, h2, hv2, -⟩ := for_each_range edge_call
    (fun _ (s : GraphSimulation NP EP) =>
      s.m_graph.InRange ∧ s.m_graph.m_edges.length = s1.m_graph.m_edges.length)
    s1.m_graph.m_edges.length ({ s1 with m_t := s1.m_t + s1.m_dt } : GraphSimulation NP EP)
    ⟨hv1, rfl⟩
    (fun j s hj hI => by
      obtain ⟨s3, h3, hv3, hl3⟩ := edge_call_in_range s j (by rw [hI.2]; exact hj) hI.1
      exact ⟨s3, h3, hv3, hl3.trans hI.2⟩)
  refine ⟨s2, ?_, hv2⟩
  simp only [advance_step, h1]
  exact h2

theorem advance_loop_in_range (k : Nat) : ∀ (sim : GraphSimulation NP EP),
    sim.m_graph.InRange → ∃ s1, advance_loop k sim = some s1 ∧ s1.m_graph.InRange := by
  induction k with
  | zero =>
    intro sim hv
    exact ⟨sim, rfl, hv⟩
  | succ k ih =>
    intro sim hv
    obtain ⟨s1, h1, hv1⟩ := advance_step_in_range sim hv
    obtain ⟨s2, h2, hv2⟩ := ih s1 hv1
    refine ⟨s2, ?_, hv2⟩
    simp only [advance_loop, h1]
    exact h2

end GraphSimulation

/-- C30: in every graph built from the empty graph by `add_node` and `add_edge` calls (an
`add_edge` that fails its assertion builds nothing), every stored edge has
`start_node_idx` and `end_node_idx` smaller than the number of nodes. Hence
`GraphSimulation::advance` on such a graph returns for every number of steps: the two node
lookups of every edge call are inside the node vector, in every pass. -/
theorem built_edges_in_range {NP EP : Type} (g : Graph NP EP) (hg : g.Built) :
    (∀ x ∈ g.edges, x.start_node_idx < g.nodes.length ∧ x.end_node_idx < g.nodes.length) ∧
    (∀ x ∈ g.edges, ∃ n1 n2, g.nodes[x.start_node_idx]? = some n1 ∧
      g.nodes[x.end_node_idx]? = some n2) ∧
    ∀ (sim : GraphSimulation NP EP) (n_steps : ℤ), sim.m_graph = g →
      ∃ s1, sim.advance n_steps = some s1 := by
  have hv : g.InRange := hg.in_range
  refine ⟨hv, ?_, ?_⟩
  · intro x hx
    exact ⟨_, _, List.getElem?_eq_getElem (hv x hx).1, List.getElem?_eq_getElem (hv x hx).2⟩
  · intro sim n_steps hsim
    obtain ⟨s1, h1, -⟩ :=
      GraphSimulation.advance_loop_in_range n_steps.toNat sim (by rw [hsim]; exact hv)
    exact ⟨s1, h1⟩

/-- Witness of C30: two nodes, then the edges `(1,0)` and `(0,1)`. -/
theorem built_edges_in_range_witness :
    (∀ x ∈ (⟨[(), ()], [⟨0, 1, 7⟩, ⟨1, 0, 5⟩]⟩ : Graph Unit Nat).edges,
      x.start_node_idx < (⟨[(), ()], [⟨0, 1, 7⟩, ⟨1, 0, 5⟩]⟩ : Graph Unit Nat).nodes.length ∧
      x.end_node_idx < (⟨[(), ()], [⟨0, 1, 7⟩, ⟨1, 0, 5⟩]⟩ : Graph Unit Nat).nodes.length) ∧
    (∀ x ∈ (⟨[(), ()], [⟨0, 1, 7⟩, ⟨1, 0, 5⟩]⟩ : Graph Unit Nat).edges, ∃ n1 n2,
      (⟨[(), ()], [⟨0, 1, 7⟩, ⟨1, 0, 5⟩]⟩ : Graph Unit Nat).nodes[x.start_node_idx]? = some n1 ∧
      (⟨[(), ()], [⟨0, 1, 7⟩, ⟨1, 0, 5⟩]⟩ : Graph Unit Nat).nodes[x.end_node_idx]? = some n2) ∧
    ∀ (sim : GraphSimulation Unit Nat) (n_steps : ℤ),
      sim.m_graph = ⟨[(), ()], [⟨0, 1, 7⟩, ⟨1, 0, 5⟩]⟩ → ∃ s1, sim.advance n_steps = some s1 :=
  built_edges_in_range ⟨[(), ()], [⟨0, 1, 7⟩, ⟨1, 0, 5⟩]⟩
    ⟨[GraphOp.add_node (), GraphOp.add_node (), GraphOp.add_edge 1 0 5, GraphOp.add_edge 0 1 7],
      by decide⟩

end epi

/-! ## Loops that add up -/

theorem for_each_sum (body : ℚ → Nat → Option ℚ) (f : Nat → ℚ) (n : Nat) (acc : ℚ)
    (h : ∀ j a, j < n → body a j = some (a + f j)) :
    for_each body (List.range n) acc = some (acc + ((List.range n).map f).sum) := by
  obtain ⟨s1, h1, h2⟩ := for_each_range body
    (fun j s => s = acc + ((List.range j).map f).sum) n acc (by simp)
    (fun j s hj hI => by
      refine ⟨s + f j, h j s hj, ?_⟩
      simp only at hI ⊢
      rw [hI, List.range_succ, List.map_append, List.sum_append]
      simp [add_assoc])
  rw [h1, h2]

namespace mio

/-! ## Distance of two results -/

theorem sqr_sum_range : ∀ (E : Nat) (a b : List ℚ), a.length = E → b.length = E →
    (vmul (vsub a b) (vsub a b)).sum =
      ((List.range E).map (fun e => ((a[e]?).getD 0 - (b[e]?).getD 0) ^ 2)).sum := by
  intro E
  induction E with
  | zero =>
    intro a b ha hb
    rw [List.length_eq_zero.1 ha]
    rfl
  | succ E ih =>
    intro a b ha hb
    match a, b, ha, hb with
    | x :: xs, y :: ys, ha, hb =>
      have h := ih xs ys (by simpa using ha) (by simpa using hb)
      simp only [vmul, vsub, List.zipWith_cons_cons, List.sum_cons] at h ⊢
      rw [h, List.range_succ_eq_map, List.map_cons, List.sum_cons, List.map_map]
      simp only [List.getElem?_cons_zero, Option.getD_some, pow_two]
      congr 2
      refine List.map_congr_left ?_
      intro e _
      simp only [Function.comp, Nat.succ_eq_add_one, List.getElem?_cons_succ]

theorem SameShape.node {r1 r2 : List TimeSeries} {E : Nat} (h : SameShape r1 r2 E) {n : Nat}
    (hn : n < r1.length) :
    ∃ ts1 ts2, r1[n]? = some ts1 ∧ r2[n]? = some ts2 ∧ ts1.data.length = ts2.data.length ∧
      ts1.num_elements = E ∧ ts2.num_elements = E ∧ ts1.wf ∧ ts2.wf := by
  have hn2 : n < r2.length := by rw [← h.1]; exact hn
  have hz : n < (r1.zip r2).length := by simp [List.length_zip, hn, hn2]
  have hmem : (r1[n], r2[n]) ∈ r1.zip r2 := by
    have := List.getElem_mem hz
    rwa [List.getElem_zip] at this
  exact ⟨r1[n], r2[n], List.getElem?_eq_getElem hn, List.getElem?_eq_getElem hn2, h.2 _ hmem⟩

theorem run_value_eq (r : List TimeSeries) (n t e : Nat) (ts : TimeSeries) (p : ℚ × List ℚ)
    (h1 : r[n]? = some ts) (h2 : ts.data[t]? = some p) :
    run_value r n t e = (p.2[e]?).getD 0 := by
  simp only [run_value, read_elem, read_value, h1, h2]

theorem time_points_at_eq (r : List TimeSeries) (n : Nat) (ts : TimeSeries)
    (h1 : r[n]? = some ts) : time_points_at r n = ts.data.length := by
  simp only [time_points_at, h1]

theorem distance_node_eq (r1 r2 : List TimeSeries) (E n : Nat) (h : SameShape r1 r2 E)
    (hn : n < r1.length) (acc : ℚ) :
    distance_node r1 r2 acc n = some (acc +
      ((List.range (time_points_at r1 n)).map (fun t =>
        ((List.range E).map (fun e =>
          (run_value r1 n t e - run_value r2 n t e) ^ 2)).sum)).sum) := by
  obtain ⟨ts1, ts2, h1, h2, hT, hE1, hE2, hw1, hw2⟩ := h.node hn
  simp only [distance_node, h1, h2, TimeSeries.get_num_time_points,
    time_points_at_eq r1 n ts1 h1]
  refine for_each_sum _ _ _ _ ?_
  intro t a ht
  have ht2 : t < ts2.data.length := by rw [← hT]; exact ht
  have hp1 : ts1.data[t]? = some (ts1.data[t]) := List.getElem?_eq_getElem ht
  have hp2 : ts2.data[t]? = some (ts2.data[t]) := List.getElem?_eq_getElem ht2
  have hl1 : (ts1.data[t]).2.length = E := by rw [hw1 _ (List.getElem_mem ht), hE1]
  have hl2 : (ts2.data[t]).2.length = E := by rw [hw2 _ (List.getElem_mem ht2), hE2]
  simp only [distance_time, hp1, hp2, hl1, hl2, if_true]
  rw [sqr_sum_range E _ _ hl1 hl2]
  congr 3
  refine List.map_congr_left ?_
  intro e _
  rw [run_value_eq r1 n t e ts1 _ h1 hp1, run_value_eq r2 n t e ts2 _ h2 hp2]

theorem result_distance_2norm_eq (sqrt : ℚ → ℚ) (r1 r2 : List TimeSeries) (E : Nat)
    (h : SameShape r1 r2 E) (hN : 0 < r1.length) (hT : 0 < time_points_at r1 0) (hE : 0 < E) :
    result_distance_2norm sqrt r1 r2 = some (sqrt (squared_difference_sum r1 r2 E)) := by
  obtain ⟨ts1, ts2, h1, h2, -, hE1, -, -, -⟩ := h.node hN
  have hsum := for_each_sum (distance_node r1 r2) (fun n =>
      ((List.range (time_points_at r1 n)).map (fun t =>
        ((List.range E).map (fun e =>
          (run_value r1 n t e - run_value r2 n t e) ^ 2)).sum)).sum) r1.length 0
    (fun j a hj => distance_node_eq r1 r2 E j h hj a)
  rw [time_points_at_eq r1 0 ts1 h1] at hT
  unfold result_distance_2norm
  rw [if_pos h.1]
  simp only [h1, TimeSeries.get_num_time_points, TimeSeries.get_num_elements, hE1, gt_iff_lt,
    hT, hE, if_true, hsum, zero_add]
  rfl

end mio

namespace mio

theorem InfectionState.index_lt (c : InfectionState) : c.index < 8 := by
  cases c <;> decide

theorem distance_node_compartment_eq (r1 r2 : List TimeSeries) (E n : Nat)
    (c : InfectionState) (h : SameShape r1 r2 E) (hn : n < r1.length) (acc : ℚ) :
    distance_node_compartment r1 r2 (E / 8) c acc n = some (acc +
      ((List.range (time_points_at r1 n)).map (fun t =>
        ((List.range (E / 8)).map (fun a =>
          (run_value r1 n t (a * 8 + c.index) -
            run_value r2 n t (a * 8 + c.index)) ^ 2)).sum)).sum) := by
  obtain ⟨ts1, ts2, h1, h2, hT, hE1, hE2, hw1, hw2⟩ := h.node hn
  simp only [distance_node_compartment, h1, h2, TimeSeries.get_num_time_points,
    time_points_at_eq r1 n ts1 h1]
  refine for_each_sum _ _ _ _ ?_
  intro t a ht
  have ht2 : t < ts2.data.length := by rw [← hT]; exact ht
  have hp1 : ts1.data[t]? = some (ts1.data[t]) := List.getElem?_eq_getElem ht
  have hp2 : ts2.data[t]? = some (ts2.data[t]) := List.getElem?_eq_getElem ht2
  have hl1 : (ts1.data[t]).2.length = E := by rw [hw1 _ (List.getElem_mem ht), hE1]
  have hl2 : (ts2.data[t]).2.length = E := by rw [hw2 _ (List.getElem_mem ht2), hE2]
  simp only [distance_time_compartment, hp1, hp2]
  refine for_each_sum _ _ _ _ ?_
  intro k b hk
  have hc := c.index_lt
  have hi1 : k * 8 + c.index < (ts1.data[t]).2.length := by rw [hl1]; omega
  have hi2 : k * 8 + c.index < (ts2.data[t]).2.length := by rw [hl2]; omega
  simp only [distance_age, InfectionState.Count, List.getElem?_eq_getElem hi1,
    List.getElem?_eq_getElem hi2]
  rw [run_value_eq r1 n t _ ts1 _ h1 hp1, run_value_eq r2 n t _ ts2 _ h2 hp2,
    List.getElem?_eq_getElem hi1, List.getElem?_eq_getElem hi2]
  simp only [Option.getD_some, pow_two]

theorem result_distance_2norm_compartment_eq (sqrt : ℚ → ℚ) (r1 r2 : List TimeSeries)
    (E : Nat) (c : InfectionState) (h : SameShape r1 r2 E) (hN : 0 < r1.length)
    (hT : 0 < time_points_at r1 0) (hE : 0 < E) :
    result_distance_2norm_compartment sqrt r1 r2 c =
      some (sqrt (squared_difference_sum_compartment r1 r2 E c.index)) := by
  obtain ⟨ts1, ts2, h1, h2, -, hE1, -, -, -⟩ := h.node hN
  have hsum := for_each_sum (distance_node_compartment r1 r2 (E / 8) c) (fun n =>
      ((List.range (time_points_at r1 n)).map (fun t =>
        ((List.range (E / 8)).map (fun a =>
          (run_value r1 n t (a * 8 + c.index) -
            run_value r2 n t (a * 8 + c.index)) ^ 2)).sum)).sum) r1.length 0
    (fun j a hj => distance_node_compartment_eq r1 r2 E j c h hj a)
  rw [time_points_at_eq r1 0 ts1 h1] at hT
  unfold result_distance_2norm_compartment
  rw [if_pos h.1]
  simp only [h1, TimeSeries.get_num_time_points, TimeSeries.get_num_elements, hE1, gt_iff_lt,
    hT, hE, if_true, InfectionState.Count, hsum, zero_add]
  rfl

theorem SameShape.refl_left {r1 r2 : List TimeSeries} {E : Nat} (h : SameShape r1 r2 E) :
    SameShape r1 r1 E := by
  refine ⟨rfl, ?_⟩
  intro p hp
  obtain ⟨n, hn, hpn⟩ := List.getElem_of_mem hp
  rw [List.getElem_zip] at hpn
  have hn1 : n < r1.length := by
    simp only [List.length_zip, Nat.min_self] at hn
    exact hn
  obtain ⟨ts1, ts2, h1, -, -, hE1, -, hw1, -⟩ := h.node hn1
  have hts : r1[n] = ts1 := by
    rw [List.getElem?_eq_getElem hn1] at h1
    exact Option.some.inj h1
  rw [← hpn, hts]
  exact ⟨rfl, hE1, hE1, hw1, hw1⟩

theorem squared_difference_sum_self (r : List TimeSeries) (E : Nat) :
    squared_difference_sum r r E = 0 := by
  simp [squared_difference_sum]

theorem squared_difference_sum_compartment_self (r : List TimeSeries) (E c : Nat) :
    squared_difference_sum_compartment r r E c = 0 := by
  simp [squared_difference_sum_compartment]

/-- C21: for all result lists `r1` and `r2` with the same non-empty shape,
`result_distance_2norm(r1, r2)` returns the square root of the sum, over all nodes, time
points and elements, of the squared difference of the corresponding entries (exact
arithmetic, `sqrt` standing for `std::sqrt`). In particular, with `sqrt 0 = 0`,
`result_distance_2norm(r, r) = 0`, and so is the distance of the overload for one
compartment, for every compartment. -/
theorem result_distance_2norm_value (sqrt : ℚ → ℚ) (r1 r2 : List TimeSeries) (E : Nat)
    (h : SameShape r1 r2 E) (hN : 0 < r1.length) (hT : 0 < time_points_at r1 0)
    (hE : 0 < E) :
    result_distance_2norm sqrt r1 r2 = some (sqrt (squared_difference_sum r1 r2 E)) ∧
    (sqrt 0 = 0 → result_distance_2norm sqrt r1 r1 = some 0 ∧
      ∀ c, result_distance_2norm_compartment sqrt r1 r1 c = some 0) := by
  refine ⟨result_distance_2norm_eq sqrt r1 r2 E h hN hT hE, ?_⟩
  intro h0
  refine ⟨?_, ?_⟩
  · rw [result_distance_2norm_eq sqrt r1 r1 E h.refl_left hN hT hE,
      squared_difference_sum_self, h0]
  · intro c
    rw [result_distance_2norm_compartment_eq sqrt r1 r1 E c h.refl_left hN hT hE,
      squared_difference_sum_compartment_self, h0]

/-- Witness of C21: the two result lists of the test `TestDistance.one_compartment`. -/
theorem result_distance_2norm_value_witness :
    result_distance_2norm sqrt_floor distance_test_1 distance_test_2 =
      some (sqrt_floor (squared_difference_sum distance_test_1 distance_test_2 8)) ∧
    (sqrt_floor 0 = 0 → result_distance_2norm sqrt_floor distance_test_1 distance_test_1 = some 0 ∧
      ∀ c, result_distance_2norm_compartment sqrt_floor distance_test_1 distance_test_1 c =
        some 0) :=
  result_distance_2norm_value sqrt_floor distance_test_1 distance_test_2 8 (by decide)
    (by decide) (by decide) (by decide)

/-- C22: for all result lists `r1` and `r2` with the same non-empty shape and every
compartment `c`, `result_distance_2norm(r1, r2, c)` returns the square root of the sum,
over all nodes, time points and age groups `a` in `0 .. num_elements / 8 - 1`, of the
squared difference of the entries at the flat index `a * 8 + c`. The entries of every other
compartment do not influence the result: two result lists of the same shape that agree
with `r1` and `r2` in the entries of compartment `c` have the same distance. -/
theorem result_distance_2norm_compartment_value (sqrt : ℚ → ℚ) (r1 r2 : List TimeSeries)
    (E : Nat) (c : InfectionState) (h : SameShape r1 r2 E) (hN : 0 < r1.length)
    (hT : 0 < time_points_at r1 0) (hE : 0 < E) :
    result_distance_2norm_compartment sqrt r1 r2 c =
      some (sqrt (squared_difference_sum_compartment r1 r2 E c.index)) ∧
    ∀ s1 s2 : List TimeSeries, SameShape s1 s2 E → s1.length = r1.length →
      (∀ n, time_points_at s1 n = time_points_at r1 n) →
      (∀ n t a, run_value s1 n t (a * 8 + c.index) = run_value r1 n t (a * 8 + c.index)) →
      (∀ n t a, run_value s2 n t (a * 8 + c.index) = run_value r2 n t (a * 8 + c.index)) →
      result_distance_2norm_compartment sqrt s1 s2 c =
        result_distance_2norm_compartment sqrt r1 r2 c := by
  refine ⟨result_distance_2norm_compartment_eq sqrt r1 r2 E c h hN hT hE, ?_⟩
  intro s1 s2 hs hlen htp hv1 hv2
  rw [result_distance_2norm_compartment_eq sqrt r1 r2 E c h hN hT hE,
    result_distance_2norm_compartment_eq sqrt s1 s2 E c hs (by rw [hlen]; exact hN)
      (by rw [htp]; exact hT) hE]
  simp only [squared_difference_sum_compartment, hlen, htp, hv1, hv2]

/-- Witness of C22: the test `TestDistance.one_compartment` for the compartment Exposed. -/
theorem result_distance_2norm_compartment_value_witness :
    result_distance_2norm_compartment sqrt_floor distance_test_1 distance_test_2
        InfectionState.Exposed =
      some (sqrt_floor (squared_difference_sum_compartment distance_test_1 distance_test_2 8
        InfectionState.Exposed.index)) ∧
    ∀ s1 s2 : List TimeSeries, SameShape s1 s2 8 → s1.length = distance_test_1.length →
      (∀ n, time_points_at s1 n = time_points_at distance_test_1 n) →
      (∀ n t a, run_value s1 n t (a * 8 + InfectionState.Exposed.index) =
        run_value distance_test_1 n t (a * 8 + InfectionState.Exposed.index)) →
      (∀ n t a, run_value s2 n t (a * 8 + InfectionState.Exposed.index) =
        run_value distance_test_2 n t (a * 8 + InfectionState.Exposed.index)) →
      result_distance_2norm_compartment sqrt_floor s1 s2 InfectionState.Exposed =
        result_distance_2norm_compartment sqrt_floor distance_test_1 distance_test_2
          InfectionState.Exposed :=
  result_distance_2norm_compartment_value sqrt_floor distance_test_1 distance_test_2 8
    InfectionState.Exposed (by decide) (by decide) (by decide) (by decide)

end mio

namespace mio

/-! ## Discrete distribution -/

theorem DiscreteDistributionInPlace.loop_spec (u : ℚ) : ∀ (ws : List ℚ) (i : Nat) (acc : ℚ),
    acc ≤ u → u < acc + ws.sum →
    ∃ k, k < ws.length ∧ DiscreteDistributionInPlace.loop u ws i acc = some (i + k) ∧
      u < acc + (ws.take (k + 1)).sum ∧ ∀ j, j < k → acc + (ws.take (j + 1)).sum ≤ u := by
  intro ws
  induction ws with
  | nil =>
    intro i acc h1 h2
    simp only [List.sum_nil, add_zero] at h2
    exact absurd h1 (not_le.2 h2)
  | cons w ws ih =>
    intro i acc h1 h2
    by_cases h : u < acc + w
    · refine ⟨0, by simp, ?_, by simpa using h, fun j hj => absurd hj (Nat.not_lt_zero j)⟩
      simp only [DiscreteDistributionInPlace.loop, h, if_true, Nat.add_zero]
    · obtain ⟨k, hk, hr, hlt, hmin⟩ := ih (i + 1) (acc + w) (not_lt.1 h)
        (by rw [List.sum_cons] at h2; linarith)
      refine ⟨k + 1, by simpa using hk, ?_, ?_, ?_⟩
      · simp only [DiscreteDistributionInPlace.loop, h, if_false, hr]
        congr 1
        omega
      · rw [List.take_succ_cons, List.sum_cons]
        linarith
      · intro j hj
        cases j with
        | zero =>
          simp only [Nat.zero_add, List.take_succ_cons, List.take_zero, List.sum_cons,
            List.sum_nil, add_zero]
          exact not_lt.1 h
        | succ j =>
          have := hmin j (by omega)
          rw [List.take_succ_cons, List.sum_cons]
          linarith

theorem sum_take_mono (ws : List ℚ) (hw : ∀ w ∈ ws, 0 ≤ w) (a b : Nat) (hab : a ≤ b) :
    (ws.take a).sum ≤ (ws.take b).sum := by
  obtain ⟨d, rfl⟩ := Nat.exists_eq_add_of_le hab
  rw [List.take_add, List.sum_append]
  have : 0 ≤ ((ws.drop a).take d).sum :=
    List.sum_nonneg (fun x hx => hw x ((List.drop_sublist _ _).subset
      ((List.take_sublist _ _).subset hx)))
  linarith

theorem sum_take_succ_getD (ws : List ℚ) (k : Nat) (hk : k < ws.length) :
    (ws.take (k + 1)).sum = (ws.take k).sum + ws.getD k 0 := by
  rw [List.sum_take_succ ws k hk, List.getD_eq_getElem ws 0 hk]

/-- C23: for every weight list `w_0..w_(n-1)` with `n >= 2`, all weights non-negative, and
every uniform draw `u` with `0 <= u < S` for the sum `S` of the weights (so `S > 0`),
`DiscreteDistributionInPlace` returns the smallest index `i` with
`u < w_0 + ... + w_i`. The result lies in `[0, n)`, the weight `w_i` is positive, an index
`k` is returned exactly for the draws `u` in `[w_0 + ... + w_(k-1), w_0 + ... + w_k)`, an
interval of length `w_k`, and the final `assert(false)` is not reached. -/
theorem discrete_distribution_selects (weights : List ℚ) (uniform : ℚ → ℚ → ℚ)
    (hn : 2 ≤ weights.length) (hw : ∀ w ∈ weights, 0 ≤ w)
    (hu : 0 ≤ uniform 0 weights.sum ∧ uniform 0 weights.sum < weights.sum) :
    0 < weights.sum ∧
    ∃ i, DiscreteDistributionInPlace.draw weights uniform = some i ∧ i < weights.length ∧
      uniform 0 weights.sum < (weights.take (i + 1)).sum ∧
      (∀ j, j < i → (weights.take (j + 1)).sum ≤ uniform 0 weights.sum) ∧
      0 < weights.getD i 0 ∧
      ∀ k, k < weights.length →
        (i = k ↔ (weights.take k).sum ≤ uniform 0 weights.sum ∧
          uniform 0 weights.sum < (weights.take k).sum + weights.getD k 0) := by
  refine ⟨lt_of_le_of_lt hu.1 hu.2, ?_⟩
  have hfold : weights.foldl (fun a b => a + b) 0 = weights.sum := by
    rw [List.sum_eq_foldl]
  obtain ⟨k, hk, hr, hlt, hmin⟩ := DiscreteDistributionInPlace.loop_spec
    (uniform 0 weights.sum) weights 0 0 hu.1 (by rw [zero_add]; exact hu.2)
  simp only [zero_add] at hr hlt hmin
  have hlow : (weights.take k).sum ≤ uniform 0 weights.sum := by
    cases k with
    | zero => simpa using hu.1
    | succ k => exact hmin k (by omega)
  have hsucc := sum_take_succ_getD weights k hk
  refine ⟨k, ?_, hk, hlt, hmin, by linarith, ?_⟩
  · unfold DiscreteDistributionInPlace.draw
    rw [if_neg (by omega)]
    simp only [hfold]
    exact hr
  · intro k1 hk1
    constructor
    · intro h
      subst h
      exact ⟨hlow, by linarith⟩
    · rintro ⟨h1, h2⟩
      rw [← sum_take_succ_getD weights k1 hk1] at h2
      rcases Nat.lt_trichotomy k k1 with h | h | h
      · have := sum_take_mono weights hw (k + 1) k1 (by omega)
        linarith
      · exact h
      · have := hmin k1 h
        linarith

/-- Witness of C23: the weights 1, 0, 2, 3 and the draw 1, which selects index 2 and not
the index 1 of weight 0. -/
theorem discrete_distribution_selects_witness :
    0 < ([1, 0, 2, 3] : List ℚ).sum ∧
    ∃ i, DiscreteDistributionInPlace.draw [1, 0, 2, 3] (fun _ _ => 1) = some i ∧
      i < ([1, 0, 2, 3] : List ℚ).length ∧
      (fun (_ : ℚ) (_ : ℚ) => (1 : ℚ)) 0 ([1, 0, 2, 3] : List ℚ).sum <
        (([1, 0, 2, 3] : List ℚ).take (i + 1)).sum ∧
      (∀ j, j < i → (([1, 0, 2, 3] : List ℚ).take (j + 1)).sum ≤
        (fun (_ : ℚ) (_ : ℚ) => (1 : ℚ)) 0 ([1, 0, 2, 3] : List ℚ).sum) ∧
      0 < ([1, 0, 2, 3] : List ℚ).getD i 0 ∧
      ∀ k, k < ([1, 0, 2, 3] : List ℚ).length →
        (i = k ↔ (([1, 0, 2, 3] : List ℚ).take k).sum ≤
            (fun (_ : ℚ) (_ : ℚ) => (1 : ℚ)) 0 ([1, 0, 2, 3] : List ℚ).sum ∧
          (fun (_ : ℚ) (_ : ℚ) => (1 : ℚ)) 0 ([1, 0, 2, 3] : List ℚ).sum <
            (([1, 0, 2, 3] : List ℚ).take k).sum + ([1, 0, 2, 3] : List ℚ).getD k 0) :=
  discrete_distribution_selects [1, 0, 2, 3] (fun _ _ => 1) (by decide)
    (by intro w hw; simp at hw; rcases hw with h | h | h | h <;> rw [h] <;> norm_num)
    (by norm_num)

end mio

namespace mio

/-! ## Parsing a date -/

theorem isDigit_iff (c : Char) : c.isDigit = true ↔ 48 ≤ c.toNat ∧ c.toNat ≤ 57 := by
  simp only [Char.isDigit, Bool.and_eq_true, decide_eq_true_eq, Char.toNat]
  constructor
  · rintro ⟨h1, h2⟩
    exact ⟨h1, h2⟩
  · rintro ⟨h1, h2⟩
    exact ⟨h1, h2⟩

theorem decimal_value_foldl_lt (l : List Char) (hl : ∀ c ∈ l, c.isDigit = true) :
    ∀ acc : ℕ, l.foldl (fun acc c => 10 * acc + (c.toNat - '0'.toNat)) acc <
      (acc + 1) * 10 ^ l.length := by
  induction l with
  | nil =>
    intro acc
    simp
  | cons c cs ih =>
    intro acc
    have hc := (isDigit_iff c).1 (hl c (List.mem_cons_self c cs))
    have h0 : '0'.toNat = 48 := rfl
    have := ih (fun x hx => hl x (List.mem_cons_of_mem c hx)) (10 * acc + (c.toNat - '0'.toNat))
    simp only [List.foldl_cons, List.length_cons]
    refine lt_of_lt_of_le this ?_
    rw [pow_succ, Nat.mul_comm (10 ^ cs.length) 10, ← Nat.mul_assoc]
    refine Nat.mul_le_mul_right _ ?_
    rw [h0]
    omega

theorem stoi_digits (l : List Char) (hne : l ≠ []) (hl : ∀ c ∈ l, c.isDigit = true)
    (hlen : l.length ≤ 4) : stoi l = some (decimal_value l : ℤ) := by
  match l, hne with
  | c :: cs, _ =>
    have hc := (isDigit_iff c).1 (hl c (List.mem_cons_self c cs))
    have hsp : isspace c = false := by
      have h1 : c ≠ ' ' := by
        intro h
        rw [h] at hc
        exact absurd hc.1 (by decide)
      simp only [isspace, h1, decide_False, Bool.false_or, Bool.and_eq_false_imp,
        decide_eq_true_eq, decide_eq_false_iff_not, not_le]
      intro _
      omega
    have hminus : c ≠ '-' := by
      intro h
      rw [h] at hc
      exact absurd hc.1 (by decide)
    have hplus : c ≠ '+' := by
      intro h
      rw [h] at hc
      exact absurd hc.1 (by decide)
    have htake : (c :: cs).takeWhile Char.isDigit = c :: cs :=
      List.takeWhile_eq_self_iff.2 hl
    have hbound := decimal_value_foldl_lt (c :: cs) hl 0
    have hpow : 10 ^ (c :: cs).length ≤ 10 ^ 4 := Nat.pow_le_pow_right (by norm_num) hlen
    have hdv : decimal_value (c :: cs) < 10000 := by
      unfold decimal_value
      omega
    unfold stoi
    rw [List.dropWhile_cons_of_neg (by rw [hsp]; exact Bool.false_ne_true)]
    simp only [List.head?_cons, Option.some.injEq, hminus, hplus, or_self, if_false, htake,
      decide_False, Bool.false_eq_true]
    rw [if_neg (List.cons_ne_nil c cs), if_pos ⟨by omega, by omega⟩]

/-- C25: for every string of 10 characters whose year field (characters 0..3), month field
(characters 5..6) and day field (characters 8..9) are decimal digits, as in the fixed form
YYYY.MM.DD, `parse_date` returns the date whose year, month and day are the numbers in
these fields. -/
theorem parse_date_fixed_form (s : List Char) (hlen : s.length = 10)
    (hy : ∀ c ∈ s.take 4, c.isDigit = true) (hm : ∀ c ∈ (s.drop 5).take 2, c.isDigit = true)
    (hd : ∀ c ∈ (s.drop 8).take 2, c.isDigit = true) :
    parse_date s = some ⟨decimal_value (s.take 4), decimal_value ((s.drop 5).take 2),
      decimal_value ((s.drop 8).take 2)⟩ := by
  have h1 : stoi (s.take 4) = some (decimal_value (s.take 4) : ℤ) :=
    stoi_digits _ (by intro h; have := congrArg List.length h; simp [hlen] at this) hy
      (by simp)
  have h2 : stoi ((s.drop 5).take 2) = some (decimal_value ((s.drop 5).take 2) : ℤ) :=
    stoi_digits _ (by intro h; have := congrArg List.length h; simp [hlen] at this) hm
      (by simp)
  have h3 : stoi ((s.drop 8).take 2) = some (decimal_value ((s.drop 8).take 2) : ℤ) :=
    stoi_digits _ (by intro h; have := congrArg List.length h; simp [hlen] at this) hd
      (by simp)
  unfold parse_date substr
  rw [if_pos (by omega), if_pos (by omega), if_pos (by omega)]
  simp only [List.drop_zero, Option.some_bind, h1, h2, h3]

/-- Witness of C25: the string "2020.02.29". -/
theorem parse_date_fixed_form_witness :
    parse_date ['2', '0', '2', '0', '.', '0', '2', '.', '2', '9'] =
      some ⟨decimal_value (['2', '0', '2', '0', '.', '0', '2', '.', '2', '9'].take 4),
        decimal_value ((['2', '0', '2', '0', '.', '0', '2', '.', '2', '9'].drop 5).take 2),
        decimal_value ((['2', '0', '2', '0', '.', '0', '2', '.', '2', '9'].drop 8).take 2)⟩ :=
  parse_date_fixed_form ['2', '0', '2', '0', '.', '0', '2', '.', '2', '9'] (by decide)
    (by decide) (by decide) (by decide)

end mio

namespace mio

/-! ## Population cube -/

theorem flat_index_lt : ∀ (sizes idx : List Nat), valid_index sizes idx →
    flat_index sizes idx < sizes.prod
  | [], [], _ => by simp [flat_index]
  | size :: sizes, i :: idx, h => by
    have ih := flat_index_lt sizes idx h.2
    have h1 : i < size := h.1
    simp only [flat_index, List.prod_cons]
    calc i * sizes.prod + flat_index sizes idx < i * sizes.prod + sizes.prod := by omega
      _ = (i + 1) * sizes.prod := by ring
      _ ≤ size * sizes.prod := Nat.mul_le_mul_right _ h1
  | [], _ :: _, h => absurd h (fun h => h)
  | _ :: _, [], h => absurd h (fun h => h)

theorem tuple_flat_index : ∀ (sizes idx : List Nat), valid_index sizes idx →
    tuple_index sizes (flat_index sizes idx) = idx
  | [], [], _ => rfl
  | size :: sizes, i :: idx, h => by
    have ih := tuple_flat_index sizes idx h.2
    have hlt := flat_index_lt sizes idx h.2
    have hpos : 0 < sizes.prod := by omega
    simp only [flat_index, tuple_index]
    rw [Nat.mul_comm i, Nat.mul_add_div hpos, Nat.mul_add_mod, Nat.mod_eq_of_lt hlt,
      Nat.div_eq_of_lt hlt, ih, Nat.add_zero]
  | [], _ :: _, h => absurd h (fun h => h)
  | _ :: _, [], h => absurd h (fun h => h)

theorem flat_index_injective (sizes idx1 idx2 : List Nat) (h1 : valid_index sizes idx1)
    (h2 : valid_index sizes idx2) (h : flat_index sizes idx1 = flat_index sizes idx2) :
    idx1 = idx2 := by
  rw [← tuple_flat_index sizes idx1 h1, ← tuple_flat_index sizes idx2 h2, h]

theorem sum_split (ks : List Nat) (k0 : Nat) (f : ℕ → ℚ) (hnd : ks.Nodup) (hk : k0 ∈ ks) :
    (ks.map f).sum = ((ks.filter (fun k => decide (k ≠ k0))).map f).sum + f k0 := by
  induction ks with
  | nil => simp at hk
  | cons a as ih =>
    rw [List.nodup_cons] at hnd
    by_cases ha : a = k0
    · subst ha
      have hall : as.filter (fun k => decide (k ≠ a)) = as := by
        rw [List.filter_eq_self]
        intro x hx
        have : x ≠ a := fun hxa => hnd.1 (hxa ▸ hx)
        simpa using this
      rw [List.filter_cons_of_neg (by simp), hall, List.map_cons, List.sum_cons]
      ring
    · have hk2 : k0 ∈ as := by
        rcases List.mem_cons.1 hk with h | h
        · exact absurd h.symm ha
        · exact h
      rw [List.filter_cons_of_pos (by simpa using ha), List.map_cons, List.sum_cons,
        List.map_cons, List.sum_cons, ih hnd.2 hk2]
      ring

theorem sum_eq_range (l : List ℚ) :
    l.sum = ((List.range l.length).map (fun k => l.getD k 0)).sum := by
  induction l with
  | nil => rfl
  | cons x xs ih =>
    rw [List.length_cons, List.range_succ_eq_map, List.map_cons, List.sum_cons, List.sum_cons,
      List.map_map]
    congr 1

theorem getD_set (l : List ℚ) (k0 k : Nat) (x : ℚ) (hk0 : k0 < l.length) :
    (l.set k0 x).getD k 0 = if k = k0 then x else l.getD k 0 := by
  simp only [List.getD_eq_getElem?_getD, List.getElem?_set]
  by_cases h : k = k0
  · subst h
    simp [hk0]
  · rw [if_neg (fun h1 => h h1.symm), if_neg h]

namespace Populations

theorem sum_others_set (m : Populations) (ks : List Nat) (k0 : Nat) (x : ℚ)
    (hk0 : k0 < m.y.length) :
    sum_others { m with y := m.y.set k0 x } ks k0 = sum_others m ks k0 := by
  unfold sum_others
  congr 1
  refine List.map_congr_left ?_
  intro k hk
  have hne : k ≠ k0 := by simpa using (List.mem_filter.1 hk).2
  simp only [getD_set m.y k0 k x hk0, if_neg hne]

theorem get_total_eq (m : Populations) (k0 : Nat) (hk0 : k0 < m.y.length) :
    m.get_total = m.sum_others (List.range m.y.length) k0 + m.y.getD k0 0 := by
  unfold get_total sum_others
  rw [sum_eq_range m.y]
  exact sum_split _ k0 _ (List.nodup_range _) (List.mem_range.2 hk0)

theorem get_group_total_eq (m : Populations) (D key k0 : Nat) (hk0 : k0 ∈ m.group D key) :
    m.get_group_total D key = m.sum_others (m.group D key) k0 + m.y.getD k0 0 := by
  unfold get_group_total sum_others
  exact sum_split _ k0 _ ((List.nodup_range _).filter _) hk0

theorem mem_group (m : Populations) (D : Nat) (idx : List Nat)
    (hidx : valid_index m.sizes idx) (hlt : m.get_flat_index idx < m.y.length) :
    m.get_flat_index idx ∈ m.group D (idx.getD D 0) := by
  unfold group get_flat_index
  rw [List.mem_filter]
  refine ⟨List.mem_range.2 hlt, ?_⟩
  rw [tuple_flat_index m.sizes idx hidx]
  simp

end Populations

end mio

namespace mio

namespace Populations

theorem set_difference_from_total_eq (m : Populations) (idx : List Nat) (v : ℚ) (hm : m.wf)
    (hidx : valid_index m.sizes idx)
    (hv : m.sum_others (List.range m.y.length) (m.get_flat_index idx) ≤ v) :
    m.get_flat_index idx < m.y.length ∧
    m.set_difference_from_total idx v = some { m with
      y := m.y.set (m.get_flat_index idx)
        (v - m.sum_others (List.range m.y.length) (m.get_flat_index idx)) } := by
  have hlt : m.get_flat_index idx < m.y.length := by
    rw [hm]
    exact flat_index_lt m.sizes idx hidx
  have hcur : m.get_total - m.get idx =
      m.sum_others (List.range m.y.length) (m.get_flat_index idx) := by
    rw [m.get_total_eq _ hlt, get]
    ring
  refine ⟨hlt, ?_⟩
  unfold set_difference_from_total
  rw [if_pos ⟨hidx, hlt⟩]
  simp only [hcur, hv, if_true]

theorem set_cell_total (m : Populations) (k0 : Nat) (x : ℚ) (hk0 : k0 < m.y.length) :
    get_total { m with y := m.y.set k0 x } = m.sum_others (List.range m.y.length) k0 + x := by
  have hlt : k0 < ({ m with y := m.y.set k0 x } : Populations).y.length := by
    simp only [List.length_set]
    exact hk0
  rw [get_total_eq _ k0 hlt]
  simp only [List.length_set]
  rw [sum_others_set m _ k0 x hk0, getD_set m.y k0 k0 x hk0, if_pos rfl]

theorem set_difference_from_group_total_eq (m : Populations) (D : Nat) (idx : List Nat)
    (v : ℚ) (hm : m.wf) (hidx : valid_index m.sizes idx) (hD : D < m.sizes.length)
    (hv : m.sum_others (m.group D (idx.getD D 0)) (m.get_flat_index idx) ≤ v) :
    m.get_flat_index idx < m.y.length ∧
    m.set_difference_from_group_total D idx v = some { m with
      y := m.y.set (m.get_flat_index idx)
        (v - m.sum_others (m.group D (idx.getD D 0)) (m.get_flat_index idx)) } := by
  have hlt : m.get_flat_index idx < m.y.length := by
    rw [hm]
    exact flat_index_lt m.sizes idx hidx
  have hcur : m.get_group_total D (idx.getD D 0) - m.get idx =
      m.sum_others (m.group D (idx.getD D 0)) (m.get_flat_index idx) := by
    rw [m.get_group_total_eq D _ _ (m.mem_group D idx hidx hlt), get]
    ring
  refine ⟨hlt, ?_⟩
  unfold set_difference_from_group_total
  rw [if_pos ⟨hidx, hlt, hD⟩]
  simp only [hcur, hv, if_true]

end Populations

/-- C26: for every population cube, every cell index `idx` and every target `v` that is at
least the sum of all cells other than `idx`, `set_difference_from_total(idx, v)` sets the
cell `idx` to `v` minus the sum of all other cells, leaves every other cell unchanged, and
makes `get_total()` equal `v`. Calling it again with a target `v1` (at least the sum of
the other cells) sets the cell to `v1` minus the sum of the other cells: the previous
value of the cell does not enter the sum. -/
theorem set_difference_from_total_sets_cell (m : Populations) (idx : List Nat) (v : ℚ)
    (hm : m.wf) (hidx : valid_index m.sizes idx)
    (hv : m.sum_others (List.range m.y.length) (m.get_flat_index idx) ≤ v) :
    ∃ m1, m.set_difference_from_total idx v = some m1 ∧ m1.sizes = m.sizes ∧
      m1.y.length = m.y.length ∧
      m1.get idx = v - m.sum_others (List.range m.y.length) (m.get_flat_index idx) ∧
      (∀ k, k ≠ m.get_flat_index idx → m1.y.getD k 0 = m.y.getD k 0) ∧
      (∀ idx1, valid_index m.sizes idx1 → idx1 ≠ idx → m1.get idx1 = m.get idx1) ∧
      m1.get_total = v ∧
      ∀ v1, m.sum_others (List.range m.y.length) (m.get_flat_index idx) ≤ v1 →
        ∃ m2, m1.set_difference_from_total idx v1 = some m2 ∧
          m2.get idx = v1 - m.sum_others (List.range m.y.length) (m.get_flat_index idx) ∧
          (∀ k, k ≠ m.get_flat_index idx → m2.y.getD k 0 = m.y.getD k 0) ∧
          m2.get_total = v1 := by
  obtain ⟨hlt, h1⟩ := m.set_difference_from_total_eq idx v hm hidx hv
  have hother : ∀ (x : ℚ) (k : Nat), k ≠ m.get_flat_index idx →
      (m.y.set (m.get_flat_index idx) x).getD k 0 = m.y.getD k 0 := by
    intro x k hk
    rw [getD_set m.y _ k x hlt, if_neg hk]
  refine ⟨_, h1, rfl, by simp, ?_, hother _, ?_, ?_, ?_⟩
  · exact (getD_set m.y _ _ _ hlt).trans (if_pos rfl)
  · intro idx1 h1v hne
    simp only [Populations.get, Populations.get_flat_index]
    exact hother _ _ (fun h => hne (flat_index_injective m.sizes idx1 idx h1v hidx h))
  · rw [Populations.set_cell_total m _ _ hlt]
    ring
  · intro v1 hv1
    have hm1 : Populations.wf { m with
        y := m.y.set (m.get_flat_index idx)
          (v - m.sum_others (List.range m.y.length) (m.get_flat_index idx)) } := by
      simp only [Populations.wf, List.length_set]
      exact hm
    have hs1 := Populations.sum_others_set m (List.range m.y.length) (m.get_flat_index idx)
      (v - m.sum_others (List.range m.y.length) (m.get_flat_index idx)) hlt
    obtain ⟨hlt2, h2⟩ := Populations.set_difference_from_total_eq _ idx v1 hm1 hidx
      (by
        simp only [List.length_set, Populations.get_flat_index] at hs1 ⊢
        rw [hs1]
        exact hv1)
    simp only [List.length_set, Populations.get_flat_index] at hs1 h2 hlt2 hother ⊢
    rw [hs1] at h2
    refine ⟨_, h2, ?_, ?_, ?_⟩
    · simp only [Populations.get, Populations.get_flat_index, List.set_set]
      exact (getD_set m.y _ _ _ hlt).trans (if_pos rfl)
    · intro k hk
      simp only [List.set_set]
      exact hother _ k hk
    · simp only [List.set_set]
      have := Populations.set_cell_total m (flat_index m.sizes idx)
        (v1 - m.sum_others (List.range m.y.length) (flat_index m.sizes idx)) hlt
      simp only at this
      rw [this]
      ring

/-- Witness of C26: the small cube with the target 1000 for the cell
`(1, 2, 1)`; the other cells hold 300. -/
theorem set_difference_from_total_sets_cell_witness :
    ∃ m1, populations_test.set_difference_from_total [1, 2, 1] 1000 = some m1 ∧
      m1.sizes = populations_test.sizes ∧ m1.y.length = populations_test.y.length ∧
      m1.get [1, 2, 1] = 1000 - populations_test.sum_others
        (List.range populations_test.y.length) (populations_test.get_flat_index [1, 2, 1]) ∧
      (∀ k, k ≠ populations_test.get_flat_index [1, 2, 1] →
        m1.y.getD k 0 = populations_test.y.getD k 0) ∧
      (∀ idx1, valid_index populations_test.sizes idx1 → idx1 ≠ [1, 2, 1] →
        m1.get idx1 = populations_test.get idx1) ∧
      m1.get_total = 1000 ∧
      ∀ v1, populations_test.sum_others (List.range populations_test.y.length)
          (populations_test.get_flat_index [1, 2, 1]) ≤ v1 →
        ∃ m2, m1.set_difference_from_total [1, 2, 1] v1 = some m2 ∧
          m2.get [1, 2, 1] = v1 - populations_test.sum_others
            (List.range populations_test.y.length)
            (populations_test.get_flat_index [1, 2, 1]) ∧
          (∀ k, k ≠ populations_test.get_flat_index [1, 2, 1] →
            m2.y.getD k 0 = populations_test.y.getD k 0) ∧
          m2.get_total = v1 :=
  set_difference_from_total_sets_cell populations_test [1, 2, 1] 1000 (by decide) (by decide)
    (by
      simp only [Populations.sum_others, populations_test, Populations.get_flat_index,
        flat_index, List.length_cons, List.length_nil, List.range, List.range.loop]
      norm_num [List.filter])

end mio

namespace mio

theorem Populations.set_cell_group_total (m : Populations) (D : Nat) (idx : List Nat) (x : ℚ)
    (hidx : valid_index m.sizes idx) (hlt : m.get_flat_index idx < m.y.length) :
    get_group_total { m with y := m.y.set (m.get_flat_index idx) x } D (idx.getD D 0) =
      m.sum_others (m.group D (idx.getD D 0)) (m.get_flat_index idx) + x := by
  have hlt1 : Populations.get_flat_index { m with y := m.y.set (m.get_flat_index idx) x } idx <
      ({ m with y := m.y.set (m.get_flat_index idx) x } : Populations).y.length := by
    simp only [List.length_set]
    exact hlt
  have hmem := Populations.mem_group { m with y := m.y.set (m.get_flat_index idx) x } D idx
    hidx hlt1
  rw [Populations.get_group_total_eq _ D _ _ hmem]
  have hg : Populations.group { m with y := m.y.set (m.get_flat_index idx) x } D
      (idx.getD D 0) = m.group D (idx.getD D 0) := by
    simp only [Populations.group, List.length_set]
  rw [hg]
  have hk : Populations.get_flat_index { m with y := m.y.set (m.get_flat_index idx) x } idx =
      m.get_flat_index idx := rfl
  rw [hk, Populations.sum_others_set m _ _ x hlt]
  congr 1
  exact (getD_set m.y _ _ _ hlt).trans (if_pos rfl)

/-- C27: for every population cube, every dimension `D`, every cell index `idx` and every
target `v` that is at least the sum of the other cells sharing the key of `idx` in
dimension `D`, `set_difference_from_group_total<D>(idx, v)` sets the cell `idx` so that
the group total of that key equals `v`, and leaves every other cell, inside and outside
that group, unchanged; so the overall total changes by exactly the change of the cell
`idx`. -/
theorem set_difference_from_group_total_sets_cell (m : Populations) (D : Nat)
    (idx : List Nat) (v : ℚ) (hm : m.wf) (hidx : valid_index m.sizes idx)
    (hD : D < m.sizes.length)
    (hv : m.sum_others (m.group D (idx.getD D 0)) (m.get_flat_index idx) ≤ v) :
    ∃ m1, m.set_difference_from_group_total D idx v = some m1 ∧ m1.sizes = m.sizes ∧
      m1.y.length = m.y.length ∧
      m1.get idx = v - m.sum_others (m.group D (idx.getD D 0)) (m.get_flat_index idx) ∧
      m1.get_group_total D (idx.getD D 0) = v ∧
      (∀ k, k ≠ m.get_flat_index idx → m1.y.getD k 0 = m.y.getD k 0) ∧
      (∀ idx1, valid_index m.sizes idx1 → idx1 ≠ idx → m1.get idx1 = m.get idx1) ∧
      m1.get_total = m.get_total + (m1.get idx - m.get idx) := by
  obtain ⟨hlt, h1⟩ := m.set_difference_from_group_total_eq D idx v hm hidx hD hv
  have hother : ∀ (x : ℚ) (k : Nat), k ≠ m.get_flat_index idx →
      (m.y.set (m.get_flat_index idx) x).getD k 0 = m.y.getD k 0 := by
    intro x k hk
    rw [getD_set m.y _ k x hlt, if_neg hk]
  have hget : Populations.get { m with
      y := m.y.set (m.get_flat_index idx)
        (v - m.sum_others (m.group D (idx.getD D 0)) (m.get_flat_index idx)) } idx =
      v - m.sum_others (m.group D (idx.getD D 0)) (m.get_flat_index idx) :=
    (getD_set m.y _ _ _ hlt).trans (if_pos rfl)
  refine ⟨_, h1, rfl, by simp, hget, ?_, hother _, ?_, ?_⟩
  · rw [Populations.set_cell_group_total m D idx _ hidx hlt]
    ring
  · intro idx1 h1v hne
    simp only [Populations.get, Populations.get_flat_index]
    exact hother _ _ (fun h => hne (flat_index_injective m.sizes idx1 idx h1v hidx h))
  · rw [hget, Populations.set_cell_total m _ _ hlt, m.get_total_eq _ hlt, Populations.get]
    ring

/-- Witness of C27: the small cube with the target 1000 for the group of continent 1 and
the cell `(1, 2, 1)`; the other cell of the group holds 100, a cell outside it 200. -/
theorem set_difference_from_group_total_sets_cell_witness :
    ∃ m1, populations_test.set_difference_from_group_total 2 [1, 2, 1] 1000 = some m1 ∧
      m1.sizes = populations_test.sizes ∧ m1.y.length = populations_test.y.length ∧
      m1.get [1, 2, 1] = 1000 - populations_test.sum_others
        (populations_test.group 2 (([1, 2, 1] : List Nat).getD 2 0))
        (populations_test.get_flat_index [1, 2, 1]) ∧
      m1.get_group_total 2 (([1, 2, 1] : List Nat).getD 2 0) = 1000 ∧
      (∀ k, k ≠ populations_test.get_flat_index [1, 2, 1] →
        m1.y.getD k 0 = populations_test.y.getD k 0) ∧
      (∀ idx1, valid_index populations_test.sizes idx1 → idx1 ≠ [1, 2, 1] →
        m1.get idx1 = populations_test.get idx1) ∧
      m1.get_total = populations_test.get_total +
        (m1.get [1, 2, 1] - populations_test.get [1, 2, 1]) :=
  set_difference_from_group_total_sets_cell populations_test 2 [1, 2, 1] 1000 (by decide)
    (by decide) (by decide)
    (by
      simp only [Populations.sum_others, Populations.group, populations_test,
        Populations.get_flat_index, flat_index, tuple_index, List.length_cons, List.length_nil,
        List.range, List.range.loop]
      norm_num [List.filter])

end mio

namespace mio

/-! ## Migration factors -/

theorem migration_test_required (capacity : ℚ) :
    test_and_trace_required (migration_test_params capacity) migration_test_y = 45 := by
  simp only [test_and_trace_required, migration_test_params, migration_test_y,
    SecirParams.get_num_groups, InfectionState.Count, InfectionState.index, List.length_cons,
    List.length_nil, List.range, List.range.loop]
  norm_num

theorem effective_risk_within (required capacity risk max_risk : ℚ) (h : required ≤ capacity) :
    effective_risk required capacity risk max_risk = risk := by
  unfold effective_risk
  rw [if_pos h]

theorem effective_risk_linear (required capacity risk max_risk : ℚ) (hc : 0 < capacity)
    (hr : risk ≤ max_risk) (h1 : capacity < required) (h2 : required ≤ 5 * capacity) :
    effective_risk required capacity risk max_risk =
      risk + (max_risk - risk) * (required - capacity) / (4 * capacity) := by
  unfold effective_risk
  rw [if_neg (not_le.2 h1)]
  have h4 : (0 : ℚ) < 4 * capacity := by linarith
  have hfrac0 : 0 ≤ (max_risk - risk) * (required - capacity) / (4 * capacity) :=
    div_nonneg (mul_nonneg (by linarith) (by linarith)) h4.le
  have hfrac1 : (max_risk - risk) * (required - capacity) / (4 * capacity) ≤ max_risk - risk := by
    rw [div_le_iff₀ h4]
    have : required - capacity ≤ 4 * capacity := by linarith
    exact mul_le_mul_of_nonneg_left this (by linarith)
  rw [min_eq_right (by linarith), max_eq_right (by linarith)]

theorem effective_risk_saturated (required capacity risk max_risk : ℚ) (hc : 0 < capacity)
    (hr : risk ≤ max_risk) (h : 5 * capacity ≤ required) :
    effective_risk required capacity risk max_risk = max_risk := by
  unfold effective_risk
  rw [if_neg (not_le.2 (by linarith))]
  have h4 : (0 : ℚ) < 4 * capacity := by linarith
  have hfrac : max_risk - risk ≤ (max_risk - risk) * (required - capacity) / (4 * capacity) := by
    rw [le_div_iff₀ h4]
    have : 4 * capacity ≤ required - capacity := by linarith
    exact mul_le_mul_of_nonneg_left this (by linarith)
  rw [min_eq_left (by linarith), max_eq_right hr]

/-- The embedding reproduces the three expectations of the test
`Secir.get_migration_factors`: the risk for the capacity 45, the maximal risk for the
capacity 45 / 5, and a value strictly in between for the capacity 20. -/
theorem migration_factors_test :
    get_migration_factors (migration_test_params 45) 0 migration_test_y =
      [1, 1, 1, 1 / 4, 1, 1, 1, 1] ∧
    get_migration_factors (migration_test_params (45 / 5)) 0 migration_test_y =
      [1, 1, 1, 1 / 2, 1, 1, 1, 1] ∧
    1 / 4 < (get_migration_factors (migration_test_params 20) 0 migration_test_y).getD 3 0 ∧
    (get_migration_factors (migration_test_params 20) 0 migration_test_y).getD 3 0 < 1 / 2 := by
  have e1 : effective_risk 45 45 (1 / 4) (1 / 2) = 1 / 4 :=
    effective_risk_within _ _ _ _ le_rfl
  have e2 : effective_risk 45 (45 / 5) (1 / 4) (1 / 2) = 1 / 2 :=
    effective_risk_saturated _ _ _ _ (by norm_num) (by norm_num) (by norm_num)
  have e3 : effective_risk 45 20 (1 / 4) (1 / 2) = 21 / 64 := by
    rw [effective_risk_linear _ _ _ _ (by norm_num) (by norm_num) (by norm_num) (by norm_num)]
    norm_num
  have e4 : effective_risk 45 20 4⁻¹ 2⁻¹ = 21 / 64 := by simpa using e3
  refine ⟨?_, ?_, ?_, ?_⟩
  · simp only [get_migration_factors, migration_test_required]
    simp [migration_test_params, migration_test_y, InfectionState.Count,
      InfectionState.index, List.range, List.range.loop]
    simpa using e1
  · simp only [get_migration_factors, migration_test_required]
    simp [migration_test_params, migration_test_y, InfectionState.Count,
      InfectionState.index, List.range, List.range.loop]
    simpa using e2
  · simp only [get_migration_factors, migration_test_required]
    simp [migration_test_params, migration_test_y, InfectionState.Count,
      InfectionState.index, List.range, List.range.loop]
    rw [e4]
    norm_num
  · simp only [get_migration_factors, migration_test_required]
    simp [migration_test_params, migration_test_y, InfectionState.Count,
      InfectionState.index, List.range, List.range.loop]
    rw [e4]
    norm_num

end mio

namespace mio

/-- C28 (counterexample): in the first case of the test `Secir.get_migration_factors`
(risk 0.25, maximal risk 0.5, required test-and-trace rate 45 within the capacity 45) the
factor of the Infected compartment is the risk 0.25, as the test expects, and not the
risk divided by the maximal risk, which is 0.5. -/
theorem migration_factor_not_divided :
    (get_migration_factors (migration_test_params 45) 0 migration_test_y).getD
        InfectionState.Infected.index 0 = 1 / 4 ∧
    effective_risk (test_and_trace_required (migration_test_params 45) migration_test_y) 45
        (1 / 4) (1 / 2) / (1 / 2) = 1 / 2 ∧
    (get_migration_factors (migration_test_params 45) 0 migration_test_y).getD
        InfectionState.Infected.index 0 ≠
      effective_risk (test_and_trace_required (migration_test_params 45) migration_test_y) 45
        (1 / 4) (1 / 2) / (1 / 2) := by
  have h1 : (get_migration_factors (migration_test_params 45) 0 migration_test_y).getD
      InfectionState.Infected.index 0 = 1 / 4 := by
    rw [migration_factors_test.1]
    rfl
  have h2 : effective_risk (test_and_trace_required (migration_test_params 45)
      migration_test_y) 45 (1 / 4) (1 / 2) / (1 / 2) = 1 / 2 := by
    rw [migration_test_required, effective_risk_within _ _ _ _ le_rfl]
    norm_num
  refine ⟨h1, h2, ?_⟩
  rw [h1, h2]
  norm_num

/-- C28 (amended): `get_migration_factors` returns a vector with one entry per (age group,
compartment) that is 1 for every compartment other than Infected and, for the Infected
compartment, equals the effective symptomatic risk `γ` of the test-and-trace nonlinearity
itself: the risk when the required test-and-trace rate is within the capacity, rising
linearly to the maximal risk at five times the capacity, and the maximal risk beyond. -/
theorem migration_factors_value (params : SecirParams) (t : ℚ) (y : List ℚ) (A : Nat)
    (hy : y.length = A * 8) (hc : 0 < params.TestAndTraceCapacity)
    (hr : ∀ a, a < A → params.RiskOfInfectionFromSympomatic.getD a 0 ≤
      params.MaxRiskOfInfectionFromSympomatic.getD a 0) :
    (get_migration_factors params t y).length = A * 8 ∧
    ∀ a, a < A →
      (∀ c : InfectionState, (get_migration_factors params t y)[a * 8 + c.index]? =
        some (if c = InfectionState.Infected then
          effective_risk (test_and_trace_required params y) params.TestAndTraceCapacity
            (params.RiskOfInfectionFromSympomatic.getD a 0)
            (params.MaxRiskOfInfectionFromSympomatic.getD a 0)
          else 1)) ∧
      (test_and_trace_required params y ≤ params.TestAndTraceCapacity →
        effective_risk (test_and_trace_required params y) params.TestAndTraceCapacity
            (params.RiskOfInfectionFromSympomatic.getD a 0)
            (params.MaxRiskOfInfectionFromSympomatic.getD a 0) =
          params.RiskOfInfectionFromSympomatic.getD a 0) ∧
      (params.TestAndTraceCapacity < test_and_trace_required params y →
        test_and_trace_required params y ≤ 5 * params.TestAndTraceCapacity →
        effective_risk (test_and_trace_required params y) params.TestAndTraceCapacity
            (params.RiskOfInfectionFromSympomatic.getD a 0)
            (params.MaxRiskOfInfectionFromSympomatic.getD a 0) =
          params.RiskOfInfectionFromSympomatic.getD a 0 +
            (params.MaxRiskOfInfectionFromSympomatic.getD a 0 -
              params.RiskOfInfectionFromSympomatic.getD a 0) *
            (test_and_trace_required params y - params.TestAndTraceCapacity) /
              (4 * params.TestAndTraceCapacity)) ∧
      (5 * params.TestAndTraceCapacity ≤ test_and_trace_required params y →
        effective_risk (test_and_trace_required params y) params.TestAndTraceCapacity
            (params.RiskOfInfectionFromSympomatic.getD a 0)
            (params.MaxRiskOfInfectionFromSympomatic.getD a 0) =
          params.MaxRiskOfInfectionFromSympomatic.getD a 0) := by
  refine ⟨by simp [get_migration_factors, hy], ?_⟩
  intro a ha
  refine ⟨?_, fun h => effective_risk_within _ _ _ _ h,
    fun h1 h2 => effective_risk_linear _ _ _ _ hc (hr a ha) h1 h2,
    fun h => effective_risk_saturated _ _ _ _ hc (hr a ha) h⟩
  intro c
  have hci := c.index_lt
  have hlt : a * 8 + c.index < y.length := by rw [hy]; omega
  have hmod : (a * 8 + c.index) % 8 = c.index := by omega
  have hdiv : (a * 8 + c.index) / 8 = a := by omega
  have hiff : c.index = InfectionState.Infected.index ↔ c = InfectionState.Infected := by
    cases c <;> simp [InfectionState.index]
  simp only [get_migration_factors, List.getElem?_map, List.getElem?_range hlt,
    Option.map_some', InfectionState.Count, hmod, hdiv, hiff]

/-- Witness of C28 (amended): the test `Secir.get_migration_factors` with the capacity 20. -/
theorem migration_factors_value_witness :
    (get_migration_factors (migration_test_params 20) 0 migration_test_y).length = 1 * 8 ∧
    ∀ a, a < 1 →
      (∀ c : InfectionState,
        (get_migration_factors (migration_test_params 20) 0 migration_test_y)[a * 8 + c.index]? =
        some (if c = InfectionState.Infected then
          effective_risk (test_and_trace_required (migration_test_params 20) migration_test_y)
            (migration_test_params 20).TestAndTraceCapacity
            ((migration_test_params 20).RiskOfInfectionFromSympomatic.getD a 0)
            ((migration_test_params 20).MaxRiskOfInfectionFromSympomatic.getD a 0)
          else 1)) ∧
      (test_and_trace_required (migration_test_params 20) migration_test_y ≤
          (migration_test_params 20).TestAndTraceCapacity →
        effective_risk (test_and_trace_required (migration_test_params 20) migration_test_y)
            (migration_test_params 20).TestAndTraceCapacity
            ((migration_test_params 20).RiskOfInfectionFromSympomatic.getD a 0)
            ((migration_test_params 20).MaxRiskOfInfectionFromSympomatic.getD a 0) =
          (migration_test_params 20).RiskOfInfectionFromSympomatic.getD a 0) ∧
      ((migration_test_params 20).TestAndTraceCapacity <
          test_and_trace_required (migration_test_params 20) migration_test_y →
        test_and_trace_required (migration_test_params 20) migration_test_y ≤
          5 * (migration_test_params 20).TestAndTraceCapacity →
        effective_risk (test_and_trace_required (migration_test_params 20) migration_test_y)
            (migration_test_params 20).TestAndTraceCapacity
            ((migration_test_params 20).RiskOfInfectionFromSympomatic.getD a 0)
            ((migration_test_params 20).MaxRiskOfInfectionFromSympomatic.getD a 0) =
          (migration_test_params 20).RiskOfInfectionFromSympomatic.getD a 0 +
            ((migration_test_params 20).MaxRiskOfInfectionFromSympomatic.getD a 0 -
              (migration_test_params 20).RiskOfInfectionFromSympomatic.getD a 0) *
            (test_and_trace_required (migration_test_params 20) migration_test_y -
              (migration_test_params 20).TestAndTraceCapacity) /
              (4 * (migration_test_params 20).TestAndTraceCapacity)) ∧
      (5 * (migration_test_params 20).TestAndTraceCapacity ≤
          test_and_trace_required (migration_test_params 20) migration_test_y →
        effective_risk (test_and_trace_required (migration_test_params 20) migration_test_y)
            (migration_test_params 20).TestAndTraceCapacity
            ((migration_test_params 20).RiskOfInfectionFromSympomatic.getD a 0)
            ((migration_test_params 20).MaxRiskOfInfectionFromSympomatic.getD a 0) =
          (migration_test_params 20).MaxRiskOfInfectionFromSympomatic.getD a 0) :=
  migration_factors_value (migration_test_params 20) 0 migration_test_y 1 (by decide)
    (by simp [migration_test_params])
    (by
      intro a ha
      have h0 : a = 0 := by omega
      subst h0
      simp only [migration_test_params, List.getD_cons_zero]
      norm_num)

end mio

namespace mio

/-! ## Termination and range of `offset_date_by_days` -/

theorem offset_date_by_days_next_year (date : Date) (n : ℤ) (ha : date.asserted)
    (h : days_in_year date.year < date.day + n + days_before_month date.year date.month) :
    offset_date_by_days date n = offset_date_by_days ⟨date.year + 1, 1, 1⟩
      (date.day + n + days_before_month date.year date.month - days_in_year date.year - 1) := by
  have ha1 := ha
  obtain ⟨hm1, hm2, hd1, hd2⟩ := ha1
  have hdb := days_before_month_le date.year date.month (by omega) (by omega)
  have hnn := days_before_month_nonneg date.year date.month
  have hsucc := days_before_month_succ date.year date.month (by omega)
  have hlen := days_in_month_pos date.year date.month
  have hnext : days_before_month date.year (date.month + 1) ≤ days_in_year date.year := by
    by_cases h12 : date.month = 12
    · rw [h12, show (12 : ℤ) + 1 = 13 from rfl, days_before_month_last]
    · have := days_before_month_le date.year (date.month + 1) (by omega) (by omega)
      omega
  rw [offset_date_by_days, dif_pos (show 0 < date.month ∧ date.month < 13 ∧ 0 < date.day ∧
    date.day < 32 from ha)]
  simp only []
  rw [month_len_eq _ _ (by omega) (by omega), day_in_year_eq date n ha, part_sum_last,
    if_neg (by omega), if_neg (by omega), if_pos (by omega)]

theorem offset_date_by_days_previous_year (date : Date) (n : ℤ) (ha : date.asserted)
    (h : date.day + n + days_before_month date.year date.month ≤ 0) :
    offset_date_by_days date n = offset_date_by_days ⟨date.year - 1, 12, 31⟩
      (date.day + n + days_before_month date.year date.month) := by
  have ha1 := ha
  obtain ⟨hm1, hm2, hd1, hd2⟩ := ha1
  have hnn := days_before_month_nonneg date.year date.month
  rw [offset_date_by_days, dif_pos (show 0 < date.month ∧ date.month < 13 ∧ 0 < date.day ∧
    date.day < 32 from ha)]
  simp only []
  rw [month_len_eq _ _ (by omega) (by omega), day_in_year_eq date n ha, part_sum_last,
    if_neg (by omega), if_neg (by omega), if_neg (by omega)]

/-- C33: for every input date that satisfies the assertion of the function (month in
1..12, day in 1..31, even if the day exceeds the length of the month) and every integer
offset, `offset_date_by_days` returns a calendar-valid date: its month is in 1..12 and its
day is between 1 and the length of that month in the returned year. -/
theorem offset_date_is_calendar_valid (date : Date) (n : ℤ)
    (h : 0 < date.month ∧ date.month < 13 ∧ 0 < date.day ∧ date.day < 32) :
    ∃ d, offset_date_by_days date n = some d ∧ 1 ≤ d.month ∧ d.month ≤ 12 ∧ 1 ≤ d.day ∧
      d.day ≤ days_in_month d.year d.month := by
  obtain ⟨d, h1, h2, -⟩ := offset_date_by_days_spec _ date n rfl h
  exact ⟨d, h1, h2⟩

/-- Witness of C33: 30 February 2021, which satisfies the assertion, with the offset 0
gives 2 March 2021. -/
theorem offset_date_is_calendar_valid_witness :
    ∃ d, offset_date_by_days ⟨2021, 2, 30⟩ 0 = some d ∧ 1 ≤ d.month ∧ d.month ≤ 12 ∧
      1 ≤ d.day ∧ d.day ≤ days_in_month d.year d.month :=
  offset_date_is_calendar_valid ⟨2021, 2, 30⟩ 0 (by decide)

/-- C32 (counterexample): from 31 December 2020 with the offset 1 the function calls
itself for 1 January 2021 with the offset 0: the number of days still to be bridged drops
by 1, not by the 366 days of the year 2020. -/
theorem offset_recursion_not_a_year :
    offset_date_by_days ⟨2020, 12, 31⟩ 1 = offset_date_by_days ⟨2020 + 1, 1, 1⟩
      (31 + 1 + days_before_month 2020 12 - days_in_year 2020 - 1) ∧
    31 + 1 + days_before_month 2020 12 - days_in_year 2020 - 1 = 0 ∧
    days_in_year 2020 = 366 ∧
    ((1 : ℤ).natAbs : ℤ) -
      ((31 + 1 + days_before_month 2020 12 - days_in_year 2020 - 1).natAbs : ℤ) ≠
        days_in_year 2020 :=
  ⟨offset_date_by_days_next_year ⟨2020, 12, 31⟩ 1 (by decide) (by decide), by decide,
    by decide, by decide⟩

/-- C32 (amended): `offset_date_by_days` terminates with a result for every date with
month in 1..12 and day in 1..31 and every integer offset. A recursive call is made exactly
when the target lies behind the last or before the first day of the year of the date: to 1 January
of the next year, respectively to 31 December of the previous year. Each such call
strictly reduces the absolute number of days still to be bridged: by the days of the year
that are bridged, at least one and at most the length of the year, and by exactly the
length of the year when the call starts from 1 January, respectively 31 December (as
every call after the first does). -/
theorem offset_date_by_days_terminates (date : Date) (n : ℤ)
    (h : 0 < date.month ∧ date.month < 13 ∧ 0 < date.day ∧ date.day < 32) :
    (∃ d, offset_date_by_days date n = some d) ∧
    (days_in_year date.year < date.day + n + days_before_month date.year date.month →
      offset_date_by_days date n = offset_date_by_days ⟨date.year + 1, 1, 1⟩
        (date.day + n + days_before_month date.year date.month - days_in_year date.year - 1) ∧
      (date.day + n + days_before_month date.year date.month - days_in_year date.year -
        1).natAbs < n.natAbs ∧
      1 ≤ (n.natAbs : ℤ) - ((date.day + n + days_before_month date.year date.month -
        days_in_year date.year - 1).natAbs : ℤ) ∧
      (n.natAbs : ℤ) - ((date.day + n + days_before_month date.year date.month -
        days_in_year date.year - 1).natAbs : ℤ) ≤ days_in_year date.year ∧
      (date.month = 1 → date.day = 1 →
        (n.natAbs : ℤ) - ((date.day + n + days_before_month date.year date.month -
          days_in_year date.year - 1).natAbs : ℤ) = days_in_year date.year)) ∧
    (date.day + n + days_before_month date.year date.month ≤ 0 →
      offset_date_by_days date n = offset_date_by_days ⟨date.year - 1, 12, 31⟩
        (date.day + n + days_before_month date.year date.month) ∧
      (date.day + n + days_before_month date.year date.month).natAbs < n.natAbs ∧
      1 ≤ (n.natAbs : ℤ) -
        ((date.day + n + days_before_month date.year date.month).natAbs : ℤ) ∧
      (n.natAbs : ℤ) - ((date.day + n + days_before_month date.year date.month).natAbs : ℤ) ≤
        days_in_year date.year ∧
      (date.month = 12 → date.day = 31 →
        (n.natAbs : ℤ) - ((date.day + n + days_before_month date.year date.month).natAbs : ℤ) =
          days_in_year date.year)) ∧
    (0 < date.day + n + days_before_month date.year date.month →
      date.day + n + days_before_month date.year date.month ≤ days_in_year date.year →
      ∃ d, offset_date_by_days date n = some d ∧ d.year = date.year) := by
  have ha : date.asserted := h
  obtain ⟨hm1, hm2, hd1, hd2⟩ := h
  have hdb := days_before_month_le date.year date.month (by omega) (by omega)
  have hnn := days_before_month_nonneg date.year date.month
  refine ⟨?_, ?_, ?_, ?_⟩
  · obtain ⟨d, h1, -, -⟩ := offset_date_by_days_spec _ date n rfl ha
    exact ⟨d, h1⟩
  · intro hrec
    refine ⟨offset_date_by_days_next_year date n ha hrec, by omega, by omega, by omega, ?_⟩
    intro h1 h2
    rw [h1, days_before_month_one] at hrec ⊢
    omega
  · intro hrec
    refine ⟨offset_date_by_days_previous_year date n ha hrec, by omega, by omega, by omega, ?_⟩
    intro h1 h2
    have h12 : days_before_month date.year 12 + 31 = days_in_year date.year := by
      rw [← days_before_month_last, show (13 : ℤ) = 12 + 1 from rfl,
        days_before_month_succ _ 12 (by norm_num)]
      simp [days_in_month]
    rw [h1] at hrec ⊢
    omega
  · intro h1 h2
    rw [offset_date_by_days, dif_pos (show 0 < date.month ∧ date.month < 13 ∧ 0 < date.day ∧
      date.day < 32 from ha)]
    simp only []
    rw [month_len_eq _ _ (by omega) (by omega), day_in_year_eq date n ha, part_sum_last]
    by_cases hc1 : date.day + n > 0 ∧ date.day + n ≤ days_in_month date.year date.month
    · rw [if_pos hc1]
      exact ⟨_, Date.make_some _ _ _ (by omega) (by omega) (by omega)
        (by have := (days_in_month_pos date.year date.month).2; omega), rfl⟩
    · rw [if_neg hc1, if_pos ⟨h1, h2⟩]
      obtain ⟨m, hm1', hm2', hidx, hlo, hhi⟩ :=
        find_month date.year (date.day + n + days_before_month date.year date.month) h2
      rw [hidx]
      have hsub : (if m - 1 > 0 then at_index (part_sum date.year) (m - 1 - 1) else 0) =
          days_before_month date.year m := by
        split_ifs with hgt
        · rw [show m - 1 - 1 = m - 2 by ring, part_sum_eq _ _ (by omega) (by omega)]
        · have : m = 1 := by omega
          rw [this, days_before_month_one]
      rw [hsub, show m - 1 + 1 = m by ring]
      rw [days_before_month_succ _ _ hm1'] at hhi
      have hle := (days_in_month_pos date.year m).2
      have hlo2 : days_before_month date.year m <
          date.day + n + days_before_month date.year date.month := by
        by_cases h2m : 2 ≤ m
        · exact hlo h2m
        · have : m = 1 := by omega
          rw [this, days_before_month_one]
          exact h1
      exact ⟨_, Date.make_some _ _ _ hm1' hm2' (by omega) (by omega), rfl⟩

/-- Witness of C32: 31 December 2020 with the offset 400, which takes two recursive
calls. -/
theorem offset_date_by_days_terminates_witness :
    ∃ d, offset_date_by_days ⟨2020, 12, 31⟩ 400 = some d :=
  (offset_date_by_days_terminates ⟨2020, 12, 31⟩ 400 (by decide)).1

end mio

namespace mio

/-! ## Offsets and the order of dates -/

theorem day_number_lt_of_tie_less (a b : Date) (ha : a.calendar_valid) (hb : b.calendar_valid)
    (h : tie_less a b = true) : day_number a < day_number b := by
  have r1 := day_in_year_range a ha
  have r2 := day_in_year_range b hb
  simp only [tie_less, decide_eq_true_eq] at h
  unfold day_number
  rcases h with hy | ⟨hy, hm | ⟨hm, hd⟩⟩
  · have := days_before_year_mono _ _ hy
    omega
  · have := days_before_month_lt a.year a.month b.month ha.1 hm
    have a1 := ha.2.2.2
    have a2 := hb.2.2.1
    rw [hy] at this a1 ⊢
    omega
  · rw [hy, hm]
    omega

theorem tie_less_trichotomy (a b : Date) :
    (tie_less a b = true ∧ a ≠ b ∧ tie_less b a = false) ∨
    (tie_less a b = false ∧ a = b ∧ tie_less b a = false) ∨
    (tie_less a b = false ∧ a ≠ b ∧ tie_less b a = true) := by
  have heq : a = b ↔ a.year = b.year ∧ a.month = b.month ∧ a.day = b.day := by
    constructor
    · intro h
      subst h
      exact ⟨rfl, rfl, rfl⟩
    · intro h
      cases a
      cases b
      simp only at h
      obtain ⟨h1, h2, h3⟩ := h
      subst h1 h2 h3
      rfl
  simp only [tie_less, decide_eq_true_eq, decide_eq_false_iff_not, ne_eq, heq]
  omega

theorem tie_less_iff_day_number (a b : Date) (ha : a.calendar_valid) (hb : b.calendar_valid) :
    tie_less a b = true ↔ day_number a < day_number b := by
  constructor
  · exact day_number_lt_of_tie_less a b ha hb
  · intro h
    rcases tie_less_trichotomy a b with h1 | h1 | h1
    · exact h1.1
    · rw [h1.2.1] at h
      exact absurd h (lt_irrefl _)
    · have := day_number_lt_of_tie_less b a hb ha h1.2.2
      exact absurd h (not_lt.2 this.le)

/-- C34: for all calendar-valid dates `a` and `b`, `get_offset_in_days(a, b)` and
`get_offset_in_days(b, a)` return, the first is the negative of the second, it is positive
iff `b < a`, negative iff `a < b` and zero iff `a == b`. The `operator<` of `Date` is a
strict total order: exactly one of `a < b`, `a == b`, `b < a` holds, and it is
transitive. -/
theorem offset_agrees_with_order (a b : Date) (ha : a.calendar_valid)
    (hb : b.calendar_valid) :
    (∃ k1 k2, get_offset_in_days a b = some k1 ∧ get_offset_in_days b a = some k2 ∧
      k1 = -k2 ∧ (0 < k1 ↔ tie_less b a = true) ∧ (k1 < 0 ↔ tie_less a b = true) ∧
      (k1 = 0 ↔ a = b)) ∧
    ((tie_less a b = true ∧ a ≠ b ∧ tie_less b a = false) ∨
      (tie_less a b = false ∧ a = b ∧ tie_less b a = false) ∨
      (tie_less a b = false ∧ a ≠ b ∧ tie_less b a = true)) ∧
    (∀ c : Date, tie_less a b = true → tie_less b c = true → tie_less a c = true) := by
  refine ⟨⟨day_number a - day_number b, day_number b - day_number a,
    get_offset_in_days_eq a b ha.asserted hb.asserted,
    get_offset_in_days_eq b a hb.asserted ha.asserted, by ring, ?_, ?_, ?_⟩,
    tie_less_trichotomy a b, fun c h1 h2 => tie_less_trans a b c h1 h2⟩
  · rw [tie_less_iff_day_number b a hb ha]
    omega
  · rw [tie_less_iff_day_number a b ha hb]
    omega
  · constructor
    · intro h
      exact day_number_injective a b ha hb (by omega)
    · intro h
      rw [h]
      ring

/-- Witness of C34: 29 February 2020 and 1 March 2019. -/
theorem offset_agrees_with_order_witness :
    (∃ k1 k2, get_offset_in_days ⟨2020, 2, 29⟩ ⟨2019, 3, 1⟩ = some k1 ∧
      get_offset_in_days ⟨2019, 3, 1⟩ ⟨2020, 2, 29⟩ = some k2 ∧
      k1 = -k2 ∧ (0 < k1 ↔ tie_less ⟨2019, 3, 1⟩ ⟨2020, 2, 29⟩ = true) ∧
      (k1 < 0 ↔ tie_less ⟨2020, 2, 29⟩ ⟨2019, 3, 1⟩ = true) ∧
      (k1 = 0 ↔ (⟨2020, 2, 29⟩ : Date) = ⟨2019, 3, 1⟩)) ∧
    ((tie_less ⟨2020, 2, 29⟩ ⟨2019, 3, 1⟩ = true ∧ (⟨2020, 2, 29⟩ : Date) ≠ ⟨2019, 3, 1⟩ ∧
        tie_less ⟨2019, 3, 1⟩ ⟨2020, 2, 29⟩ = false) ∨
      (tie_less ⟨2020, 2, 29⟩ ⟨2019, 3, 1⟩ = false ∧ (⟨2020, 2, 29⟩ : Date) = ⟨2019, 3, 1⟩ ∧
        tie_less ⟨2019, 3, 1⟩ ⟨2020, 2, 29⟩ = false) ∨
      (tie_less ⟨2020, 2, 29⟩ ⟨2019, 3, 1⟩ = false ∧ (⟨2020, 2, 29⟩ : Date) ≠ ⟨2019, 3, 1⟩ ∧
        tie_less ⟨2019, 3, 1⟩ ⟨2020, 2, 29⟩ = true)) ∧
    (∀ c : Date, tie_less ⟨2020, 2, 29⟩ ⟨2019, 3, 1⟩ = true → tie_less ⟨2019, 3, 1⟩ c = true →
      tie_less ⟨2020, 2, 29⟩ c = true) :=
  offset_agrees_with_order ⟨2020, 2, 29⟩ ⟨2019, 3, 1⟩ (by decide) (by decide)

end mio

namespace epi

/-! ## Composition of `advance` -/

namespace GraphSimulation

variable {NP EP : Type}

theorem advance_loop_add (a b : Nat) : ∀ (sim : GraphSimulation NP EP),
    advance_loop (a + b) sim = (advance_loop a sim).bind (advance_loop b) := by
  induction a with
  | zero =>
    intro sim
    simp only [Nat.zero_add, advance_loop, Option.some_bind]
  | succ a ih =>
    intro sim
    rw [show a + 1 + b = (a + b) + 1 by omega]
    simp only [advance_loop]
    cases h : advance_step sim with
    | none => rfl
    | some s1 => exact ih s1

theorem advance_step_time (sim : GraphSimulation NP EP) (hv : sim.m_graph.InRange) :
    ∃ s1, sim.advance_step = some s1 ∧ s1.m_graph.InRange ∧ s1.m_t = sim.m_t + sim.m_dt ∧
      s1.m_dt = sim.m_dt := by
  obtain ⟨s1, h1, ht, hdt, -, -, hed, hlen, -⟩ :=
    node_loop_spec sim.m_graph.m_nodes.length 0 sim (by omega)
  have hv1 : s1.m_graph.InRange := by
    intro x hx
    rw [hed] at hx
    rw [hlen]
    exact hv x hx
  obtain ⟨s2, h2, hv2, -, ht2, hdt2⟩ := for_each_range edge_call
    (fun _ (s : GraphSimulation NP EP) =>
      s.m_graph.InRange ∧ s.m_graph.m_edges.length = s1.m_graph.m_edges.length ∧
        s.m_t = sim.m_t + sim.m_dt ∧ s.m_dt = sim.m_dt)
    s1.m_graph.m_edges.length ({ s1 with m_t := s1.m_t + s1.m_dt } : GraphSimulation NP EP)
    ⟨hv1, rfl, by simp only [ht, hdt], hdt⟩
    (fun j s hj hI => by
      obtain ⟨e, hje⟩ : ∃ e, s.m_graph.m_edges[j]? = some e :=
        ⟨_, List.getElem?_eq_getElem (by rw [hI.2.1]; exact hj)⟩
      have hmem : e ∈ s.m_graph.m_edges := List.getElem?_mem hje
      obtain ⟨s3, pr, h3, ht3, hdt3, -, -, hed3, hlen3, -⟩ :=
        edge_call_spec s j e hje (hI.1 e hmem).1 (hI.1 e hmem).2
      refine ⟨s3, h3, ?_, ?_, ht3.trans hI.2.2.1, hdt3.trans hI.2.2.2⟩
      · intro x hx
        rw [hed3] at hx
        rw [hlen3]
        rcases List.mem_or_eq_of_mem_set hx with hx | hx
        · exact hI.1 x hx
        · rw [hx]
          exact hI.1 e hmem
      · rw [hed3, List.length_set]
        exact hI.2.1)
  refine ⟨s2, ?_, hv2, ht2, hdt2⟩
  simp only [advance_step, List.range_eq_range', h1]
  rw [← List.range_eq_range']
  exact h2

theorem advance_loop_time (k : Nat) : ∀ (sim : GraphSimulation NP EP),
    sim.m_graph.InRange →
    ∃ s1, advance_loop k sim = some s1 ∧ s1.m_graph.InRange ∧
      s1.m_t = sim.m_t + (k : ℚ) * sim.m_dt ∧ s1.m_dt = sim.m_dt := by
  induction k with
  | zero =>
    intro sim hv
    exact ⟨sim, rfl, hv, by simp, rfl⟩
  | succ k ih =>
    intro sim hv
    obtain ⟨s1, h1, hv1, ht1, hdt1⟩ := advance_step_time sim hv
    obtain ⟨s2, h2, hv2, ht2, hdt2⟩ := ih s1 hv1
    refine ⟨s2, ?_, hv2, ?_, hdt2.trans hdt1⟩
    · simp only [advance_loop, h1]
      exact h2
    · rw [ht2, ht1, hdt1]
      push_cast
      ring

end GraphSimulation

/-- C31: for every `GraphSimulation` (its node and edge functions are functions of their
arguments) and all integers `a, b >= 0`, `advance(a)` followed by `advance(b)` yields the
same simulation, graph and time included, as `advance(a + b)`; `advance(n)` with `n <= 0`
changes nothing. On a graph whose edges point to existing nodes (every graph built through
the public interface) `advance(n)` returns and moves `get_t()` from `t` to `t + n * dt`
(exact arithmetic), leaving `dt` unchanged. -/
theorem advance_composes {NP EP : Type} (sim : GraphSimulation NP EP) (a b : ℤ)
    (ha : 0 ≤ a) (hb : 0 ≤ b) :
    sim.advance (a + b) = (sim.advance a).bind (fun s => s.advance b) ∧
    (∀ n : ℤ, n ≤ 0 → sim.advance n = some sim) ∧
    (sim.m_graph.InRange →
      (∃ s1 s2, sim.advance a = some s1 ∧ s1.advance b = some s2 ∧
        sim.advance (a + b) = some s2) ∧
      ∀ n : ℤ, 0 ≤ n → ∃ s, sim.advance n = some s ∧
        s.get_t = sim.get_t + (n : ℚ) * sim.m_dt ∧ s.m_dt = sim.m_dt) := by
  have hadd : sim.advance (a + b) = (sim.advance a).bind (fun s => s.advance b) := by
    simp only [GraphSimulation.advance, Int.toNat_add ha hb]
    exact GraphSimulation.advance_loop_add _ _ sim
  refine ⟨hadd, ?_, ?_⟩
  · intro n hn
    simp only [GraphSimulation.advance, Int.toNat_of_nonpos hn, GraphSimulation.advance_loop]
  · intro hv
    constructor
    · obtain ⟨s1, h1, hv1, -, -⟩ := GraphSimulation.advance_loop_time a.toNat sim hv
      obtain ⟨s2, h2, -, -, -⟩ := GraphSimulation.advance_loop_time b.toNat s1 hv1
      refine ⟨s1, s2, h1, h2, ?_⟩
      rw [hadd]
      simp only [GraphSimulation.advance] at h1 h2 ⊢
      rw [h1, Option.some_bind]
      exact h2
    · intro n hn
      obtain ⟨s, h1, -, ht, hdt⟩ := GraphSimulation.advance_loop_time n.toNat sim hv
      refine ⟨s, h1, ?_, hdt⟩
      have hcast : ((n.toNat : ℕ) : ℚ) = (n : ℚ) := by
        have : ((n.toNat : ℕ) : ℤ) = n := Int.toNat_of_nonneg hn
        exact_mod_cast this
      simp only [GraphSimulation.get_t, ht, hcast]

/-- Witness of C31: one step and then two steps of a simulation on two nodes. -/
theorem advance_composes_witness :
    graph_sim_test.advance (1 + 2) = (graph_sim_test.advance 1).bind (fun s => s.advance 2) ∧
    (∀ n : ℤ, n ≤ 0 → graph_sim_test.advance n = some graph_sim_test) ∧
    (graph_sim_test.m_graph.InRange →
      (∃ s1 s2, graph_sim_test.advance 1 = some s1 ∧ s1.advance 2 = some s2 ∧
        graph_sim_test.advance (1 + 2) = some s2) ∧
      ∀ n : ℤ, 0 ≤ n → ∃ s, graph_sim_test.advance n = some s ∧
        s.get_t = graph_sim_test.get_t + (n : ℚ) * graph_sim_test.m_dt ∧
        s.m_dt = graph_sim_test.m_dt) :=
  advance_composes graph_sim_test 1 2 (by decide) (by decide)

end epi

namespace mio

/-! ## Percentiles and the order of the runs -/

theorem run_values_perm (ens ens2 : List (List TimeSeries)) (n t e : Nat)
    (h : ens.Perm ens2) : (run_values ens n t e).Perm (run_values ens2 n t e) :=
  h.map _

theorem percentile_value_perm (ens ens2 : List (List TimeSeries)) (p : ℚ) (n t e : Nat)
    (h : ens.Perm ens2) : percentile_value ens2 p n t e = percentile_value ens p n t e := by
  have hsort : (run_values ens2 n t e).insertionSort (fun a b => a ≤ b) =
      (run_values ens n t e).insertionSort (fun a b => a ≤ b) := by
    refine List.eq_of_perm_of_sorted ?_ (List.sorted_insertionSort _ _)
      (List.sorted_insertionSort _ _)
    exact ((List.perm_insertionSort _ _).trans (run_values_perm ens ens2 n t e h).symm).trans
      (List.perm_insertionSort _ _).symm
  unfold percentile_value
  rw [hsort, h.length_eq]

theorem percentile_value_mem (ens : List (List TimeSeries)) (p : ℚ) (n t e : Nat) (x : ℚ)
    (h : percentile_value ens p n t e = some x) : x ∈ run_values ens n t e := by
  unfold percentile_value at h
  exact (List.perm_insertionSort _ _).mem_iff.1 (List.getElem?_mem h)

theorem percentile_value_between (ens : List (List TimeSeries)) (p : ℚ) (n t e : Nat) (x : ℚ)
    (h : percentile_value ens p n t e = some x) :
    ∃ lo hi, lo ∈ run_values ens n t e ∧ hi ∈ run_values ens n t e ∧
      (∀ v ∈ run_values ens n t e, lo ≤ v ∧ v ≤ hi) ∧ lo ≤ x ∧ x ≤ hi := by
  unfold percentile_value at h
  have hsorted : ((run_values ens n t e).insertionSort (fun a b => a ≤ b)).Sorted
      (fun a b => a ≤ b) := List.sorted_insertionSort _ _
  have hperm := List.perm_insertionSort (fun (a b : ℚ) => a ≤ b) (run_values ens n t e)
  obtain ⟨hk, hx⟩ := List.getElem?_eq_some_iff.1 h
  have hpos : 0 < ((run_values ens n t e).insertionSort (fun a b => a ≤ b)).length := by omega
  have hlast : ((run_values ens n t e).insertionSort (fun a b => a ≤ b)).length - 1 <
      ((run_values ens n t e).insertionSort (fun a b => a ≤ b)).length := by omega
  have hle : ∀ i j (hi : i < ((run_values ens n t e).insertionSort (fun a b => a ≤ b)).length)
      (hj : j < ((run_values ens n t e).insertionSort (fun a b => a ≤ b)).length), i ≤ j →
      ((run_values ens n t e).insertionSort (fun a b => a ≤ b))[i] ≤
        ((run_values ens n t e).insertionSort (fun a b => a ≤ b))[j] := by
    intro i j hi hj hij
    rcases Nat.lt_or_eq_of_le hij with hlt | heq
    · exact (List.pairwise_iff_getElem.1 hsorted) i j hi hj hlt
    · subst heq
      exact le_rfl
  refine ⟨((run_values ens n t e).insertionSort (fun a b => a ≤ b))[0],
    ((run_values ens n t e).insertionSort (fun a b => a ≤ b))[
      ((run_values ens n t e).insertionSort (fun a b => a ≤ b)).length - 1],
    hperm.mem_iff.1 (List.getElem_mem hpos), hperm.mem_iff.1 (List.getElem_mem hlast), ?_, ?_, ?_⟩
  · intro v hv
    obtain ⟨i, hi, hvi⟩ := List.getElem_of_mem (hperm.mem_iff.2 hv)
    rw [← hvi]
    exact ⟨hle 0 i hpos hi (Nat.zero_le i), hle i _ hi hlast (by omega)⟩
  · rw [← hx]
    exact hle 0 _ hpos hk (Nat.zero_le _)
  · rw [← hx]
    exact hle _ _ hk hlast (by omega)

/-- C35: for every uniform ensemble of at least one run and every `p` in `(0, 1)`, the
index `floor(N * p)` that `ensemble_percentile` uses is smaller than the number `N` of
runs, and the values of `ensemble_percentile` do not depend on the order of the runs:
whenever the function returns for the ensemble and for a permutation of its runs (it does
when the runs have at least one node), the two results hold the same value at every
`(node, time, element)`. That value is the value of one of the runs at that position, so it
lies between the minimum and the maximum of the run values there. -/
theorem ensemble_percentile_order_independent (ens ens2 : List (List TimeSeries)) (p : ℚ)
    (N T E : Nat) (hN : 1 ≤ ens.length) (hu : Uniform ens N T E) (hp0 : 0 < p) (hp1 : p < 1)
    (hperm : ens.Perm ens2) :
    (⌊(ens.length : ℚ) * p⌋).toNat < ens.length ∧
    (1 ≤ N → ∃ res res2, ensemble_percentile ens p = some res ∧
      ensemble_percentile ens2 p = some res2) ∧
    ∀ res res2, ensemble_percentile ens p = some res → ensemble_percentile ens2 p = some res2 →
      ∀ n t e, n < N → t < T → e < E →
        ∃ x, read_elem res n t e = some x ∧ read_elem res2 n t e = some x ∧
          (∃ run ∈ ens, read_elem run n t e = some x) ∧
          ∃ lo hi, lo ∈ run_values ens n t e ∧ hi ∈ run_values ens n t e ∧
            (∀ v ∈ run_values ens n t e, lo ≤ v ∧ v ≤ hi) ∧ lo ≤ x ∧ x ≤ hi := by
  have hu2 : Uniform ens2 N T E := fun run hrun => hu run (hperm.mem_iff.2 hrun)
  have hN2 : 1 ≤ ens2.length := by rw [← hperm.length_eq]; exact hN
  refine ⟨percentile_index_lt _ p hN hp0 hp1, ?_, ?_⟩
  · intro hnodes
    obtain ⟨res, -, h1, -⟩ := ensemble_percentile_run ens p N T E hu hN hnodes hp0 hp1
    obtain ⟨res2, -, h2, -⟩ := ensemble_percentile_run ens2 p N T E hu2 hN2 hnodes hp0 hp1
    exact ⟨res, res2, h1, h2⟩
  · intro res res2 h1 h2 n t e hn ht he
    have hnodes : 1 ≤ N := by omega
    obtain ⟨r1, -, a1, -, -, aE, -⟩ := ensemble_percentile_run ens p N T E hu hN hnodes hp0 hp1
    obtain ⟨r2, -, b1, -, -, bE, -⟩ :=
      ensemble_percentile_run ens2 p N T E hu2 hN2 hnodes hp0 hp1
    rw [h1] at a1
    rw [h2] at b1
    simp only [Option.some.injEq] at a1 b1
    subst a1 b1
    obtain ⟨x, hx⟩ := percentile_value_some ens p n t e hN hp0 hp1
    have hmem := percentile_value_mem ens p n t e x hx
    refine ⟨x, (aE n t e hn ht he).trans hx,
      (bE n t e hn ht he).trans ((percentile_value_perm ens ens2 p n t e hperm).trans hx), ?_,
      percentile_value_between ens p n t e x hx⟩
    obtain ⟨run, hrun, hval⟩ := List.mem_map.1 hmem
    refine ⟨run, hrun, ?_⟩
    rw [← hval]
    exact run_value_read run N T E n t e (hu run hrun) hn ht he

/-- Witness of C35: the ensemble of the test `TestEnsemblePercentile.basic` and its runs in
reverse order. -/
theorem ensemble_percentile_order_independent_witness :
    (⌊(ensemble_percentile_test.length : ℚ) * (1 / 2)⌋).toNat < ensemble_percentile_test.length ∧
    (1 ≤ 2 → ∃ res res2, ensemble_percentile ensemble_percentile_test (1 / 2) = some res ∧
      ensemble_percentile ensemble_percentile_test.reverse (1 / 2) = some res2) ∧
    ∀ res res2, ensemble_percentile ensemble_percentile_test (1 / 2) = some res →
      ensemble_percentile ensemble_percentile_test.reverse (1 / 2) = some res2 →
      ∀ n t e, n < 2 → t < 3 → e < 2 →
        ∃ x, read_elem res n t e = some x ∧ read_elem res2 n t e = some x ∧
          (∃ run ∈ ensemble_percentile_test, read_elem run n t e = some x) ∧
          ∃ lo hi, lo ∈ run_values ensemble_percentile_test n t e ∧
            hi ∈ run_values ensemble_percentile_test n t e ∧
            (∀ v ∈ run_values ensemble_percentile_test n t e, lo ≤ v ∧ v ≤ hi) ∧
            lo ≤ x ∧ x ≤ hi :=
  ensemble_percentile_order_independent ensemble_percentile_test
    ensemble_percentile_test.reverse (1 / 2) 2 3 2 (by decide) (by decide) (by norm_num)
    (by norm_num) (List.reverse_perm _).symm

end mio
